import Mathlib

/-!
Verification development for the tree-simplification engine of the
Figma-Context-MCP repository (file `simplify-node-response`, variant with
`parseGlobalVars`).  JavaScript runtime values are modelled by the mutual
inductive family `JVal`/`JArr`/`JObj` below; JS objects are ordered key/value
sequences (string keys, insertion order), matching `Object.entries`
iteration order for the non-integer-like keys this engine uses.  JS numbers
are modelled as rationals.  The engine itself is translated function by
function further down.
-/

mutual
inductive JVal where
  | undef
  | jnull
  | bool (b : Bool)
  | num (q : ℚ)
  | str (s : String)
  | arr (elems : JArr)
  | obj (fields : JObj)
deriving DecidableEq
inductive JArr where
  | nil
  | cons (hd : JVal) (tl : JArr)
deriving DecidableEq
inductive JObj where
  | nil
  | cons (key : String) (val : JVal) (tl : JObj)
deriving DecidableEq
end

namespace JArr

/-- Append of JS arrays. -/
def append : JArr → JArr → JArr
  | .nil, ys => ys
  | .cons x tl, ys => .cons x (append tl ys)

/-- View a modelled JS array as a Lean list. -/
def toList : JArr → List JVal
  | .nil => []
  | .cons x tl => x :: toList tl

/-- Build a modelled JS array from a Lean list. -/
def ofList : List JVal → JArr
  | [] => .nil
  | x :: tl => .cons x (ofList tl)

/-- Number of elements (JS `array.length`). -/
def length : JArr → Nat
  | .nil => 0
  | .cons _ tl => length tl + 1

end JArr

namespace JObj

/-- Property read: value of the first binding of `key` (JS `o[key]`;
objects built by the engine have unique keys). -/
def get : JObj → String → Option JVal
  | .nil, _ => none
  | .cons k v tl, key => if k = key then some v else get tl key

/-- Property write (JS `o[key] = v`): replaces the binding in place when the
key exists, otherwise appends it, exactly like JS insertion-order objects. -/
def set : JObj → String → JVal → JObj
  | .nil, key, v => .cons key v .nil
  | .cons k w tl, key, v =>
      if k = key then .cons k v tl else .cons k w (set tl key v)

/-- Property delete (JS `delete o[key]`). -/
def del : JObj → String → JObj
  | .nil, _ => .nil
  | .cons k v tl, key => if k = key then tl else .cons k v (del tl key)

/-- Keys in iteration order (JS `Object.keys`). -/
def keys : JObj → List String
  | .nil => []
  | .cons k _ tl => k :: keys tl

/-- Bindings in iteration order (JS `Object.entries`). -/
def toList : JObj → List (String × JVal)
  | .nil => []
  | .cons k v tl => (k, v) :: toList tl

/-- Number of keys (JS `Object.keys(o).length`). -/
def length : JObj → Nat
  | .nil => 0
  | .cons _ _ tl => length tl + 1

end JObj

mutual
/-- Canonical form of a value under JSON serialization: `JSON.stringify`
omits object properties whose value is `undefined` and serializes
`undefined` array elements as `null`.  Two values have equal
`JSON.stringify` output exactly when their canonical forms are equal, so
the engine's serialization-based comparisons are modelled by equality of
`canon` images. -/
def canon : JVal → JVal
  | .undef => .undef
  | .jnull => .jnull
  | .bool b => .bool b
  | .num q => .num q
  | .str s => .str s
  | .arr xs => .arr (canonArr xs)
  | .obj fs => .obj (canonObj fs)
/-- Canonical form of each array element, `undefined` becoming `null`. -/
def canonArr : JArr → JArr
  | .nil => .nil
  | .cons v tl =>
      .cons (match canon v with | .undef => .jnull | w => w) (canonArr tl)
/-- Canonical form of object fields, `undefined`-valued fields dropped. -/
def canonObj : JObj → JObj
  | .nil => .nil
  | .cons k v tl =>
      match canon v with
      | .undef => canonObj tl
      | w => .cons k w (canonObj tl)
end

/-- Emptiness test used by the empty-key pruner: `undefined`, the empty
array and the empty object are the values whose keys get omitted. -/
def isEmptyish : JVal → Bool
  | .undef => true
  | .arr .nil => true
  | .obj .nil => true
  | _ => false

mutual
/-- Translation of `removeEmptyKeys` (src/src/server.ts lines 196-230, the
utils document concatenated into the server file; part_001 imports it from
`~/utils/common`): non-object/null input is returned unchanged, arrays are
mapped elementwise, and an object key is omitted exactly when its
recursively pruned value is `undefined`, an empty array or an empty object
(the kept value being the pruned one; `null` is kept, as the source
excludes it from the empty-object test). -/
def removeEmptyKeys : JVal → JVal
  | .arr xs => .arr (removeEmptyKeysArr xs)
  | .obj fs => .obj (removeEmptyKeysObj fs)
  | v => v
/-- Elementwise pruning of an array (array elements are never dropped). -/
def removeEmptyKeysArr : JArr → JArr
  | .nil => .nil
  | .cons v tl => .cons (removeEmptyKeys v) (removeEmptyKeysArr tl)
/-- Pruning of object fields: a key is kept only when its pruned value is
not empty-ish, and then it keeps the pruned value. -/
def removeEmptyKeysObj : JObj → JObj
  | .nil => .nil
  | .cons k v tl =>
      let w := removeEmptyKeys v
      if isEmptyish w then removeEmptyKeysObj tl
      else .cons k w (removeEmptyKeysObj tl)
end

/-- Children array of a simplified node object (empty when the node has no
`children` property or is not an object). -/
def childrenArr : JVal → JArr
  | .obj fs =>
      match fs.get "children" with
      | some (.arr xs) => xs
      | _ => .nil
  | _ => .nil

/-- Identifier of a simplified node object, when present as a string. -/
def nodeId : JVal → Option String
  | .obj fs =>
      match fs.get "id" with
      | some (.str s) => some s
      | _ => none
  | _ => none

mutual
/-- Depth-first search of the source's `findNodeById`: check the node
itself, then recurse into its `children` array, then move to the next
sibling.  The recursion descends through the object's field list so that
Lean sees it as structural; on the engine's trees (one `children` key per
node) this coincides with reading the `children` property. -/
def findV (pid : String) : JVal → Option JVal
  | .obj fs =>
      if fs.get "id" = some (.str pid) then some (.obj fs)
      else findFields pid fs
  | _ => none
/-- Search the `children` field of a node's field list. -/
def findFields (pid : String) : JObj → Option JVal
  | .nil => none
  | .cons k v tl =>
      if k = "children" then
        match v with
        | .arr xs =>
            match findA pid xs with
            | some r => some r
            | none => findFields pid tl
        | _ => findFields pid tl
      else findFields pid tl
/-- Search a list of sibling nodes left to right. -/
def findA (pid : String) : JArr → Option JVal
  | .nil => none
  | .cons v tl =>
      match findV pid v with
      | some r => some r
      | none => findA pid tl
end

/-- Minimal image placeholder the vector-grouping pass rewrites a located
parent node into: its whole field set is replaced by just the preserved
`id` and `type: "IMAGE"` (variant A of the spec). -/
def imageStub (pid : String) : JVal :=
  .obj (.cons "id" (.str pid) (.cons "type" (.str "IMAGE") .nil))

mutual
/-- Functional counterpart of the vector-grouping in-place mutation: the
first node found by the `findV` search order is replaced by `imageStub`;
the boolean reports whether a replacement happened.  When the id is not
found the tree is returned unchanged. -/
def rewV (pid : String) : JVal → JVal × Bool
  | .obj fs =>
      if fs.get "id" = some (.str pid) then (imageStub pid, true)
      else
        let r := rewFields pid fs
        (.obj r.1, r.2)
  | v => (v, false)
/-- Rewrite inside the `children` field of a node's field list. -/
def rewFields (pid : String) : JObj → JObj × Bool
  | .nil => (.nil, false)
  | .cons k v tl =>
      if k = "children" then
        match v with
        | .arr xs =>
            let r := rewA pid xs
            if r.2 then (.cons k (.arr r.1) tl, true)
            else
              let rt := rewFields pid tl
              (.cons k (.arr r.1) rt.1, rt.2)
        | _ =>
            let rt := rewFields pid tl
            (.cons k v rt.1, rt.2)
      else
        let rt := rewFields pid tl
        (.cons k v rt.1, rt.2)
/-- Rewrite the first match among sibling nodes, left to right. -/
def rewA (pid : String) : JArr → JArr × Bool
  | .nil => (.nil, false)
  | .cons v tl =>
      let r := rewV pid v
      if r.2 then (.cons r.1 tl, true)
      else
        let rt := rewA pid tl
        (.cons r.1 rt.1, rt.2)
end

mutual
/-- All node objects of a subtree in the `findV` traversal order (the node
itself followed by the nodes of its `children` array). -/
def allV : JVal → List JVal
  | .obj fs => .obj fs :: allFields fs
  | _ => []
/-- Node objects reachable through the `children` field of a field list. -/
def allFields : JObj → List JVal
  | .nil => []
  | .cons k v tl =>
      (if k = "children" then
        match v with
        | .arr xs => allA xs
        | _ => []
      else []) ++ allFields tl
/-- All node objects of a forest. -/
def allA : JArr → List JVal
  | .nil => []
  | .cons v tl => allV v ++ allA tl
end

mutual
/-- Every string stored under an `id` key anywhere inside a value; used to
express that an identifier does not occur in an output tree. -/
def idsV : JVal → List String
  | .obj fs => idsObj fs
  | .arr xs => idsArr xs
  | .undef => []
  | .jnull => []
  | .bool _ => []
  | .num _ => []
  | .str _ => []
/-- Helper for `idsV` on object fields. -/
def idsObj : JObj → List String
  | .nil => []
  | .cons k v tl =>
      (if k = "id" then
        match v with
        | .str s => [s]
        | _ => []
      else []) ++ idsV v ++ idsObj tl
/-- Helper for `idsV` on arrays. -/
def idsArr : JArr → List String
  | .nil => []
  | .cons v tl => idsV v ++ idsArr tl
end

/-- Raw RGBA color with 0-1 float channels, as received from the API. -/
structure RGBA where
  r : ℚ
  g : ℚ
  b : ℚ
  a : ℚ
deriving DecidableEq

/-- Raw text-style block of a node (`n.style`); every field is optional,
mirroring the open typography object of the API. -/
structure RawStyle where
  fontFamily : Option String
  fontWeight : Option ℚ
  fontSize : Option ℚ
  lineHeightPx : Option ℚ
  letterSpacing : Option ℚ
  textCase : Option String
  textAlignHorizontal : Option String
  textAlignVertical : Option String
deriving DecidableEq

/-- Number of present fields of a raw style block, modelling
`Object.keys(n.style).length` for the typography keys the engine reads. -/
def RawStyle.keyCount (st : RawStyle) : Nat :=
  (if st.fontFamily.isSome then 1 else 0) + (if st.fontWeight.isSome then 1 else 0) +
  (if st.fontSize.isSome then 1 else 0) + (if st.lineHeightPx.isSome then 1 else 0) +
  (if st.letterSpacing.isSome then 1 else 0) + (if st.textCase.isSome then 1 else 0) +
  (if st.textAlignHorizontal.isSome then 1 else 0) +
  (if st.textAlignVertical.isSome then 1 else 0)

/-- Gradient stop of a raw gradient paint. -/
structure RawStop where
  position : ℚ
  color : RGBA
deriving DecidableEq

/-- Raw paint entry of a `fills`/`strokes` list: a dynamic record
discriminated by its `type` tag. -/
structure RawPaint where
  ptype : String
  color : Option RGBA
  opacity : Option ℚ
  imageRef : Option String
  scaleMode : Option String
  gradientHandlePositions : JVal
  gradientStops : List RawStop
deriving DecidableEq

/-- Raw per-side stroke weights (`individualStrokeWeights` after the
`isStrokeWeights` shape validation). -/
structure RawWeights where
  top : ℚ
  right : ℚ
  bottom : ℚ
  left : ℚ
deriving DecidableEq

mutual
/-- Raw document node: the open, type-tagged union of the API, modelled as
a record of optional fields plus an owned ordered children forest.  A
missing `visible` defaults to `true`, so the field here is the effective
boolean. -/
inductive RawNode where
  | node (id : String) (name : String) (ntype : String) (visible : Bool)
      (style : Option RawStyle) (fills : Option (List RawPaint))
      (styles : Option JVal) (strokes : Option (List RawPaint))
      (characters : Option String) (strokeWeight : Option ℚ)
      (strokeDashes : Option (List ℚ)) (individualStrokeWeights : Option RawWeights)
      (opacity : Option ℚ) (cornerRadius : Option ℚ) (children : RawForest)
deriving DecidableEq
/-- Ordered sequence of raw sibling nodes. -/
inductive RawForest where
  | nil
  | cons (hd : RawNode) (tl : RawForest)
deriving DecidableEq
end

namespace RawNode
def id : RawNode → String | .node i _ _ _ _ _ _ _ _ _ _ _ _ _ _ => i
def name : RawNode → String | .node _ n _ _ _ _ _ _ _ _ _ _ _ _ _ => n
def ntype : RawNode → String | .node _ _ t _ _ _ _ _ _ _ _ _ _ _ _ => t
def visible : RawNode → Bool | .node _ _ _ v _ _ _ _ _ _ _ _ _ _ _ => v
def style : RawNode → Option RawStyle | .node _ _ _ _ s _ _ _ _ _ _ _ _ _ _ => s
def fills : RawNode → Option (List RawPaint) | .node _ _ _ _ _ f _ _ _ _ _ _ _ _ _ => f
def styles : RawNode → Option JVal | .node _ _ _ _ _ _ s _ _ _ _ _ _ _ _ => s
def strokes : RawNode → Option (List RawPaint) | .node _ _ _ _ _ _ _ s _ _ _ _ _ _ _ => s
def characters : RawNode → Option String | .node _ _ _ _ _ _ _ _ c _ _ _ _ _ _ => c
def strokeWeight : RawNode → Option ℚ | .node _ _ _ _ _ _ _ _ _ w _ _ _ _ _ => w
def strokeDashes : RawNode → Option (List ℚ) | .node _ _ _ _ _ _ _ _ _ _ d _ _ _ _ => d
def individualStrokeWeights : RawNode → Option RawWeights
  | .node _ _ _ _ _ _ _ _ _ _ _ i _ _ _ => i
def opacity : RawNode → Option ℚ | .node _ _ _ _ _ _ _ _ _ _ _ _ o _ _ => o
def cornerRadius : RawNode → Option ℚ | .node _ _ _ _ _ _ _ _ _ _ _ _ _ c _ => c
def children : RawNode → RawForest | .node _ _ _ _ _ _ _ _ _ _ _ _ _ _ c => c
end RawNode

/-- Clamp a rational to the unit interval. -/
def clamp01 (q : ℚ) : ℚ := min 1 (max 0 q)

/-- Rounding to two decimal places with JS `Math.round` semantics (half
rounds up). -/
def round2 (q : ℚ) : ℚ := (round (q * 100) : ℤ) / 100

/-- Hexadecimal digit characters. -/
def hexDigits : List Char :=
  ['0', '1', '2', '3', '4', '5', '6', '7', '8', '9', 'A', 'B', 'C', 'D', 'E', 'F']

/-- Two-digit uppercase hexadecimal rendering of a byte value. -/
def toHexByte (n : ℤ) : String :=
  let m := (n.toNat) % 256
  String.mk [hexDigits.getD (m / 16) '0', hexDigits.getD (m % 16) '0']

/-- Translation of `convertColor` (src/src/server.ts lines 265-276, the
utils document concatenated into the server file; part_001 imports it from
`~/utils/common`): the hex is computed from the RGB channels scaled to
0-255 and rounded, and the returned opacity is
`Math.round(opacity * color.a * 100) / 100` — the two-decimal rounding of
the product of the paint opacity (defaulting to 1) and the color's native
alpha, with no clamping.  The result is the pair (hex, opacity). -/
def convertColor (c : RGBA) (opacity : ℚ := 1) : String × ℚ :=
  ("#" ++ toHexByte (round (c.r * 255)) ++ toHexByte (round (c.g * 255)) ++
      toHexByte (round (c.b * 255)),
    round2 (opacity * c.a))

/-- The color token of `convertColor` as the JS object it is spread into
(`hex` then `opacity`). -/
def convertColorObj (c : RGBA) (opacity : ℚ := 1) : JVal :=
  .obj (.cons "hex" (.str (convertColor c opacity).1)
    (.cons "opacity" (.num (convertColor c opacity).2) .nil))

/-- Paint tags the normalizer recognizes as gradients. -/
def gradientTypes : List String :=
  ["GRADIENT_LINEAR", "GRADIENT_RADIAL", "GRADIENT_ANGULAR", "GRADIENT_DIAMOND"]

/-- Optional string as a JS property value (`undefined` when absent). -/
def jstrOpt : Option String → JVal
  | none => .undef
  | some s => .str s

/-- Gradient stops of a gradient paint as the objects the normalizer
builds (`position` then `color`, the color run through `convertColor` with
its default opacity of 1). -/
def gradientStopsVal : List RawStop → JArr
  | [] => .nil
  | st :: tl =>
      .cons (.obj (.cons "position" (.num st.position)
          (.cons "color" (convertColorObj st.color) .nil)))
        (gradientStopsVal tl)

/-- Translation of the source's `parsePaint`: solid, image and the four
gradient kinds are normalized; any other tag throws, which the embedding
returns as `Except.error`.  A `SOLID` paint without a color hits the
source's non-null assertion `raw.color!`; the resulting runtime failure is
modelled as an error as well. -/
def parsePaint (raw : RawPaint) : Except String JVal :=
  if raw.ptype = "IMAGE" then
    .ok (.obj (.cons "type" (.str "IMAGE")
      (.cons "imageRef" (jstrOpt raw.imageRef)
        (.cons "scaleMode" (jstrOpt raw.scaleMode) .nil))))
  else if raw.ptype = "SOLID" then
    match raw.color with
    | some c =>
        let conv := convertColor c (match raw.opacity with | some o => o | none => 1)
        .ok (.obj (.cons "type" (.str "SOLID")
          (.cons "hex" (.str conv.1) (.cons "opacity" (.num conv.2) .nil))))
    | none => .error "missing color on solid paint"
  else if raw.ptype ∈ gradientTypes then
    .ok (.obj (.cons "type" (.str raw.ptype)
      (.cons "gradientHandlePositions" raw.gradientHandlePositions
        (.cons "gradientStops" (.arr (gradientStopsVal raw.gradientStops)) .nil))))
  else
    .error ("Unknown paint type: " ++ raw.ptype)

/-- The source maps `n.fills.map(parsePaint)`; a throw from any entry
aborts the whole list, which is what sequencing in `Except` does. -/
def mapPaints : List RawPaint → Except String JArr
  | [] => .ok .nil
  | p :: tl => do
      let v ← parsePaint p
      let rest ← mapPaints tl
      .ok (.cons v rest)

/-- The global-variable store: the `globalVars` JS object, as the ordered
binding list that `Object.entries` iterates. -/
abbrev Store := List (String × JVal)

/-- Value bound to a key in the store. -/
def storeGet : Store → String → Option JVal
  | [], _ => none
  | (k, v) :: tl, key => if k = key then some v else storeGet tl key

/-- Property write on the store object (replace in place or append). -/
def storeSet : Store → String → JVal → Store
  | [], key, v => [(key, v)]
  | (k, w) :: tl, key, v =>
      if k = key then (k, v) :: tl else (k, w) :: storeSet tl key v

/-- Property delete on the store object. -/
def storeDel : Store → String → Store
  | [], _ => []
  | (k, v) :: tl, key => if k = key then tl else (k, v) :: storeDel tl key

/-- Keys of the store in iteration order. -/
def storeKeys (gv : Store) : List String := gv.map Prod.fst

/-- Engine state threaded through one simplification run: the store plus
the supply counter for generated variable ids.  The source's
`generateVarId` draws a random id; the embedding keeps it abstract as a
function `gen` from the number of ids generated so far, and theorems state
the freshness the source relies on as hypotheses. -/
structure St where
  gv : Store
  ctr : Nat
deriving DecidableEq

/-- Translation of the source's `findOrCreateVar`: serialize-compare the
value against every existing entry (`JSON.stringify` equality is `canon`
equality); return the first match's key when that key is truthy (a
non-empty string), otherwise mint the next generated id and append the
binding. -/
def findOrCreateVar (gen : Nat → String) (st : St) (v : JVal) : String × St :=
  match st.gv.find? (fun e => canon e.2 == canon v) with
  | some e =>
      if e.1 = "" then
        (gen st.ctr, ⟨st.gv ++ [(gen st.ctr, v)], st.ctr + 1⟩)
      else (e.1, st)
  | none => (gen st.ctr, ⟨st.gv ++ [(gen st.ctr, v)], st.ctr + 1⟩)

/-- Current `vectorParents` bucket of the store (the transient bookkeeping
object installed by the entry points). -/
def bucketOf (gv : Store) : JObj :=
  match storeGet gv "vectorParents" with
  | some (.obj b) => b
  | _ => .nil

/-- The canonical `TextStyle` record built by the walker's text branch:
line height falls back to the font size when `lineHeightPx` is nullish
(`??`), and a zero or missing letter spacing produces `undefined` (the
source's `style.letterSpacing && style.letterSpacing !== 0` guard). -/
def mkTextStyleFields (rs : RawStyle) : JObj :=
  .cons "fontFamily" (jstrOpt rs.fontFamily)
    (.cons "fontWeight" (match rs.fontWeight with | some q => .num q | none => .undef)
      (.cons "fontSize" (match rs.fontSize with | some q => .num q | none => .undef)
        (.cons "lineHeight"
          (match rs.lineHeightPx with
            | some q => .num q
            | none => match rs.fontSize with | some q => .num q | none => .undef)
          (.cons "letterSpacing"
            (match rs.letterSpacing with
              | some q => if q = 0 then .undef else .num q
              | none => .undef)
            (.cons "textCase" (jstrOpt rs.textCase)
              (.cons "textAlignHorizontal" (jstrOpt rs.textAlignHorizontal)
                (.cons "textAlignVertical" (jstrOpt rs.textAlignVertical) .nil)))))))

/-- The canonical `TextStyle` record as the JS object literal. -/
def mkTextStyle (rs : RawStyle) : JVal := .obj (mkTextStyleFields rs)

/-- The per-side stroke-weight record registered for
`individualStrokeWeights`. -/
def mkWeights (w : RawWeights) : JVal :=
  .obj (.cons "top" (.num w.top) (.cons "right" (.num w.right)
    (.cons "bottom" (.num w.bottom) (.cons "left" (.num w.left) .nil))))

/-- Decimal rendering of a JS number for the `px`-suffixed strings the
walker emits; only its injectivity on the values at hand matters to the
claims, not the exact digits. -/
def qToString (q : ℚ) : String :=
  if q.den = 1 then toString q.num else toString q.num ++ "/" ++ toString q.den

/-- The `VectorParentRecord` stored per raw parent of a VECTOR node. -/
def mkVPRecord (parent : RawNode) (cid : String) : JVal :=
  .obj (.cons "parentId" (.str parent.id)
    (.cons "parentName" (.str parent.name)
      (.cons "parentType" (.str parent.ntype)
        (.cons "childrenId" (.str cid) .nil))))

/-- Text branch of the walker: when `n.style` is present and non-empty the
`TextStyle` record is registered and the node stores the returned
reference. -/
def stepStyle (gen : Nat → String) (n : RawNode) (a : JObj × St) : JObj × St :=
  match n.style with
  | some rs =>
      if rs.keyCount ≠ 0 then
        let r := findOrCreateVar gen a.2 (mkTextStyle rs)
        (a.1.set "textStyle" (.str r.1), r.2)
      else a
  | none => a

/-- Fills branch: present non-empty `fills` are normalized entrywise and
the whole ordered list registered as one variable. -/
def stepFills (gen : Nat → String) (n : RawNode) (a : JObj × St) :
    Except String (JObj × St) :=
  match n.fills with
  | some fl =>
      if fl ≠ [] then do
        let pf ← mapPaints fl
        let r := findOrCreateVar gen a.2 (.arr pf)
        .ok (a.1.set "fills" (.str r.1), r.2)
      else .ok a
  | none => .ok a

/-- Styles branch: a present raw `styles` value is registered as-is. -/
def stepStyles (gen : Nat → String) (n : RawNode) (a : JObj × St) : JObj × St :=
  match n.styles with
  | some sv =>
      let r := findOrCreateVar gen a.2 sv
      (a.1.set "styles" (.str r.1), r.2)
  | none => a

/-- Strokes branch, the mirror image of the fills branch. -/
def stepStrokes (gen : Nat → String) (n : RawNode) (a : JObj × St) :
    Except String (JObj × St) :=
  match n.strokes with
  | some sl =>
      if sl ≠ [] then do
        let ps ← mapPaints sl
        let r := findOrCreateVar gen a.2 (.arr ps)
        .ok (a.1.set "strokes" (.str r.1), r.2)
      else .ok a
  | none => .ok a

/-- Layout branch: the external layout builder's result is registered only
when it carries more than one field. -/
def stepLayout (lay : RawNode → Option RawNode → JObj) (gen : Nat → String)
    (n : RawNode) (parent : Option RawNode) (a : JObj × St) : JObj × St :=
  let layout := lay n parent
  if layout.length > 1 then
    let r := findOrCreateVar gen a.2 (.obj layout)
    (a.1.set "layout" (.str r.1), r.2)
  else a

/-- Characters branch: a truthy `characters` string is kept inline. -/
def stepText (n : RawNode) (a : JObj × St) : JObj × St :=
  match n.characters with
  | some s => if s ≠ "" then (a.1.set "text" (.str s), a.2) else a
  | none => a

/-- Stroke-weight branch: propagated only when the node's `strokes`
reference is a truthy string (`simplified.strokes?.length`). -/
def stepStrokeWeight (n : RawNode) (a : JObj × St) : JObj × St :=
  match n.strokeWeight with
  | some w =>
      match a.1.get "strokes" with
      | some (.str sref) =>
          if sref ≠ "" then (a.1.set "strokeWeight" (.num w), a.2) else a
      | _ => a
  | none => a

/-- Dash-pattern branch: a present non-empty `strokeDashes` array is kept
inline. -/
def stepStrokeDashes (n : RawNode) (a : JObj × St) : JObj × St :=
  match n.strokeDashes with
  | some ds =>
      if ds ≠ [] then
        (a.1.set "strokeDashes" (.arr (JArr.ofList (ds.map JVal.num))), a.2)
      else a
  | none => a

/-- Per-side stroke-weights branch: the validated record is registered. -/
def stepWeights (gen : Nat → String) (n : RawNode) (a : JObj × St) : JObj × St :=
  match n.individualStrokeWeights with
  | some w =>
      let r := findOrCreateVar gen a.2 (mkWeights w)
      (a.1.set "individualStrokeWeights" (.str r.1), r.2)
  | none => a

/-- Opacity branch: a numeric `opacity` is kept inline. -/
def stepOpacity (n : RawNode) (a : JObj × St) : JObj × St :=
  match n.opacity with
  | some o => (a.1.set "opacity" (.num o), a.2)
  | none => a

/-- Corner branch: a numeric `cornerRadius` becomes the `borderRadius`
pixel string. -/
def stepCorner (n : RawNode) (a : JObj × St) : JObj × St :=
  match n.cornerRadius with
  | some c => (a.1.set "borderRadius" (.str (qToString c ++ "px")), a.2)
  | none => a

/-- Vector branch: a VECTOR node's simplified form minus its `id` is
registered as the vector payload, and when a parent exists the
`vectorParents` bucket entry for the parent's raw id is (over)written with
the `VectorParentRecord`. -/
def stepVector (gen : Nat → String) (n : RawNode) (parent : Option RawNode)
    (a : JObj × St) : JObj × St :=
  if n.ntype = "VECTOR" then
    let payload : JVal := .obj (a.1.del "id")
    let r := findOrCreateVar gen a.2 payload
    match parent with
    | some p =>
        let bucket := bucketOf r.2.gv
        let gv' := storeSet r.2.gv "vectorParents"
          (.obj (bucket.set p.id (mkVPRecord p r.1)))
        (a.1, ⟨gv', r.2.ctr⟩)
    | none => (a.1, r.2)
  else a

mutual
/-- Translation of the source's `parseNode`.  Invisible nodes are pruned to
`null` up front; otherwise the simplified object starts as the id/type
pair and the branches run in source order (text style, fills, styles,
strokes, layout, characters, stroke weight, dashes, per-side weights,
opacity, corner radius, children, vector bookkeeping), and the result is
passed through `removeEmptyKeys`.  The external `buildSimplifiedLayout`
collaborator is the opaque parameter `lay`; the id generator is `gen`. -/
def parseNode (lay : RawNode → Option RawNode → JObj) (gen : Nat → String) :
    St → RawNode → Option RawNode → Except String (Option JVal × St)
  | st, .node i nm t vis sty fl stl strk ch sw sd isw op cr cs, parent =>
      let n : RawNode := .node i nm t vis sty fl stl strk ch sw sd isw op cr cs
      if vis = false then .ok (none, st)
      else do
        let a0 : JObj × St :=
          (.cons "id" (.str i) (.cons "type" (.str t) .nil), st)
        let a1 := stepStyle gen n a0
        let a2 ← stepFills gen n a1
        let a3 := stepStyles gen n a2
        let a4 ← stepStrokes gen n a3
        let a5 := stepLayout lay gen n parent a4
        let a6 := stepText n a5
        let a7 := stepStrokeWeight n a6
        let a8 := stepStrokeDashes n a7
        let a9 := stepWeights gen n a8
        let a10 := stepOpacity n a9
        let a11 := stepCorner n a10
        let a12 ←
          if cs = RawForest.nil then pure a11
          else do
            let r ← parseChildren lay gen a11.2 cs (some n)
            if r.1 ≠ JArr.nil then pure (a11.1.set "children" (.arr r.1), r.2)
            else pure (a11.1, r.2)
        let a13 := stepVector gen n parent a12
        .ok (some (removeEmptyKeys (.obj a13.1)), a13.2)
/-- Recursion over a children forest: each child is parsed left to right
with the current node as parent, null results are filtered out. -/
def parseChildren (lay : RawNode → Option RawNode → JObj) (gen : Nat → String) :
    St → RawForest → Option RawNode → Except String (JArr × St)
  | st, .nil, _ => .ok (.nil, st)
  | st, .cons c tl, parent => do
      let r ← parseNode lay gen st c parent
      let rest ← parseChildren lay gen r.2 tl parent
      match r.1 with
      | some s => .ok (.cons s rest.1, rest.2)
      | none => .ok rest
end

/-- Content id carried by a `VectorParentRecord` (the destructured
`childrenId`; a malforme record reads as the JS string key "undefined"). -/
def recCid (rec : JVal) : String :=
  match rec with
  | .obj r =>
      match r.get "childrenId" with
      | some (.str c) => c
      | _ => "undefined"
  | _ => "undefined"

/-- Grouping fold of `parseGlobalVars`: iterate the `vectorParents`
entries in order; on the first sight of a `childrenId` open its (empty)
group and delete that id's binding from the store; then push the parent id
onto the group. -/
def groupParents : JObj → List (String × List String) → Store →
    List (String × List String) × Store
  | .nil, ctp, gv => (ctp, gv)
  | .cons pid rec tl, ctp, gv =>
      if (ctp.find? (fun e => e.1 == recCid rec)).isSome then
        groupParents tl
          (ctp.map (fun e => if e.1 = recCid rec then (e.1, e.2 ++ [pid]) else e)) gv
      else
        groupParents tl (ctp ++ [(recCid rec, [pid])]) (storeDel gv (recCid rec))

/-- One group's rewrites: each parent id in order is looked up in the
output forest and, when found, destructively replaced by the image stub. -/
def rewriteGroup (pids : List String) (nodes : JArr) : JArr :=
  pids.foldl (fun ns pid => (rewA pid ns).1) nodes

/-- All groups' rewrites in group order. -/
def rewriteGroups (ctp : List (String × List String)) (nodes : JArr) : JArr :=
  ctp.foldl (fun ns e => rewriteGroup e.2 ns) nodes

/-- The `childrenToParents` result object. -/
def ctpToJVal (ctp : List (String × List String)) : JVal :=
  .obj (ctp.foldr
    (fun e acc => .cons e.1 (.arr (JArr.ofList (e.2.map JVal.str))) acc) .nil)

/-- Translation of the source's `parseGlobalVars`: group the recorded
vector parents by content id (deleting each group's vector payload binding
from the store the first time the content id is seen), rewrite every
locatable recorded parent into an image stub when the node list is
non-empty, store the grouping under `childrenToParents` and delete the
transient `vectorParents` bucket. -/
def parseGlobalVars (gv : Store) (nodes : JArr) : Store × JArr :=
  let g := groupParents (bucketOf gv) [] gv
  let nodes' := if nodes ≠ JArr.nil then rewriteGroups g.1 nodes else nodes
  let gv2 := storeSet g.2 "childrenToParents" (ctpToJVal g.1)
  (storeDel gv2 "vectorParents", nodes')

/-- Initial engine state of every run: a store holding only the empty
transient `vectorParents` bucket. -/
def initSt : St := ⟨[("vectorParents", .obj .nil)], 0⟩

/-- Core of the entry points (`parseFigmaResponse` and
`parseFigmaFileResponse`): parse every root without a parent, filter out
nulls, then run the vector-grouping post-processor over the store and the
simplified forest; the result is the `nodes` list and `globalVars` map of
the emitted design. -/
def simplifyRun (lay : RawNode → Option RawNode → JObj) (gen : Nat → String)
    (roots : RawForest) : Except String (JArr × Store) := do
  let r ← parseChildren lay gen initSt roots none
  let g := parseGlobalVars r.2.gv r.1
  .ok (g.2, g.1)

/-- Decidable equality of `Except` results, used to evaluate concrete runs
of the fallible engine. -/
instance {ε α : Type} [DecidableEq ε] [DecidableEq α] : DecidableEq (Except ε α) := by
  intro a b
  cases a <;> cases b
  case error.error e f => exact decidable_of_iff (e = f) (by simp)
  case ok.ok x y => exact decidable_of_iff (x = y) (by simp)
  all_goals exact isFalse (by simp)

/-- Deterministic id supply used by the concrete witnesses: the k-th
generated id is a string of k+1 copies of `w`. -/
def wgen : Nat → String := fun k => String.mk (List.replicate (k + 1) 'w')

theorem wgen_length (k : Nat) : (wgen k).length = k + 1 := by
  simp [wgen, String.length]

theorem wgen_ne_empty : ∀ k, wgen k ≠ "" := by
  intro k h
  have := wgen_length k
  rw [h] at this
  simp [String.length] at this

theorem wgen_injective : Function.Injective wgen := by
  intro a b h
  have := wgen_length a
  rw [h, wgen_length] at this
  omega

theorem wgen_all_w {k : Nat} {c : Char} (h : c ∈ (wgen k).data) : c = 'w' := by
  have h' : c ∈ List.replicate (k + 1) 'w' := h
  exact List.eq_of_mem_replicate h'

theorem wgen_ne_vectorParents : ∀ k, wgen k ≠ "vectorParents" := by
  intro k h
  have : ('e' : Char) ∈ (wgen k).data := by rw [h]; decide
  have := wgen_all_w this
  simp at this

theorem wgen_ne_childrenToParents : ∀ k, wgen k ≠ "childrenToParents" := by
  intro k h
  have : ('e' : Char) ∈ (wgen k).data := by rw [h]; decide
  have := wgen_all_w this
  simp at this

mutual
theorem removeEmptyKeys_idem : ∀ v : JVal,
    removeEmptyKeys (removeEmptyKeys v) = removeEmptyKeys v
  | .undef => rfl
  | .jnull => rfl
  | .bool _ => rfl
  | .num _ => rfl
  | .str _ => rfl
  | .arr xs => by simp [removeEmptyKeys, removeEmptyKeysArr_idem xs]
  | .obj fs => by simp [removeEmptyKeys, removeEmptyKeysObj_idem fs]
theorem removeEmptyKeysArr_idem : ∀ xs : JArr,
    removeEmptyKeysArr (removeEmptyKeysArr xs) = removeEmptyKeysArr xs
  | .nil => rfl
  | .cons v tl => by
      simp [removeEmptyKeysArr, removeEmptyKeys_idem v, removeEmptyKeysArr_idem tl]
theorem removeEmptyKeysObj_idem : ∀ fs : JObj,
    removeEmptyKeysObj (removeEmptyKeysObj fs) = removeEmptyKeysObj fs
  | .nil => rfl
  | .cons k v tl => by
      by_cases h : isEmptyish (removeEmptyKeys v) = true
      · simp [removeEmptyKeysObj, h, removeEmptyKeysObj_idem tl]
      · simp [removeEmptyKeysObj, h, removeEmptyKeys_idem v, removeEmptyKeysObj_idem tl]
end

/-- C7: the empty-key pruner is idempotent — applying `removeEmptyKeys`
twice equals applying it once, for every value. -/
theorem spec_C7_prune_idempotent (x : JVal) :
    removeEmptyKeys (removeEmptyKeys x) = removeEmptyKeys x :=
  removeEmptyKeys_idem x

/-- Counterexample to C5 as frozen: the claim quantifies over every paint
opacity and asserts a result clamped to [0,1], but at paint opacity 2 with
full color alpha the program returns 2 — `convertColor` never clamps. -/
theorem spec_C5_counterexample :
    (convertColor ⟨1, 0, 0, 1⟩ 2).2 = 2 ∧
    clamp01 (round2 ((2 : ℚ) * 1)) = 1 ∧
    (convertColor ⟨1, 0, 0, 1⟩ 2).2 ≠ clamp01 (round2 ((2 : ℚ) * 1)) := by
  refine ⟨?_, ?_, ?_⟩ <;> norm_num [convertColor, clamp01, round2, round_eq]

/-- C5 (amended): `convertColor` returns the opacity
`round(opacity * a * 100) / 100` with no clamping; whenever the paint
opacity and the color's native alpha both lie in [0,1] the result also
lies in [0,1] (so a clamp would be redundant on in-range inputs), and in
particular color alpha 1/2 with paint opacity 1/2 yields 1/4. -/
theorem spec_C5_opacity_composition :
    (∀ (c : RGBA) (o : ℚ),
      (convertColor c o).2 = (round (o * c.a * 100) : ℚ) / 100) ∧
    (∀ (c : RGBA) (o : ℚ), 0 ≤ o → o ≤ 1 → 0 ≤ c.a → c.a ≤ 1 →
      0 ≤ (convertColor c o).2 ∧ (convertColor c o).2 ≤ 1) ∧
    (convertColor ⟨1, 0, 0, 1/2⟩ (1/2)).2 = 1/4 := by
  have heq : ∀ (c : RGBA) (o : ℚ),
      (convertColor c o).2 = (round (o * c.a * 100) : ℚ) / 100 := by
    intro c o
    simp [convertColor, round2, mul_assoc]
  refine ⟨heq, ?_, ?_⟩
  · intro c o ho0 ho1 ha0 ha1
    have hx0 : (0 : ℚ) ≤ o * c.a * 100 := by
      have := mul_nonneg ho0 ha0
      nlinarith
    have hx1 : o * c.a * 100 ≤ 100 := by nlinarith
    have hr0 : (0 : ℤ) ≤ round (o * c.a * 100) := by
      rw [round_eq]
      have h0 : (0 : ℤ) = ⌊(1 / 2 : ℚ)⌋ := by norm_num
      rw [h0]
      exact Int.floor_mono (by linarith)
    have hr1 : round (o * c.a * 100) ≤ 100 := by
      rw [round_eq]
      have h1 : (100 : ℤ) = ⌊(100 + 1 / 2 : ℚ)⌋ := by norm_num
      rw [h1]
      exact Int.floor_mono (by linarith)
    rw [heq c o]
    constructor
    · apply div_nonneg _ (by norm_num)
      exact_mod_cast hr0
    · rw [div_le_one (by norm_num)]
      exact_mod_cast hr1
  · simp [convertColor, round2]
    norm_num [round_eq]

/-- Closed instance of the amended C5: full alpha at paint opacity 1 gives
the rounded product and stays inside the unit interval. -/
theorem spec_C5_witness :
    (0 : ℚ) ≤ 1 ∧
    (convertColor ⟨1, 0, 0, 1⟩ 1).2 = (round ((1 : ℚ) * 1 * 100) : ℚ) / 100 ∧
    0 ≤ (convertColor ⟨1, 0, 0, 1⟩ 1).2 ∧ (convertColor ⟨1, 0, 0, 1⟩ 1).2 ≤ 1 :=
  ⟨by norm_num,
    spec_C5_opacity_composition.1 ⟨1, 0, 0, 1⟩ 1,
    (spec_C5_opacity_composition.2.1 ⟨1, 0, 0, 1⟩ 1 (by norm_num) (by norm_num)
      (by norm_num) (by norm_num)).1,
    (spec_C5_opacity_composition.2.1 ⟨1, 0, 0, 1⟩ 1 (by norm_num) (by norm_num)
      (by norm_num) (by norm_num)).2⟩

/-- C1: passing two payloads with equal canonical serializations to the
store in one run returns the identical variable id both times while the
store gains at most the one entry, and a lookup for a value already
present structurally returns an existing id without growing the store.
The hypotheses record what every run guarantees: store keys and generated
ids are non-empty strings (the source tests the found key for
truthiness). -/
theorem spec_C1_content_addressed (gen : Nat → String) (st : St) (v w : JVal)
    (hvw : canon v = canon w)
    (hkeys : ∀ e ∈ st.gv, e.1 ≠ "")
    (hgen : ∀ k, gen k ≠ "") :
    (findOrCreateVar gen (findOrCreateVar gen st v).2 w).1 =
      (findOrCreateVar gen st v).1 ∧
    (findOrCreateVar gen (findOrCreateVar gen st v).2 w).2 =
      (findOrCreateVar gen st v).2 ∧
    (findOrCreateVar gen st v).2.gv.length ≤ st.gv.length + 1 ∧
    ((∃ e ∈ st.gv, canon e.2 = canon v) →
      (findOrCreateVar gen st v).2 = st ∧
      ∃ e ∈ st.gv, (findOrCreateVar gen st v).1 = e.1 ∧ canon e.2 = canon v) := by
  have hpred : (fun e : String × JVal => canon e.2 == canon w) =
      (fun e : String × JVal => canon e.2 == canon v) := by
    funext e
    rw [hvw]
  cases h : st.gv.find? (fun e => canon e.2 == canon v) with
  | some e =>
      have hmem : e ∈ st.gv := List.mem_of_find?_eq_some h
      have hne : ¬ e.1 = "" := hkeys e hmem
      have hpe : canon e.2 = canon v := by
        have := List.find?_some h
        simpa using this
      have h1 : findOrCreateVar gen st v = (e.1, st) := by
        simp [findOrCreateVar, h, hne]
      refine ⟨?_, ?_, ?_, ?_⟩
      · rw [h1]
        simp [findOrCreateVar, hpred, h, hne]
      · rw [h1]
        simp [findOrCreateVar, hpred, h, hne]
      · rw [h1]
        exact Nat.le_succ _
      · intro _
        rw [h1]
        exact ⟨rfl, e, hmem, rfl, hpe⟩
  | none =>
      have h1 : findOrCreateVar gen st v =
          (gen st.ctr, ⟨st.gv ++ [(gen st.ctr, v)], st.ctr + 1⟩) := by
        simp [findOrCreateVar, h]
      have hfind2 : (st.gv ++ [(gen st.ctr, v)]).find?
          (fun e => canon e.2 == canon w) = some (gen st.ctr, v) := by
        rw [List.find?_append, hpred, h]
        simp [hvw]
      refine ⟨?_, ?_, ?_, ?_⟩
      · rw [h1]
        simp [findOrCreateVar, hfind2, hgen st.ctr]
      · rw [h1]
        simp [findOrCreateVar, hfind2, hgen st.ctr]
      · rw [h1]
        simp
      · intro ⟨e, hmem, hpe⟩
        have : st.gv.find? (fun e => canon e.2 == canon v) ≠ none := by
          intro hn
          have := List.find?_eq_none.mp hn e hmem
          simp [hpe] at this
        exact absurd h this

/-- Closed instance of C1: registering the same numeric payload twice in a
fresh run state yields the same id both times. -/
theorem spec_C1_witness :
    canon (JVal.num 3) = canon (JVal.num 3) ∧
    (findOrCreateVar wgen (findOrCreateVar wgen initSt (JVal.num 3)).2 (JVal.num 3)).1 =
      (findOrCreateVar wgen initSt (JVal.num 3)).1 ∧
    (findOrCreateVar wgen initSt (JVal.num 3)).2.gv.length ≤ initSt.gv.length + 1 :=
  ⟨rfl,
    (spec_C1_content_addressed wgen initSt (JVal.num 3) (JVal.num 3) rfl
      (by decide) wgen_ne_empty).1,
    (spec_C1_content_addressed wgen initSt (JVal.num 3) (JVal.num 3) rfl
      (by decide) wgen_ne_empty).2.2.1⟩

theorem mapPaints_error_of_mem {p : RawPaint} {msg : String}
    (h : parsePaint p = .error msg) :
    ∀ fl : List RawPaint, p ∈ fl → ∃ e, mapPaints fl = .error e := by
  intro fl
  induction fl with
  | nil => intro hm; cases hm
  | cons q tl ih =>
      intro hm
      cases hq : parsePaint q with
      | error e => exact ⟨e, by simp only [mapPaints, hq]; rfl⟩
      | ok v =>
          have hne : p ≠ q := by
            intro he
            rw [he, hq] at h
            cases h
          have hmtl : p ∈ tl := by
            cases hm with
            | head => exact absurd rfl hne
            | tail _ hm' => exact hm'
          obtain ⟨e, he⟩ := ih hmtl
          exact ⟨e, by simp only [mapPaints, hq, he]; rfl⟩

theorem stepFills_error {p : RawPaint} {msg : String} {fl : List RawPaint}
    (h : parsePaint p = .error msg) (hm : p ∈ fl) (gen : Nat → String)
    (n : RawNode) (hf : n.fills = some fl) (a : JObj × St) :
    ∃ e, stepFills gen n a = .error e := by
  have hne : fl ≠ [] := by
    intro hnil
    rw [hnil] at hm
    cases hm
  obtain ⟨e, he⟩ := mapPaints_error_of_mem h fl hm
  refine ⟨e, ?_⟩
  simp only [stepFills, hf, hne, if_true, he]
  simp [hne]
  rfl

/-- C6: a paint entry whose tag is none of IMAGE, SOLID or the four
gradient kinds makes `parsePaint` fail with the unknown-paint-type error;
that failure aborts the normalization of any fill/stroke list containing
the entry and propagates out of `parseNode` for the node carrying it — no
partial result is produced. -/
theorem spec_C6_unknown_paint_type (p : RawPaint)
    (h : p.ptype ∉ ["IMAGE", "SOLID"] ++ gradientTypes) :
    parsePaint p = .error ("Unknown paint type: " ++ p.ptype) ∧
    (∀ fl : List RawPaint, p ∈ fl → ∃ e, mapPaints fl = .error e) ∧
    (∀ (lay : RawNode → Option RawNode → JObj) (gen : Nat → String) (st : St)
      (n : RawNode) (parent : Option RawNode) (fl : List RawPaint),
      n.visible = true → n.fills = some fl → p ∈ fl →
      ∃ e, parseNode lay gen st n parent = .error e) := by
  have h1 : p.ptype ≠ "IMAGE" := fun hc => h (by simp [hc])
  have h2 : p.ptype ≠ "SOLID" := fun hc => h (by simp [hc])
  have h3 : p.ptype ∉ gradientTypes := fun hc => h (by simp [hc])
  have herr : parsePaint p = .error ("Unknown paint type: " ++ p.ptype) := by
    simp [parsePaint, h1, h2, h3]
  refine ⟨herr, mapPaints_error_of_mem herr, ?_⟩
  intro lay gen st n parent fl hvis hf hm
  cases n with
  | node i nm t vis sty fl' stl strk ch sw sd isw op cr cs =>
      have hvis' : vis = true := hvis
      have hf' : fl' = some fl := hf
      subst hvis'
      subst hf'
      obtain ⟨e, he⟩ := stepFills_error herr hm gen
        (.node i nm t true sty (some fl) stl strk ch sw sd isw op cr cs) rfl
        ((JObj.cons "id" (.str i) (.cons "type" (.str t) .nil), st) |>
          stepStyle gen (.node i nm t true sty (some fl) stl strk ch sw sd isw op cr cs))
      exact ⟨e, by simp only [parseNode, he]; rfl⟩

/-- Closed instance of C6 at a concrete unrecognized paint tag. -/
theorem spec_C6_witness :
    (("EMOJI" : String) ∉ ["IMAGE", "SOLID"] ++ gradientTypes) ∧
    parsePaint ⟨"EMOJI", none, none, none, none, .undef, []⟩ =
      .error ("Unknown paint type: " ++ "EMOJI") :=
  ⟨by decide,
    (spec_C6_unknown_paint_type ⟨"EMOJI", none, none, none, none, .undef, []⟩
      (by decide)).1⟩

theorem storeGet_set_self (gv : Store) (k : String) (v : JVal) :
    storeGet (storeSet gv k v) k = some v := by
  induction gv with
  | nil => simp [storeSet, storeGet]
  | cons e tl ih =>
      by_cases h : e.1 = k
      · simp [storeSet, storeGet, h]
      · simp [storeSet, storeGet, h, ih]

theorem storeGet_set_other (gv : Store) {k k' : String} (v : JVal) (h : k ≠ k') :
    storeGet (storeSet gv k' v) k = storeGet gv k := by
  induction gv with
  | nil => simp [storeSet, storeGet, Ne.symm h]
  | cons e tl ih =>
      by_cases he : e.1 = k'
      · simp [storeSet, storeGet, he, Ne.symm h, h, ih]
      · by_cases he2 : e.1 = k
        · simp [storeSet, storeGet, he, he2, h, Ne.symm h]
        · simp [storeSet, storeGet, he, he2, ih]

theorem storeGet_del_other (gv : Store) {k k' : String} (h : k ≠ k') :
    storeGet (storeDel gv k') k = storeGet gv k := by
  induction gv with
  | nil => simp [storeDel, storeGet]
  | cons e tl ih =>
      by_cases he : e.1 = k'
      · simp [storeDel, storeGet, he, Ne.symm h]
      · by_cases he2 : e.1 = k
        · simp [storeDel, storeGet, he, he2, h, Ne.symm h]
        · simp [storeDel, storeGet, he, he2, ih]

/-- Mutual induction principle for the value family, packaged from the
generated recursors. -/
theorem jval_ind (P : JVal → Prop) (Q : JArr → Prop) (R : JObj → Prop)
    (h1 : P .undef) (h2 : P .jnull) (h3 : ∀ b, P (.bool b))
    (h4 : ∀ q, P (.num q)) (h5 : ∀ s, P (.str s))
    (h6 : ∀ xs, Q xs → P (.arr xs)) (h7 : ∀ fs, R fs → P (.obj fs))
    (h8 : Q .nil) (h9 : ∀ v tl, P v → Q tl → Q (.cons v tl))
    (h10 : R .nil) (h11 : ∀ k v tl, P v → R tl → R (.cons k v tl)) :
    (∀ v, P v) ∧ (∀ xs, Q xs) ∧ (∀ fs, R fs) :=
  ⟨fun v => @JVal.rec P Q R h1 h2 h3 h4 h5 h6 h7 h8 h9 h10 h11 v,
   fun xs => @JArr.rec P Q R h1 h2 h3 h4 h5 h6 h7 h8 h9 h10 h11 xs,
   fun fs => @JObj.rec P Q R h1 h2 h3 h4 h5 h6 h7 h8 h9 h10 h11 fs⟩

theorem findFields_none_tail {pid k : String} {v : JVal} {tl : JObj}
    (h : findFields pid (.cons k v tl) = none) : findFields pid tl = none := by
  by_cases hk : k = "children"
  · cases v with
    | arr xs =>
        cases hfa : findA pid xs with
        | some r => rw [findFields] at h; simp [hk, hfa] at h
        | none => rw [findFields] at h; simpa [hk, hfa] using h
    | undef => simpa [findFields, hk] using h
    | jnull => simpa [findFields, hk] using h
    | bool b => simpa [findFields, hk] using h
    | num q => simpa [findFields, hk] using h
    | str s => simpa [findFields, hk] using h
    | obj gs => simpa [findFields, hk] using h
  · cases v with
    | arr xs => simpa [findFields, hk] using h
    | undef => simpa [findFields, hk] using h
    | jnull => simpa [findFields, hk] using h
    | bool b => simpa [findFields, hk] using h
    | num q => simpa [findFields, hk] using h
    | str s => simpa [findFields, hk] using h
    | obj gs => simpa [findFields, hk] using h

theorem findFields_none_arr {pid k : String} {xs : JArr} {tl : JObj}
    (hk : k = "children") (h : findFields pid (.cons k (.arr xs) tl) = none) :
    findA pid xs = none := by
  cases hfa : findA pid xs with
  | some r => rw [findFields] at h; simp [hk, hfa] at h
  | none => rfl

theorem rew_of_find_none (pid : String) :
    (∀ v : JVal, findV pid v = none → rewV pid v = (v, false)) ∧
    (∀ xs : JArr, findA pid xs = none → rewA pid xs = (xs, false)) ∧
    (∀ fs : JObj, findFields pid fs = none → rewFields pid fs = (fs, false)) := by
  have main := jval_ind
    (fun v => (findV pid v = none → rewV pid v = (v, false)) ∧
      (∀ xs, v = .arr xs → findA pid xs = none → rewA pid xs = (xs, false)))
    (fun xs => findA pid xs = none → rewA pid xs = (xs, false))
    (fun fs => findFields pid fs = none → rewFields pid fs = (fs, false))
    ⟨fun _ => rfl, fun _ h => nomatch h⟩
    ⟨fun _ => rfl, fun _ h => nomatch h⟩
    (fun _ => ⟨fun _ => rfl, fun _ h => nomatch h⟩)
    (fun _ => ⟨fun _ => rfl, fun _ h => nomatch h⟩)
    (fun _ => ⟨fun _ => rfl, fun _ h => nomatch h⟩)
    (fun xs qxs => ⟨fun _ => rfl, fun ys hys hfa => by cases hys; exact qxs hfa⟩)
    (fun fs rfs => ⟨?_, fun _ h => nomatch h⟩)
    (fun _ => rfl)
    (fun v tl ihv ihtl => ?_)
    (fun _ => rfl)
    (fun k v tl ihv ihtl => ?_)
  · exact ⟨fun v => (main.1 v).1, main.2.1, main.2.2⟩
  · intro h
    rw [findV] at h
    rw [rewV]
    split at h
    · cases h
    · next hid => rw [if_neg hid, rfs h]
  · intro h
    rw [findA] at h
    cases hfv : findV pid v with
    | some r => rw [hfv] at h; cases h
    | none =>
        rw [hfv] at h
        simp [rewA, ihv.1 hfv, ihtl h]
  · intro h
    have htl := ihtl (findFields_none_tail h)
    by_cases hk : k = "children"
    · cases v with
      | arr xs =>
          have harr := ihv.2 xs rfl (findFields_none_arr hk h)
          simp [rewFields, hk, harr, htl]
      | undef => simp [rewFields, hk, htl]
      | jnull => simp [rewFields, hk, htl]
      | bool b => simp [rewFields, hk, htl]
      | num q => simp [rewFields, hk, htl]
      | str s => simp [rewFields, hk, htl]
      | obj gs => simp [rewFields, hk, htl]
    · cases v with
      | arr xs => simp [rewFields, hk, htl]
      | undef => simp [rewFields, hk, htl]
      | jnull => simp [rewFields, hk, htl]
      | bool b => simp [rewFields, hk, htl]
      | num q => simp [rewFields, hk, htl]
      | str s => simp [rewFields, hk, htl]
      | obj gs => simp [rewFields, hk, htl]

theorem flatMap_update_count (cid pid p : String) :
    ∀ ctp : List (String × List String), (ctp.map Prod.fst).Nodup →
      cid ∈ ctp.map Prod.fst →
      ((ctp.map (fun e => if e.1 = cid then (e.1, e.2 ++ [pid]) else e)).flatMap
          Prod.snd).count p =
        (ctp.flatMap Prod.snd).count p + (if pid = p then 1 else 0) := by
  intro ctp
  induction ctp with
  | nil => intro _ hc; cases hc
  | cons e rest ih =>
      intro hnd hc
      by_cases he : e.1 = cid
      · have hrest : rest.map (fun e => if e.1 = cid then (e.1, e.2 ++ [pid]) else e)
            = rest := by
          have h1 : rest.map (fun e => if e.1 = cid then (e.1, e.2 ++ [pid]) else e)
              = rest.map id := by
            apply List.map_congr_left
            intro a ha
            have hane : a.1 ≠ cid := by
              intro hac
              have hninr := (List.nodup_cons.mp hnd).1
              rw [← hac] at he
              exact hninr (he ▸ List.mem_map_of_mem Prod.fst ha)
            simp [hane]
          simpa using h1
        simp only [List.map_cons, if_pos he, hrest, List.flatMap_cons,
          List.count_append]
        by_cases hp : pid = p
        · subst hp
          simp [List.count_singleton]
          omega
        · have h0 : List.count p [pid] = 0 := by
            rw [List.count_eq_zero]
            simp
            exact fun hc2 => hp hc2.symm
          simp [h0, hp]
      · have hc' : cid ∈ rest.map Prod.fst := by
          cases List.mem_cons.mp hc with
          | inl h => exact absurd h.symm he
          | inr h => exact h
        have hnd' := (List.nodup_cons.mp hnd).2
        simp only [List.map_cons, if_neg he, List.flatMap_cons, List.count_append]
        rw [ih hnd' hc']
        omega

theorem groupParents_keys_count (p : String) :
    ∀ (b : JObj) (ctp : List (String × List String)) (gv : Store),
      (ctp.map Prod.fst).Nodup →
      ((groupParents b ctp gv).1.flatMap Prod.snd).count p =
        (ctp.flatMap Prod.snd).count p + b.keys.count p ∧
      ((groupParents b ctp gv).1.map Prod.fst).Nodup := by
  have main := jval_ind (fun _ => True) (fun _ => True)
    (fun b => ∀ ctp gv, (ctp.map Prod.fst).Nodup →
      ((groupParents b ctp gv).1.flatMap Prod.snd).count p =
        (ctp.flatMap Prod.snd).count p + b.keys.count p ∧
      ((groupParents b ctp gv).1.map Prod.fst).Nodup)
    trivial trivial (fun _ => trivial) (fun _ => trivial) (fun _ => trivial)
    (fun _ _ => trivial) (fun _ _ => trivial) trivial (fun _ _ _ _ => trivial)
    ?_ ?_
  · exact main.2.2
  · intro ctp gv hnd
    simp [groupParents, JObj.keys, hnd]
  · intro pid rec tl _ ih
    intro ctp gv hnd
    rw [groupParents]
    by_cases hf : (ctp.find? (fun e => e.1 == recCid rec)).isSome
    · have hc : recCid rec ∈ ctp.map Prod.fst := by
        obtain ⟨e, he⟩ := Option.isSome_iff_exists.mp hf
        have hmem := List.mem_of_find?_eq_some he
        have hpe : e.1 = recCid rec := by simpa using List.find?_some he
        rw [← hpe]
        exact List.mem_map_of_mem Prod.fst hmem
      have hkeys : ((ctp.map (fun e =>
          if e.1 = recCid rec then (e.1, e.2 ++ [pid]) else e)).map Prod.fst)
          = ctp.map Prod.fst := by
        rw [List.map_map]
        have h1 : ctp.map (Prod.fst ∘ fun e =>
            if e.1 = recCid rec then (e.1, e.2 ++ [pid]) else e) = ctp.map Prod.fst := by
          apply List.map_congr_left
          intro a _
          by_cases ha : a.1 = recCid rec <;> simp [ha]
        exact h1
      have hnd' : ((ctp.map (fun e =>
          if e.1 = recCid rec then (e.1, e.2 ++ [pid]) else e)).map Prod.fst).Nodup := by
        rw [hkeys]; exact hnd
      have hih := ih (ctp.map (fun e =>
        if e.1 = recCid rec then (e.1, e.2 ++ [pid]) else e)) gv hnd'
      rw [if_pos hf]
      refine ⟨?_, hih.2⟩
      rw [hih.1, flatMap_update_count (recCid rec) pid p ctp hnd hc]
      simp only [JObj.keys, List.count_cons]
      by_cases hp : pid = p
      · subst hp
        simp
        omega
      · have hne : ¬ p = pid := fun hc2 => hp hc2.symm
        simp [hp, hne]
    · have hcnot : recCid rec ∉ ctp.map Prod.fst := by
        intro hc
        obtain ⟨e, hmem, hfst⟩ := List.mem_map.mp hc
        have hne : ctp.find? (fun e => e.1 == recCid rec) ≠ none := by
          intro hn
          have := List.find?_eq_none.mp hn e hmem
          simp [hfst] at this
        rw [Option.isSome_iff_ne_none] at hf
        exact hf hne
      have hnd' : ((ctp ++ [(recCid rec, [pid])]).map Prod.fst).Nodup := by
        rw [List.map_append]
        simp [List.nodup_append, hnd]
        intro a hmem
        exact hcnot (List.mem_map_of_mem Prod.fst hmem)
      have hih := ih (ctp ++ [(recCid rec, [pid])]) (storeDel gv (recCid rec)) hnd'
      rw [if_neg hf]
      refine ⟨?_, hih.2⟩
      rw [hih.1]
      simp only [List.flatMap_append, List.count_append, JObj.keys, List.count_cons,
        List.flatMap_cons, List.flatMap_nil, List.append_nil]
      by_cases hp : pid = p
      · subst hp
        simp
        omega
      · have hne : ¬ p = pid := fun hc2 => hp hc2.symm
        simp [hp, hne]

/-- C9: when a recorded parent id cannot be located by the depth-first
search at its turn of the grouping pass, it is silently skipped: the
rewrite leaves the forest unchanged, the pass computes the same result as
if that parent were absent from its group's worklist, no error is possible
(the pass is a total function), and the id still appears inside the
`childrenToParents` object stored in the returned globalVars. -/
theorem spec_C9_missing_parent_silently_skipped (gv : Store) (ns : JArr)
    (pid : String) (l1 l2 : List String)
    (hfind : findA pid (rewriteGroup l1 ns) = none)
    (hmem : pid ∈ (bucketOf gv).keys) :
    (rewA pid (rewriteGroup l1 ns)).1 = rewriteGroup l1 ns ∧
    rewriteGroup (l1 ++ pid :: l2) ns = rewriteGroup (l1 ++ l2) ns ∧
    ∃ groups, storeGet (parseGlobalVars gv ns).1 "childrenToParents" =
        some (ctpToJVal groups) ∧ pid ∈ groups.flatMap Prod.snd := by
  have hskip : (rewA pid (rewriteGroup l1 ns)).1 = rewriteGroup l1 ns := by
    rw [(rew_of_find_none pid).2.1 _ hfind]
  refine ⟨hskip, ?_, ?_⟩
  · have happ : ∀ (xs ys : List String) (t : JArr),
        rewriteGroup (xs ++ ys) t = rewriteGroup ys (rewriteGroup xs t) := by
      intro xs ys t
      simp [rewriteGroup, List.foldl_append]
    have hcons : ∀ (x : String) (ys : List String) (t : JArr),
        rewriteGroup (x :: ys) t = rewriteGroup ys ((rewA x t).1) := by
      intro x ys t
      simp [rewriteGroup]
    rw [happ, happ, hcons, hskip]
  · refine ⟨(groupParents (bucketOf gv) [] gv).1, ?_, ?_⟩
    · show storeGet (storeDel (storeSet (groupParents (bucketOf gv) [] gv).2
          "childrenToParents" (ctpToJVal (groupParents (bucketOf gv) [] gv).1))
          "vectorParents") "childrenToParents" = _
      rw [storeGet_del_other _ (by decide), storeGet_set_self]
    · have hcount := (groupParents_keys_count pid (bucketOf gv) [] gv (by simp)).1
      simp only [List.flatMap_nil, List.count_nil, Nat.zero_add] at hcount
      have hpos : 0 < ((groupParents (bucketOf gv) [] gv).1.flatMap Prod.snd).count pid := by
        rw [hcount]
        exact List.count_pos_iff.mpr hmem
      exact List.count_pos_iff.mp hpos

/-- Closed instance of C9: a recorded parent absent from the output forest
is skipped while its id still reaches `childrenToParents`. -/
theorem spec_C9_witness :
    findA "P" (rewriteGroup [] (JArr.cons (imageStub "X") .nil)) = none ∧
    "P" ∈ (bucketOf [("vectorParents", JVal.obj (.cons "P"
        (mkVPRecord (RawNode.node "P" "P" "FRAME" true none none none none none
          none none none none none .nil) "w") .nil))]).keys ∧
    (rewA "P" (rewriteGroup [] (JArr.cons (imageStub "X") .nil))).1 =
      rewriteGroup [] (JArr.cons (imageStub "X") .nil) :=
  ⟨by decide, by decide,
    (spec_C9_missing_parent_silently_skipped
      [("vectorParents", JVal.obj (.cons "P"
        (mkVPRecord (RawNode.node "P" "P" "FRAME" true none none none none none
          none none none none none .nil) "w") .nil))]
      (JArr.cons (imageStub "X") .nil) "P" [] []
      (by decide) (by decide)).1⟩

/-- Induction on object field lists alone (the value motive trivial). -/
theorem jobj_ind (R : JObj → Prop) (hnil : R .nil)
    (hcons : ∀ k v tl, R tl → R (.cons k v tl)) : ∀ fs, R fs :=
  (jval_ind (fun _ => True) (fun _ => True) R trivial trivial (fun _ => trivial)
    (fun _ => trivial) (fun _ => trivial) (fun _ _ => trivial) (fun _ _ => trivial)
    trivial (fun _ _ _ _ => trivial) hnil (fun k v tl _ ih => hcons k v tl ih)).2.2

/-- Induction on arrays alone (the value motive trivial). -/
theorem jarr_ind (Q : JArr → Prop) (hnil : Q .nil)
    (hcons : ∀ v tl, Q tl → Q (.cons v tl)) : ∀ xs, Q xs :=
  (jval_ind (fun _ => True) Q (fun _ => True) trivial trivial (fun _ => trivial)
    (fun _ => trivial) (fun _ => trivial) (fun _ _ => trivial) (fun _ _ => trivial)
    hnil (fun v tl _ ih => hcons v tl ih) trivial (fun _ _ _ _ _ => trivial)).2.1

/-- Mutual induction principle for raw nodes and forests. -/
theorem raw_ind (P : RawNode → Prop) (Q : RawForest → Prop)
    (hnode : ∀ i nm t vis sty fl stl strk ch sw sd isw op cr cs, Q cs →
      P (.node i nm t vis sty fl stl strk ch sw sd isw op cr cs))
    (hnil : Q .nil) (hcons : ∀ c tl, P c → Q tl → Q (.cons c tl)) :
    (∀ n, P n) ∧ (∀ f, Q f) :=
  ⟨fun n => @RawNode.rec P Q hnode hnil hcons n,
   fun f => @RawForest.rec P Q hnode hnil hcons f⟩

/-- Property read on a value (JS `v[key]` when `v` is an object). -/
def jget : JVal → String → Option JVal
  | .obj fs, k => fs.get k
  | _, _ => none

theorem JObj.get_set_self (fs : JObj) (k : String) (v : JVal) :
    (fs.set k v).get k = some v := by
  induction fs using jobj_ind with
  | hnil => simp [JObj.set, JObj.get]
  | hcons k' v' tl ih =>
      by_cases h : k' = k
      · simp [JObj.set, JObj.get, h]
      · simp [JObj.set, JObj.get, h, ih]

theorem JObj.get_set_other (fs : JObj) {k k' : String} (v : JVal) (h : k ≠ k') :
    (fs.set k' v).get k = fs.get k := by
  induction fs using jobj_ind with
  | hnil => simp [JObj.set, JObj.get, Ne.symm h]
  | hcons a b tl ih =>
      by_cases ha : a = k'
      · simp [JObj.set, JObj.get, ha, Ne.symm h, h]
      · by_cases ha2 : a = k
        · simp [JObj.set, JObj.get, ha, ha2, h]
        · simp [JObj.set, JObj.get, ha, ha2, ih]

theorem storeGet_append (gv : Store) (l2 : Store) {k : String} {w : JVal}
    (h : storeGet gv k = some w) : storeGet (gv ++ l2) k = some w := by
  induction gv with
  | nil => cases h
  | cons e tl ih =>
      by_cases he : e.1 = k
      · simp [storeGet, he] at h
        simp [storeGet, he, h]
      · simp [storeGet, he] at h
        simp [storeGet, he, ih h]

/-- The store lookup/insert never removes or rebinds an existing
binding. -/
theorem findOrCreateVar_preserves (gen : Nat → String) (st : St) (v : JVal)
    {k : String} {w : JVal} (h : storeGet st.gv k = some w) :
    storeGet (findOrCreateVar gen st v).2.gv k = some w := by
  rw [findOrCreateVar]
  cases hf : st.gv.find? (fun e => canon e.2 == canon v) with
  | some e =>
      by_cases he : e.1 = ""
      · simp [he]
        exact storeGet_append _ _ h
      · simp [he]
        exact h
  | none => exact storeGet_append _ _ h

theorem stepStyle_preserves (gen : Nat → String) (n : RawNode) (a : JObj × St)
    {k : String} {w : JVal} (h : storeGet a.2.gv k = some w) :
    storeGet (stepStyle gen n a).2.gv k = some w := by
  rw [stepStyle]
  cases n.style with
  | none => exact h
  | some rs =>
      by_cases hc : rs.keyCount ≠ 0
      · simp [hc]
        exact findOrCreateVar_preserves gen a.2 _ h
      · simp [hc]
        exact h

theorem stepFills_preserves (gen : Nat → String) (n : RawNode) (a : JObj × St)
    (b : JObj × St) (hok : stepFills gen n a = .ok b)
    {k : String} {w : JVal} (h : storeGet a.2.gv k = some w) :
    storeGet b.2.gv k = some w := by
  rw [stepFills] at hok
  cases hfl : n.fills with
  | none => rw [hfl] at hok; cases hok; exact h
  | some fl =>
      rw [hfl] at hok
      by_cases hne : fl = []
      · simp [hne] at hok
        rw [← hok]
        exact h
      · simp [hne] at hok
        cases hmp : mapPaints fl with
        | error e => rw [hmp] at hok; cases hok
        | ok pf =>
            rw [hmp] at hok
            have hok' : (Except.ok (a.1.set "fills"
                  (.str (findOrCreateVar gen a.2 (.arr pf)).1),
                (findOrCreateVar gen a.2 (.arr pf)).2) :
                Except String (JObj × St)) = .ok b := hok
            cases hok'
            exact findOrCreateVar_preserves gen a.2 _ h

theorem stepStyles_preserves (gen : Nat → String) (n : RawNode) (a : JObj × St)
    {k : String} {w : JVal} (h : storeGet a.2.gv k = some w) :
    storeGet (stepStyles gen n a).2.gv k = some w := by
  rw [stepStyles]
  cases n.styles with
  | none => exact h
  | some sv => exact findOrCreateVar_preserves gen a.2 _ h

theorem stepStrokes_preserves (gen : Nat → String) (n : RawNode) (a : JObj × St)
    (b : JObj × St) (hok : stepStrokes gen n a = .ok b)
    {k : String} {w : JVal} (h : storeGet a.2.gv k = some w) :
    storeGet b.2.gv k = some w := by
  rw [stepStrokes] at hok
  cases hfl : n.strokes with
  | none => rw [hfl] at hok; cases hok; exact h
  | some sl =>
      rw [hfl] at hok
      by_cases hne : sl = []
      · simp [hne] at hok
        rw [← hok]
        exact h
      · simp [hne] at hok
        cases hmp : mapPaints sl with
        | error e => rw [hmp] at hok; cases hok
        | ok ps =>
            rw [hmp] at hok
            have hok' : (Except.ok (a.1.set "strokes"
                  (.str (findOrCreateVar gen a.2 (.arr ps)).1),
                (findOrCreateVar gen a.2 (.arr ps)).2) :
                Except String (JObj × St)) = .ok b := hok
            cases hok'
            exact findOrCreateVar_preserves gen a.2 _ h

theorem stepLayout_preserves (lay : RawNode → Option RawNode → JObj)
    (gen : Nat → String) (n : RawNode) (parent : Option RawNode) (a : JObj × St)
    {k : String} {w : JVal} (h : storeGet a.2.gv k = some w) :
    storeGet (stepLayout lay gen n parent a).2.gv k = some w := by
  rw [stepLayout]
  by_cases hl : (lay n parent).length > 1
  · simp [hl]
    exact findOrCreateVar_preserves gen a.2 _ h
  · simp [hl]
    exact h

theorem stepText_preserves (n : RawNode) (a : JObj × St)
    {k : String} {w : JVal} (h : storeGet a.2.gv k = some w) :
    storeGet (stepText n a).2.gv k = some w := by
  rw [stepText]
  cases n.characters with
  | none => exact h
  | some s =>
      by_cases hs : s ≠ ""
      · simp [hs]; exact h
      · simp [hs]; exact h

theorem stepStrokeWeight_preserves (n : RawNode) (a : JObj × St)
    {k : String} {w : JVal} (h : storeGet a.2.gv k = some w) :
    storeGet (stepStrokeWeight n a).2.gv k = some w := by
  rw [stepStrokeWeight]
  cases n.strokeWeight with
  | none => exact h
  | some sw =>
      cases hs : a.1.get "strokes" with
      | none => exact h
      | some v =>
          cases v with
          | str sref =>
              by_cases hr : sref ≠ ""
              · simp [hr]; exact h
              · simp [hr]; exact h
          | undef => exact h
          | jnull => exact h
          | bool b => exact h
          | num q => exact h
          | arr xs => exact h
          | obj fs => exact h

theorem stepStrokeDashes_preserves (n : RawNode) (a : JObj × St)
    {k : String} {w : JVal} (h : storeGet a.2.gv k = some w) :
    storeGet (stepStrokeDashes n a).2.gv k = some w := by
  rw [stepStrokeDashes]
  cases n.strokeDashes with
  | none => exact h
  | some ds =>
      by_cases hd : ds ≠ []
      · simp [hd]; exact h
      · simp [hd]; exact h

theorem stepWeights_preserves (gen : Nat → String) (n : RawNode) (a : JObj × St)
    {k : String} {w : JVal} (h : storeGet a.2.gv k = some w) :
    storeGet (stepWeights gen n a).2.gv k = some w := by
  rw [stepWeights]
  cases n.individualStrokeWeights with
  | none => exact h
  | some iw => exact findOrCreateVar_preserves gen a.2 _ h

theorem stepOpacity_preserves (n : RawNode) (a : JObj × St)
    {k : String} {w : JVal} (h : storeGet a.2.gv k = some w) :
    storeGet (stepOpacity n a).2.gv k = some w := by
  rw [stepOpacity]
  cases n.opacity with
  | none => exact h
  | some o => exact h

theorem stepCorner_preserves (n : RawNode) (a : JObj × St)
    {k : String} {w : JVal} (h : storeGet a.2.gv k = some w) :
    storeGet (stepCorner n a).2.gv k = some w := by
  rw [stepCorner]
  cases n.cornerRadius with
  | none => exact h
  | some c => exact h

theorem stepVector_preserves (gen : Nat → String) (n : RawNode)
    (parent : Option RawNode) (a : JObj × St)
    {k : String} {w : JVal} (hk : k ≠ "vectorParents")
    (h : storeGet a.2.gv k = some w) :
    storeGet (stepVector gen n parent a).2.gv k = some w := by
  rw [stepVector]
  by_cases ht : n.ntype = "VECTOR"
  · simp [ht]
    have h1 := findOrCreateVar_preserves gen a.2 (.obj (a.1.del "id")) h
    cases parent with
    | none => exact h1
    | some p =>
        simp only []
        rw [storeGet_set_other _ _ hk]
        exact h1
  · simp [ht]
    exact h

theorem exceptBind_ok {α β : Type} {x : Except String α} {f : α → Except String β}
    {b : β} (h : (x >>= f) = .ok b) : ∃ a, x = .ok a ∧ f a = .ok b := by
  cases x with
  | error e =>
      have h' : (Except.error e : Except String β) = .ok b := h
      cases h'
  | ok a =>
      refine ⟨a, rfl, ?_⟩
      have h' : f a = .ok b := h
      exact h'

/-- Walk preservation: the tree walker never removes or rebinds an
existing store binding other than the transient `vectorParents` bucket. -/
theorem walk_preserves (lay : RawNode → Option RawNode → JObj) (gen : Nat → String) :
    (∀ n : RawNode, ∀ st parent res, parseNode lay gen st n parent = .ok res →
      ∀ k w, k ≠ "vectorParents" → storeGet st.gv k = some w →
        storeGet res.2.gv k = some w) ∧
    (∀ f : RawForest, ∀ st parent res, parseChildren lay gen st f parent = .ok res →
      ∀ k w, k ≠ "vectorParents" → storeGet st.gv k = some w →
        storeGet res.2.gv k = some w) := by
  have main := raw_ind
    (fun n => ∀ st parent res, parseNode lay gen st n parent = .ok res →
      ∀ k w, k ≠ "vectorParents" → storeGet st.gv k = some w →
        storeGet res.2.gv k = some w)
    (fun f => ∀ st parent res, parseChildren lay gen st f parent = .ok res →
      ∀ k w, k ≠ "vectorParents" → storeGet st.gv k = some w →
        storeGet res.2.gv k = some w)
    ?_ ?_ ?_
  · exact main
  · intro i nm t vis sty fl stl strk ch sw sd isw op cr cs ihcs
    intro st parent res hok k w hk h
    rw [parseNode] at hok
    by_cases hv : vis = false
    · rw [if_pos hv] at hok
      cases hok
      exact h
    · rw [if_neg hv] at hok
      try dsimp only at hok
      obtain ⟨a2, h2, hok⟩ := exceptBind_ok hok
      try dsimp only at hok
      obtain ⟨a4, h4, hok⟩ := exceptBind_ok hok
      try dsimp only at hok
      have p1 := stepStyle_preserves gen (RawNode.node i nm t vis sty fl stl strk ch sw sd isw op cr cs)
        (JObj.cons "id" (.str i) (.cons "type" (.str t) .nil), st) h
      have p2 := stepFills_preserves gen (RawNode.node i nm t vis sty fl stl strk ch sw sd isw op cr cs) _ a2 h2 p1
      have p3 := stepStyles_preserves gen (RawNode.node i nm t vis sty fl stl strk ch sw sd isw op cr cs) _ p2
      have p4 := stepStrokes_preserves gen (RawNode.node i nm t vis sty fl stl strk ch sw sd isw op cr cs) _ a4 h4 p3
      have p5 := stepLayout_preserves lay gen (RawNode.node i nm t vis sty fl stl strk ch sw sd isw op cr cs) parent _ p4
      have p6 := stepText_preserves (RawNode.node i nm t vis sty fl stl strk ch sw sd isw op cr cs) _ p5
      have p7 := stepStrokeWeight_preserves (RawNode.node i nm t vis sty fl stl strk ch sw sd isw op cr cs) _ p6
      have p8 := stepStrokeDashes_preserves (RawNode.node i nm t vis sty fl stl strk ch sw sd isw op cr cs) _ p7
      have p9 := stepWeights_preserves gen (RawNode.node i nm t vis sty fl stl strk ch sw sd isw op cr cs) _ p8
      have p10 := stepOpacity_preserves (RawNode.node i nm t vis sty fl stl strk ch sw sd isw op cr cs) _ p9
      have p11 := stepCorner_preserves (RawNode.node i nm t vis sty fl stl strk ch sw sd isw op cr cs) _ p10
      by_cases hcs : cs = RawForest.nil
      · rw [if_pos hcs] at hok
        obtain ⟨y, hy, hok⟩ := exceptBind_ok hok
        have hy' : (Except.ok _ : Except String (JObj × St)) = .ok y := hy
        cases hy'
        try dsimp only at hok
        have hok' : (Except.ok _ : Except String (Option JVal × St)) = .ok res := hok
        cases hok'
        exact stepVector_preserves gen (RawNode.node i nm t vis sty fl stl strk ch sw sd isw op cr cs) parent _ hk p11
      · rw [if_neg hcs] at hok
        obtain ⟨rr, hrr, hok⟩ := exceptBind_ok hok
        try dsimp only at hok
        have prr := ihcs _ _ rr hrr k w hk p11
        by_cases hne : rr.1 ≠ JArr.nil
        · rw [if_pos hne] at hok
          obtain ⟨y, hy, hok⟩ := exceptBind_ok hok
          have hy' : (Except.ok _ : Except String (JObj × St)) = .ok y := hy
          cases hy'
          try dsimp only at hok
          have hok' : (Except.ok _ : Except String (Option JVal × St)) = .ok res := hok
          cases hok'
          exact stepVector_preserves gen (RawNode.node i nm t vis sty fl stl strk ch sw sd isw op cr cs) parent _ hk prr
        · rw [if_neg hne] at hok
          obtain ⟨y, hy, hok⟩ := exceptBind_ok hok
          have hy' : (Except.ok _ : Except String (JObj × St)) = .ok y := hy
          cases hy'
          try dsimp only at hok
          have hok' : (Except.ok _ : Except String (Option JVal × St)) = .ok res := hok
          cases hok'
          exact stepVector_preserves gen (RawNode.node i nm t vis sty fl stl strk ch sw sd isw op cr cs) parent _ hk prr
  · intro st parent res hok k w hk h
    rw [parseChildren] at hok
    cases hok
    exact h
  · intro c tl ihc ihtl
    intro st parent res hok k w hk h
    rw [parseChildren] at hok
    obtain ⟨rc, hc, hok⟩ := exceptBind_ok hok
    try dsimp only at hok
    obtain ⟨rt, ht, hok⟩ := exceptBind_ok hok
    try dsimp only at hok
    have pc := ihc _ _ rc hc k w hk h
    have pt := ihtl _ _ rt ht k w hk pc
    cases hrc : rc.1 with
    | some s =>
        rw [hrc] at hok
        have hok' : (Except.ok _ : Except String (JArr × St)) = .ok res := hok
        cases hok'
        exact pt
    | none =>
        rw [hrc] at hok
        have hok' : (Except.ok _ : Except String (JArr × St)) = .ok res := hok
        cases hok'
        exact pt

theorem storeGet_eq_none_iff (gv : Store) (k : String) :
    storeGet gv k = none ↔ k ∉ storeKeys gv := by
  induction gv with
  | nil => simp [storeGet, storeKeys]
  | cons e tl ih =>
      obtain ⟨a, v⟩ := e
      by_cases he : a = k
      · simp [storeGet, storeKeys, he]
      · simp [storeGet, storeKeys, he, ih, Ne.symm he]

theorem storeKeys_del_sublist (gv : Store) (k : String) :
    (storeKeys (storeDel gv k)).Sublist (storeKeys gv) := by
  induction gv with
  | nil => simp [storeDel, storeKeys]
  | cons e tl ih =>
      by_cases he : e.1 = k
      · simp only [storeDel, if_pos he, storeKeys, List.map_cons]
        exact List.sublist_cons_self _ _
      · simp only [storeDel, if_neg he, storeKeys, List.map_cons]
        exact List.Sublist.cons₂ _ ih

theorem storeKeys_del_nodup {gv : Store} (k : String)
    (h : (storeKeys gv).Nodup) : (storeKeys (storeDel gv k)).Nodup :=
  (storeKeys_del_sublist gv k).nodup h

theorem storeGet_del_self_of_nodup {gv : Store} {k : String}
    (h : (storeKeys gv).Nodup) : storeGet (storeDel gv k) k = none := by
  induction gv with
  | nil => simp [storeDel, storeGet]
  | cons e tl ih =>
      have hnd := List.nodup_cons.mp h
      by_cases he : e.1 = k
      · simp only [storeDel, if_pos he]
        apply (storeGet_eq_none_iff tl k).mpr
        rw [← he]
        exact hnd.1
      · simp only [storeDel, if_neg he, storeGet, if_neg he]
        exact ih hnd.2

theorem storeGet_del_none {gv : Store} {k c : String}
    (h : storeGet gv k = none) : storeGet (storeDel gv c) k = none := by
  induction gv with
  | nil => simp [storeDel, storeGet]
  | cons e tl ih =>
      by_cases he : e.1 = k
      · simp [storeGet, he] at h
      · simp only [storeGet, if_neg he] at h
        by_cases hc : e.1 = c
        · simp only [storeDel, if_pos hc]
          exact h
        · simp only [storeDel, if_neg hc, storeGet, if_neg he]
          exact ih h

theorem groupParents_none_mono {k : String} :
    ∀ (b : JObj) (ctp : List (String × List String)) (gv : Store),
      storeGet gv k = none → storeGet (groupParents b ctp gv).2 k = none := by
  intro b
  induction b using jobj_ind with
  | hnil => intro ctp gv h; simpa [groupParents] using h
  | hcons pid rec tl ih =>
      intro ctp gv h
      rw [groupParents]
      by_cases hf : (ctp.find? (fun e => e.1 == recCid rec)).isSome
      · rw [if_pos hf]
        exact ih _ _ h
      · rw [if_neg hf]
        exact ih _ _ (storeGet_del_none h)

theorem groupParents_keys_mono {k : String} :
    ∀ (b : JObj) (ctp : List (String × List String)) (gv : Store),
      k ∈ ctp.map Prod.fst → k ∈ (groupParents b ctp gv).1.map Prod.fst := by
  intro b
  induction b using jobj_ind with
  | hnil => intro ctp gv h; simpa [groupParents] using h
  | hcons pid rec tl ih =>
      intro ctp gv h
      rw [groupParents]
      by_cases hf : (ctp.find? (fun e => e.1 == recCid rec)).isSome
      · rw [if_pos hf]
        apply ih
        have : (ctp.map (fun e => if e.1 = recCid rec then (e.1, e.2 ++ [pid]) else e)).map
            Prod.fst = ctp.map Prod.fst := by
          rw [List.map_map]
          apply List.map_congr_left
          intro a _
          by_cases ha : a.1 = recCid rec <;> simp [ha]
        rw [this]
        exact h
      · rw [if_neg hf]
        apply ih
        rw [List.map_append]
        exact List.mem_append_left _ h

theorem groupParents_store_preserves :
    ∀ (b : JObj) (ctp : List (String × List String)) (gv : Store) (k : String),
      k ∉ (groupParents b ctp gv).1.map Prod.fst →
      storeGet (groupParents b ctp gv).2 k = storeGet gv k := by
  intro b
  induction b using jobj_ind with
  | hnil => intro ctp gv k _; simp [groupParents]
  | hcons pid rec tl ih =>
      intro ctp gv k hk
      rw [groupParents] at hk ⊢
      by_cases hf : (ctp.find? (fun e => e.1 == recCid rec)).isSome
      · rw [if_pos hf] at hk ⊢
        exact ih _ _ _ hk
      · rw [if_neg hf] at hk ⊢
        have hkc : k ≠ recCid rec := by
          intro he
          apply hk
          apply groupParents_keys_mono
          rw [List.map_append, he]
          simp
        rw [ih _ _ _ hk, storeGet_del_other _ hkc]

theorem groupParents_store_deletes :
    ∀ (b : JObj) (ctp : List (String × List String)) (gv : Store) (k : String),
      (storeKeys gv).Nodup →
      k ∈ (groupParents b ctp gv).1.map Prod.fst → k ∉ ctp.map Prod.fst →
      storeGet (groupParents b ctp gv).2 k = none := by
  intro b
  induction b using jobj_ind with
  | hnil =>
      intro ctp gv k _ hin hout
      rw [groupParents] at hin
      exact absurd hin hout
  | hcons pid rec tl ih =>
      intro ctp gv k hnd hin hout
      rw [groupParents] at hin ⊢
      by_cases hf : (ctp.find? (fun e => e.1 == recCid rec)).isSome
      · rw [if_pos hf] at hin ⊢
        refine ih _ _ _ hnd hin ?_
        intro hm
        apply hout
        have : (ctp.map (fun e => if e.1 = recCid rec then (e.1, e.2 ++ [pid]) else e)).map
            Prod.fst = ctp.map Prod.fst := by
          rw [List.map_map]
          apply List.map_congr_left
          intro a _
          by_cases ha : a.1 = recCid rec <;> simp [ha]
        rw [this] at hm
        exact hm
      · rw [if_neg hf] at hin ⊢
        by_cases hkc : k = recCid rec
        · subst hkc
          exact groupParents_none_mono _ _ _ (storeGet_del_self_of_nodup hnd)
        · refine ih _ _ _ (storeKeys_del_nodup _ hnd) hin ?_
          rw [List.map_append]
          intro hm
          cases List.mem_append.mp hm with
          | inl h1 => exact hout h1
          | inr h2 => simp at h2; exact hkc h2

theorem storeKeys_set (gv : Store) (k : String) (v : JVal) :
    storeKeys (storeSet gv k v) =
      if k ∈ storeKeys gv then storeKeys gv else storeKeys gv ++ [k] := by
  induction gv with
  | nil => simp [storeSet, storeKeys]
  | cons e tl ih =>
      by_cases he : e.1 = k
      · have hmem : k ∈ storeKeys (e :: tl) := by
          rw [← he]
          simp [storeKeys]
        rw [if_pos hmem]
        simp [storeSet, storeKeys, he]
      · have hiff : k ∈ storeKeys (e :: tl) ↔ k ∈ storeKeys tl := by
          simp [storeKeys, Ne.symm he]
        have h1 : storeSet (e :: tl) k v = e :: storeSet tl k v := by
          obtain ⟨a, b⟩ := e
          simp only [storeSet]
          rw [if_neg he]
        by_cases hm : k ∈ storeKeys tl
        · rw [if_pos (hiff.mpr hm), h1]
          have h2 := ih
          rw [if_pos hm] at h2
          simp only [storeKeys, List.map_cons] at h2 ⊢
          rw [h2]
        · rw [if_neg (fun hc => hm (hiff.mp hc)), h1]
          have h2 := ih
          rw [if_neg hm] at h2
          simp only [storeKeys, List.map_cons] at h2 ⊢
          rw [h2]
          simp

theorem storeKeys_set_nodup {gv : Store} (k : String) (v : JVal)
    (h : (storeKeys gv).Nodup) : (storeKeys (storeSet gv k v)).Nodup := by
  rw [storeKeys_set]
  by_cases hm : k ∈ storeKeys gv
  · rw [if_pos hm]
    exact h
  · rw [if_neg hm]
    simp [List.nodup_append, h, hm]

theorem groupParents_store_nodup :
    ∀ (b : JObj) (ctp : List (String × List String)) (gv : Store),
      (storeKeys gv).Nodup → (storeKeys (groupParents b ctp gv).2).Nodup := by
  intro b
  induction b using jobj_ind with
  | hnil => intro ctp gv h; simpa [groupParents] using h
  | hcons pid rec tl ih =>
      intro ctp gv h
      rw [groupParents]
      by_cases hf : (ctp.find? (fun e => e.1 == recCid rec)).isSome
      · rw [if_pos hf]
        exact ih _ _ h
      · rw [if_neg hf]
        exact ih _ _ (storeKeys_del_nodup _ h)

/-- C4 (amended): generated variable ids are never re-bound to a distinct
payload and never removed during the walk (the transient `vectorParents`
bucket being the only rebound key), but the grouping pass deletes, in
addition to `vectorParents`, every store binding whose key occurs as a
`childrenToParents` group key (the vector payload ids); every other key
keeps its binding in the returned globalVars, and `childrenToParents` is
added. -/
theorem spec_C4_ids_stable_except_grouping_deletes :
    (∀ (gen : Nat → String) (st : St) (v : JVal) (k : String) (w : JVal),
      storeGet st.gv k = some w →
      storeGet (findOrCreateVar gen st v).2.gv k = some w) ∧
    (∀ (lay : RawNode → Option RawNode → JObj) (gen : Nat → String) (st : St)
      (n : RawNode) (parent : Option RawNode) (res : Option JVal × St)
      (k : String) (w : JVal), parseNode lay gen st n parent = .ok res →
      k ≠ "vectorParents" → storeGet st.gv k = some w →
      storeGet res.2.gv k = some w) ∧
    (∀ (gv : Store) (ns : JArr) (k : String) (w : JVal),
      k ≠ "vectorParents" → k ≠ "childrenToParents" →
      k ∉ (groupParents (bucketOf gv) [] gv).1.map Prod.fst →
      storeGet gv k = some w → storeGet (parseGlobalVars gv ns).1 k = some w) ∧
    (∀ (gv : Store) (ns : JArr) (k : String),
      (storeKeys gv).Nodup → k ≠ "vectorParents" → k ≠ "childrenToParents" →
      k ∈ (groupParents (bucketOf gv) [] gv).1.map Prod.fst →
      storeGet (parseGlobalVars gv ns).1 k = none) ∧
    (∀ (gv : Store) (ns : JArr), (storeKeys gv).Nodup →
      storeGet (parseGlobalVars gv ns).1 "vectorParents" = none) ∧
    (∀ (gv : Store) (ns : JArr),
      storeGet (parseGlobalVars gv ns).1 "childrenToParents" =
        some (ctpToJVal (groupParents (bucketOf gv) [] gv).1)) := by
  refine ⟨?_, ?_, ?_, ?_, ?_, ?_⟩
  · intro gen st v k w h
    exact findOrCreateVar_preserves gen st v h
  · intro lay gen st n parent res k w hok hk h
    exact (walk_preserves lay gen).1 n st parent res hok k w hk h
  · intro gv ns k w hk1 hk2 hk3 h
    show storeGet (storeDel (storeSet (groupParents (bucketOf gv) [] gv).2
      "childrenToParents" (ctpToJVal (groupParents (bucketOf gv) [] gv).1))
      "vectorParents") k = some w
    rw [storeGet_del_other _ hk1, storeGet_set_other _ _ hk2,
      groupParents_store_preserves _ _ _ _ hk3]
    exact h
  · intro gv ns k hnd hk1 hk2 hk3
    show storeGet (storeDel (storeSet (groupParents (bucketOf gv) [] gv).2
      "childrenToParents" (ctpToJVal (groupParents (bucketOf gv) [] gv).1))
      "vectorParents") k = none
    rw [storeGet_del_other _ hk1, storeGet_set_other _ _ hk2]
    exact groupParents_store_deletes _ _ _ _ hnd hk3 (by simp)
  · intro gv ns hnd
    show storeGet (storeDel (storeSet (groupParents (bucketOf gv) [] gv).2
      "childrenToParents" (ctpToJVal (groupParents (bucketOf gv) [] gv).1))
      "vectorParents") "vectorParents" = none
    exact storeGet_del_self_of_nodup
      (storeKeys_set_nodup _ _ (groupParents_store_nodup _ _ _ hnd))
  · intro gv ns
    show storeGet (storeDel (storeSet (groupParents (bucketOf gv) [] gv).2
      "childrenToParents" (ctpToJVal (groupParents (bucketOf gv) [] gv).1))
      "vectorParents") "childrenToParents" = _
    rw [storeGet_del_other _ (by decide), storeGet_set_self]

/-- Trivial layout collaborator used by the concrete runs: every node gets
an empty (thus unregistered) layout object. -/
def wlay : RawNode → Option RawNode → JObj := fun _ _ => .nil

/-- Bare vector leaf used by the concrete runs. -/
def rawVec (i : String) : RawNode :=
  .node i i "VECTOR" true none none none none none none none none none none .nil

/-- Bare frame node with the given children. -/
def rawFrame (i : String) (cs : RawForest) : RawNode :=
  .node i i "FRAME" true none none none none none none none none none none cs

/-- One frame holding one vector child: the minimal grouping run. -/
def vecRunRoots : RawForest :=
  .cons (rawFrame "P" (.cons (rawVec "V") .nil)) .nil

/-- Counterexample to C4 as frozen: in the one-frame-one-vector run the
vector payload id `w` is a key of the store right after the walk, yet the
returned globalVars no longer contains it — the grouping pass deleted a
minted id other than the `vectorParents` entry. -/
theorem spec_C4_counterexample :
    (parseChildren wlay wgen initSt vecRunRoots none).toOption.map
        (fun r => storeGet r.2.gv "w") =
      some (some (.obj (.cons "type" (.str "VECTOR") .nil))) ∧
    (simplifyRun wlay wgen vecRunRoots).toOption.map
        (fun g => storeGet g.2 "w") = some none := by
  constructor
  · decide
  · decide

/-- Closed instance of the amended C4: an unrelated binding survives
`findOrCreateVar`, and the grouping pass of the minimal run keeps
`childrenToParents` while deleting `vectorParents`. -/
theorem spec_C4_witness :
    storeGet initSt.gv "vectorParents" = some (.obj .nil) ∧
    storeGet (findOrCreateVar wgen initSt (.num 3)).2.gv "vectorParents" =
      some (.obj .nil) ∧
    storeGet (parseGlobalVars [("vectorParents", .obj .nil)] .nil).1
      "childrenToParents" =
      some (ctpToJVal (groupParents (bucketOf [("vectorParents", .obj .nil)]) []
        [("vectorParents", .obj .nil)]).1) :=
  ⟨by decide,
    spec_C4_ids_stable_except_grouping_deletes.1 wgen initSt (.num 3)
      "vectorParents" (.obj .nil) (by decide),
    spec_C4_ids_stable_except_grouping_deletes.2.2.2.2.2
      [("vectorParents", .obj .nil)] .nil⟩

theorem JObj.get_eq_none_iff (fs : JObj) (k : String) :
    fs.get k = none ↔ k ∉ fs.keys := by
  induction fs using jobj_ind with
  | hnil => simp [JObj.get, JObj.keys]
  | hcons k' v tl ih =>
      by_cases he : k' = k
      · simp [JObj.get, JObj.keys, he]
      · simp [JObj.get, JObj.keys, he, ih, Ne.symm he]

theorem canonObj_keys_sublist (fs : JObj) : (canonObj fs).keys.Sublist fs.keys := by
  induction fs using jobj_ind with
  | hnil => simp [canonObj, JObj.keys]
  | hcons k v tl ih =>
      cases hcv : canon v with
      | undef =>
          rw [canonObj, hcv]
          simp only [JObj.keys]
          exact ih.trans (List.sublist_cons_self _ _)
      | jnull => rw [canonObj, hcv]; simpa [JObj.keys] using ih
      | bool b => rw [canonObj, hcv]; simpa [JObj.keys] using ih
      | num q => rw [canonObj, hcv]; simpa [JObj.keys] using ih
      | str s => rw [canonObj, hcv]; simpa [JObj.keys] using ih
      | arr xs => rw [canonObj, hcv]; simpa [JObj.keys] using ih
      | obj gs => rw [canonObj, hcv]; simpa [JObj.keys] using ih

theorem canonObj_get (fs : JObj) (k : String) (hc : fs.keys.count k ≤ 1) :
    (canonObj fs).get k =
      (fs.get k).bind (fun v => match canon v with | .undef => none | w => some w) := by
  induction fs using jobj_ind with
  | hnil => simp [canonObj, JObj.get]
  | hcons k' v tl ih =>
      have hcount : JObj.keys (.cons k' v tl) = k' :: tl.keys := rfl
      by_cases he : k' = k
      · have hnotin : k ∉ tl.keys := by
          rw [hcount] at hc
          subst he
          simp [List.count_cons] at hc
          intro hm
          have := List.count_pos_iff.mpr hm
          omega
        cases hcv : canon v with
        | undef =>
            rw [canonObj, hcv]
            have : (canonObj tl).get k = none := by
              rw [JObj.get_eq_none_iff]
              intro hm
              exact hnotin ((canonObj_keys_sublist tl).mem hm)
            simp [JObj.get, he, this, hcv]
        | jnull => rw [canonObj, hcv]; simp [JObj.get, he, hcv]
        | bool b => rw [canonObj, hcv]; simp [JObj.get, he, hcv]
        | num q => rw [canonObj, hcv]; simp [JObj.get, he, hcv]
        | str s => rw [canonObj, hcv]; simp [JObj.get, he, hcv]
        | arr xs => rw [canonObj, hcv]; simp [JObj.get, he, hcv]
        | obj gs => rw [canonObj, hcv]; simp [JObj.get, he, hcv]
      · have hc' : tl.keys.count k ≤ 1 := by
          rw [hcount] at hc
          simp [List.count_cons, Ne.symm he] at hc
          omega
        cases hcv : canon v with
        | undef => rw [canonObj, hcv]; simp [JObj.get, he, ih hc']
        | jnull => rw [canonObj, hcv]; simp [JObj.get, he, ih hc']
        | bool b => rw [canonObj, hcv]; simp [JObj.get, he, ih hc']
        | num q => rw [canonObj, hcv]; simp [JObj.get, he, ih hc']
        | str s => rw [canonObj, hcv]; simp [JObj.get, he, ih hc']
        | arr xs => rw [canonObj, hcv]; simp [JObj.get, he, ih hc']
        | obj gs => rw [canonObj, hcv]; simp [JObj.get, he, ih hc']

/-- C8: for a node carrying a non-empty raw text-style block, the walker's
text branch registers exactly the canonical record `mkTextStyle` and
stores the returned reference on the node; in that record the line height
is the raw `lineHeightPx` when present and falls back to the font size
when absent, and in its canonical (serialized) form the `letterSpacing`
key is omitted when the raw letter spacing is zero and kept with its value
when non-zero. -/
theorem spec_C8_text_style_record (gen : Nat → String) (st : St) (n : RawNode)
    (rs : RawStyle) (o : JObj)
    (hsty : n.style = some rs) (hkc : rs.keyCount ≠ 0) :
    stepStyle gen n (o, st) =
      (o.set "textStyle" (.str (findOrCreateVar gen st (mkTextStyle rs)).1),
        (findOrCreateVar gen st (mkTextStyle rs)).2) ∧
    (∀ lh, rs.lineHeightPx = some lh →
      jget (mkTextStyle rs) "lineHeight" = some (.num lh)) ∧
    (∀ fs, rs.lineHeightPx = none → rs.fontSize = some fs →
      jget (mkTextStyle rs) "lineHeight" = some (.num fs)) ∧
    (rs.letterSpacing = some 0 →
      jget (canon (mkTextStyle rs)) "letterSpacing" = none) ∧
    (∀ x, rs.letterSpacing = some x → x ≠ 0 →
      jget (canon (mkTextStyle rs)) "letterSpacing" = some (.num x)) := by
  have hkeys : (mkTextStyleFields rs).keys = ["fontFamily", "fontWeight",
      "fontSize", "lineHeight", "letterSpacing", "textCase",
      "textAlignHorizontal", "textAlignVertical"] := by
    simp [mkTextStyleFields, JObj.keys]
  have hcount : (mkTextStyleFields rs).keys.count "letterSpacing" ≤ 1 := by
    rw [hkeys]
    decide
  refine ⟨?_, ?_, ?_, ?_, ?_⟩
  · rw [stepStyle, hsty]
    simp [hkc]
  · intro lh hlh
    simp [mkTextStyle, mkTextStyleFields, jget, JObj.get, hlh]
  · intro fs hlh hfs
    simp [mkTextStyle, mkTextStyleFields, jget, JObj.get, hlh, hfs]
  · intro hls
    show (canonObj (mkTextStyleFields rs)).get "letterSpacing" = none
    rw [canonObj_get _ _ hcount]
    simp [mkTextStyleFields, JObj.get, hls, canon]
  · intro x hls hx
    show (canonObj (mkTextStyleFields rs)).get "letterSpacing" = some (.num x)
    rw [canonObj_get _ _ hcount]
    simp [mkTextStyleFields, JObj.get, hls, hx, canon]

/-- Closed instance of C8: a style block with absent line height and zero
letter spacing produces a record whose line height equals the font size
and whose canonical form has no `letterSpacing` key. -/
theorem spec_C8_witness :
    ((RawNode.node "T" "T" "TEXT" true
        (some ⟨none, none, some 16, none, some 0, none, none, none⟩)
        none none none none none none none none none .nil).style =
      some ⟨none, none, some 16, none, some 0, none, none, none⟩) ∧
    jget (mkTextStyle ⟨none, none, some 16, none, some 0, none, none, none⟩)
      "lineHeight" = some (.num 16) ∧
    jget (canon (mkTextStyle ⟨none, none, some 16, none, some 0, none, none, none⟩))
      "letterSpacing" = none := by
  refine ⟨rfl, ?_, ?_⟩
  · exact (spec_C8_text_style_record wgen initSt
      (RawNode.node "T" "T" "TEXT" true
        (some ⟨none, none, some 16, none, some 0, none, none, none⟩)
        none none none none none none none none none .nil)
      ⟨none, none, some 16, none, some 0, none, none, none⟩ .nil rfl
      (by decide)).2.2.1 16 rfl rfl
  · exact (spec_C8_text_style_record wgen initSt
      (RawNode.node "T" "T" "TEXT" true
        (some ⟨none, none, some 16, none, some 0, none, none, none⟩)
        none none none none none none none none none .nil)
      ⟨none, none, some 16, none, some 0, none, none, none⟩ .nil rfl
      (by decide)).2.2.2.1 rfl

/-- Concatenation of raw forests. -/
def RawForest.append : RawForest → RawForest → RawForest
  | .nil, g => g
  | .cons c tl, g => .cons c (append tl g)

mutual
/-- A raw node together with all its descendants. -/
def subnodesN : RawNode → List RawNode
  | .node i nm t vis sty fl stl strk ch sw sd isw op cr cs =>
      .node i nm t vis sty fl stl strk ch sw sd isw op cr cs :: subnodesF cs
/-- All nodes of a raw forest with their descendants. -/
def subnodesF : RawForest → List RawNode
  | .nil => []
  | .cons c tl => subnodesN c ++ subnodesF tl
end

theorem stepVector_obj (gen : Nat → String) (n : RawNode)
    (parent : Option RawNode) (a : JObj × St) :
    (stepVector gen n parent a).1 = a.1 := by
  rw [stepVector]
  by_cases ht : n.ntype = "VECTOR"
  · simp only [if_pos ht]
    cases parent with
    | none => rfl
    | some p => rfl
  · simp [ht]

theorem idsObj_set {k : String} (hk : k ≠ "id") (v : JVal) :
    ∀ fs : JObj, ∀ x, x ∈ idsObj (fs.set k v) → x ∈ idsV v ∨ x ∈ idsObj fs := by
  intro fs
  induction fs using jobj_ind with
  | hnil =>
      intro x hx
      simp only [JObj.set, idsObj, hk, if_neg hk] at hx
      simp at hx
      left
      exact hx
  | hcons k' v' tl ih =>
      intro x hx
      by_cases he : k' = k
      · rw [JObj.set, if_pos he] at hx
        simp only [idsObj, he, hk, if_neg hk] at hx
        simp at hx
        cases hx with
        | inl h => left; exact h
        | inr h => right; simp [idsObj, he, hk, if_neg hk]; right; exact h
      · rw [JObj.set, if_neg he] at hx
        simp only [idsObj] at hx
        simp at hx
        rcases hx with h | h | h
        · right; simp [idsObj]; tauto
        · right; simp [idsObj]; tauto
        · cases ih x h with
          | inl h2 => left; exact h2
          | inr h2 => right; simp [idsObj]; tauto

theorem idsArr_nums (ds : List ℚ) : idsArr (JArr.ofList (ds.map JVal.num)) = [] := by
  induction ds with
  | nil => rfl
  | cons d tl ih => simp [JArr.ofList, idsArr, idsV, ih]

theorem removeEmptyKeys_str {v : JVal} {s : String}
    (h : removeEmptyKeys v = .str s) : v = .str s := by
  cases v <;> simp_all [removeEmptyKeys]

theorem ids_prune :
    (∀ v : JVal, ∀ x, x ∈ idsV (removeEmptyKeys v) → x ∈ idsV v) ∧
    (∀ xs : JArr, ∀ x, x ∈ idsArr (removeEmptyKeysArr xs) → x ∈ idsArr xs) ∧
    (∀ fs : JObj, ∀ x, x ∈ idsObj (removeEmptyKeysObj fs) → x ∈ idsObj fs) := by
  refine jval_ind
    (fun v => ∀ x, x ∈ idsV (removeEmptyKeys v) → x ∈ idsV v)
    (fun xs => ∀ x, x ∈ idsArr (removeEmptyKeysArr xs) → x ∈ idsArr xs)
    (fun fs => ∀ x, x ∈ idsObj (removeEmptyKeysObj fs) → x ∈ idsObj fs)
    (fun _ h => h) (fun _ h => h) (fun _ _ h => h) (fun _ _ h => h) (fun _ _ h => h)
    ?_ ?_ (fun _ h => h) ?_ (fun _ h => h) ?_
  · intro xs ih x hx
    rw [removeEmptyKeys] at hx
    exact ih x hx
  · intro fs ih x hx
    rw [removeEmptyKeys] at hx
    exact ih x hx
  · intro v tl ihv ihtl x hx
    rw [removeEmptyKeysArr] at hx
    simp only [idsArr] at hx ⊢
    simp at hx ⊢
    cases hx with
    | inl h => left; exact ihv x h
    | inr h => right; exact ihtl x h
  · intro k v tl ihv ihtl x hx
    rw [removeEmptyKeysObj] at hx
    by_cases hemp : isEmptyish (removeEmptyKeys v) = true
    · simp only [hemp, if_true] at hx
      simp only [idsObj]
      simp
      right; right
      exact ihtl x hx
    · simp only [hemp, if_false] at hx
      simp only [idsObj] at hx ⊢
      simp at hx ⊢
      rcases hx with ⟨hk, hm⟩ | h | h
      · cases hrv : removeEmptyKeys v with
        | str s =>
            have hv : v = .str s := removeEmptyKeys_str hrv
            rw [hrv] at hm
            left
            exact ⟨hk, by rw [hv]; exact hm⟩
        | undef => rw [hrv] at hm; cases hm
        | jnull => rw [hrv] at hm; cases hm
        | bool b => rw [hrv] at hm; cases hm
        | num q => rw [hrv] at hm; cases hm
        | arr xs => rw [hrv] at hm; cases hm
        | obj fs => rw [hrv] at hm; cases hm
      · right; left; exact ihv x h
      · right; right; exact ihtl x h

theorem idsObj_set_idfree {k : String} (hk : k ≠ "id") {v : JVal}
    (hv : idsV v = []) (fs : JObj) :
    ∀ x, x ∈ idsObj (fs.set k v) → x ∈ idsObj fs := by
  intro x hx
  cases idsObj_set hk v fs x hx with
  | inl h => rw [hv] at h; cases h
  | inr h => exact h

theorem stepStyle_ids (gen : Nat → String) (n : RawNode) (a : JObj × St) :
    ∀ x, x ∈ idsObj (stepStyle gen n a).1 → x ∈ idsObj a.1 := by
  rw [stepStyle]
  cases n.style with
  | none => intro x hx; exact hx
  | some rs =>
      by_cases hc : rs.keyCount ≠ 0
      · dsimp only
        rw [if_pos hc]
        refine idsObj_set_idfree ?_ ?_ a.1
        · decide
        · simp [idsV]
      · dsimp only
        rw [if_neg hc]
        intro x hx; exact hx

theorem stepFills_ids (gen : Nat → String) (n : RawNode) (a b : JObj × St)
    (hok : stepFills gen n a = .ok b) :
    ∀ x, x ∈ idsObj b.1 → x ∈ idsObj a.1 := by
  rw [stepFills] at hok
  cases hfl : n.fills with
  | none => rw [hfl] at hok; cases hok; intro x hx; exact hx
  | some fl =>
      rw [hfl] at hok
      by_cases hne : fl = []
      · simp [hne] at hok
        rw [← hok]
        intro x hx; exact hx
      · simp [hne] at hok
        cases hmp : mapPaints fl with
        | error e => rw [hmp] at hok; cases hok
        | ok pf =>
            rw [hmp] at hok
            have hok' : (Except.ok (a.1.set "fills"
                  (.str (findOrCreateVar gen a.2 (.arr pf)).1),
                (findOrCreateVar gen a.2 (.arr pf)).2) :
                Except String (JObj × St)) = .ok b := hok
            cases hok'
            refine idsObj_set_idfree ?_ ?_ a.1
            · decide
            · simp [idsV]

theorem stepStyles_ids (gen : Nat → String) (n : RawNode) (a : JObj × St) :
    ∀ x, x ∈ idsObj (stepStyles gen n a).1 → x ∈ idsObj a.1 := by
  rw [stepStyles]
  cases n.styles with
  | none => intro x hx; exact hx
  | some sv =>
      refine idsObj_set_idfree ?_ ?_ a.1
      · decide
      · simp [idsV]

theorem stepStrokes_ids (gen : Nat → String) (n : RawNode) (a b : JObj × St)
    (hok : stepStrokes gen n a = .ok b) :
    ∀ x, x ∈ idsObj b.1 → x ∈ idsObj a.1 := by
  rw [stepStrokes] at hok
  cases hfl : n.strokes with
  | none => rw [hfl] at hok; cases hok; intro x hx; exact hx
  | some sl =>
      rw [hfl] at hok
      by_cases hne : sl = []
      · simp [hne] at hok
        rw [← hok]
        intro x hx; exact hx
      · simp [hne] at hok
        cases hmp : mapPaints sl with
        | error e => rw [hmp] at hok; cases hok
        | ok ps =>
            rw [hmp] at hok
            have hok' : (Except.ok (a.1.set "strokes"
                  (.str (findOrCreateVar gen a.2 (.arr ps)).1),
                (findOrCreateVar gen a.2 (.arr ps)).2) :
                Except String (JObj × St)) = .ok b := hok
            cases hok'
            refine idsObj_set_idfree ?_ ?_ a.1
            · decide
            · simp [idsV]

theorem stepLayout_ids (lay : RawNode → Option RawNode → JObj)
    (gen : Nat → String) (n : RawNode) (parent : Option RawNode) (a : JObj × St) :
    ∀ x, x ∈ idsObj (stepLayout lay gen n parent a).1 → x ∈ idsObj a.1 := by
  rw [stepLayout]
  by_cases hl : (lay n parent).length > 1
  · dsimp only
    rw [if_pos hl]
    refine idsObj_set_idfree ?_ ?_ a.1
    · decide
    · simp [idsV]
  · dsimp only
    rw [if_neg hl]
    intro x hx; exact hx

theorem stepText_ids (n : RawNode) (a : JObj × St) :
    ∀ x, x ∈ idsObj (stepText n a).1 → x ∈ idsObj a.1 := by
  rw [stepText]
  cases n.characters with
  | none => intro x hx; exact hx
  | some s =>
      by_cases hs : s ≠ ""
      · dsimp only
        rw [if_pos hs]
        refine idsObj_set_idfree ?_ ?_ a.1
        · decide
        · simp [idsV]
      · dsimp only
        rw [if_neg hs]
        intro x hx; exact hx

theorem stepStrokeWeight_ids (n : RawNode) (a : JObj × St) :
    ∀ x, x ∈ idsObj (stepStrokeWeight n a).1 → x ∈ idsObj a.1 := by
  rw [stepStrokeWeight]
  cases n.strokeWeight with
  | none => intro x hx; exact hx
  | some sw =>
      cases hs : a.1.get "strokes" with
      | none => intro x hx; exact hx
      | some v =>
          cases v with
          | str sref =>
              by_cases hr : sref ≠ ""
              · dsimp only
                rw [if_pos hr]
                refine idsObj_set_idfree ?_ ?_ a.1
                · decide
                · simp [idsV]
              · dsimp only
                rw [if_neg hr]
                intro x hx; exact hx
          | undef => intro x hx; exact hx
          | jnull => intro x hx; exact hx
          | bool b => intro x hx; exact hx
          | num q => intro x hx; exact hx
          | arr xs => intro x hx; exact hx
          | obj fs => intro x hx; exact hx

theorem stepStrokeDashes_ids (n : RawNode) (a : JObj × St) :
    ∀ x, x ∈ idsObj (stepStrokeDashes n a).1 → x ∈ idsObj a.1 := by
  rw [stepStrokeDashes]
  cases n.strokeDashes with
  | none => intro x hx; exact hx
  | some ds =>
      by_cases hd : ds ≠ []
      · dsimp only
        rw [if_pos hd]
        refine idsObj_set_idfree ?_ ?_ a.1
        · decide
        · simp [idsV, idsArr_nums]
      · dsimp only
        rw [if_neg hd]
        intro x hx; exact hx

theorem stepWeights_ids (gen : Nat → String) (n : RawNode) (a : JObj × St) :
    ∀ x, x ∈ idsObj (stepWeights gen n a).1 → x ∈ idsObj a.1 := by
  rw [stepWeights]
  cases n.individualStrokeWeights with
  | none => intro x hx; exact hx
  | some iw =>
      refine idsObj_set_idfree ?_ ?_ a.1
      · decide
      · simp [idsV]

theorem stepOpacity_ids (n : RawNode) (a : JObj × St) :
    ∀ x, x ∈ idsObj (stepOpacity n a).1 → x ∈ idsObj a.1 := by
  rw [stepOpacity]
  cases n.opacity with
  | none => intro x hx; exact hx
  | some o =>
      refine idsObj_set_idfree ?_ ?_ a.1
      · decide
      · simp [idsV]

theorem stepCorner_ids (n : RawNode) (a : JObj × St) :
    ∀ x, x ∈ idsObj (stepCorner n a).1 → x ∈ idsObj a.1 := by
  rw [stepCorner]
  cases n.cornerRadius with
  | none => intro x hx; exact hx
  | some c =>
      refine idsObj_set_idfree ?_ ?_ a.1
      · decide
      · simp [idsV]

theorem base_ids (i t : String) :
    idsObj (JObj.cons "id" (.str i) (.cons "type" (.str t) .nil)) = [i] := by
  simp [idsObj, idsV]

/-- Induction on raw forests alone (node motive trivial). -/
theorem rawforest_ind (Q : RawForest → Prop) (hnil : Q .nil)
    (hcons : ∀ c tl, Q tl → Q (.cons c tl)) : ∀ f, Q f :=
  (raw_ind (fun _ => True) Q
    (fun _ _ _ _ _ _ _ _ _ _ _ _ _ _ _ _ => trivial) hnil
    (fun c tl _ ih => hcons c tl ih)).2

/-- C2: a raw node with `visible = false` is pruned to null and leaves the
state untouched; it is excluded from its parent's children list (parsing a
forest containing it equals parsing the forest without it); and every `id`
string anywhere in a produced simplified tree is the id of some visible
node of the parsed raw subtree, so an invisible node's id never appears in
the output tree (directly or as a descendant reference) unless a visible
node carries the same id. -/
theorem spec_C2_invisible_nodes_pruned (lay : RawNode → Option RawNode → JObj)
    (gen : Nat → String) :
    (∀ (st : St) (n : RawNode) (parent : Option RawNode), n.visible = false →
      parseNode lay gen st n parent = .ok (none, st)) ∧
    (∀ (st : St) (parent : Option RawNode) (cs1 cs2 : RawForest) (c : RawNode),
      c.visible = false →
      parseChildren lay gen st (cs1.append (.cons c cs2)) parent =
        parseChildren lay gen st (cs1.append cs2) parent) ∧
    (∀ (n : RawNode) (st : St) (parent : Option RawNode) (res : Option JVal × St)
      (s : JVal), parseNode lay gen st n parent = .ok res → res.1 = some s →
      ∀ x ∈ idsV s, ∃ m ∈ subnodesN n, m.visible = true ∧ m.id = x) := by
  have hinv : ∀ (st : St) (n : RawNode) (parent : Option RawNode),
      n.visible = false → parseNode lay gen st n parent = .ok (none, st) := by
    intro st n parent hv
    cases n with
    | node i nm t vis sty fl stl strk ch sw sd isw op cr cs =>
        have hv' : vis = false := hv
        rw [parseNode, if_pos hv']
  refine ⟨hinv, ?_, ?_⟩
  · intro st parent cs1 cs2 c hv
    induction cs1 using rawforest_ind generalizing st with
    | hnil =>
        show parseChildren lay gen st (RawForest.cons c cs2) parent =
          parseChildren lay gen st cs2 parent
        have heq : parseChildren lay gen st (RawForest.cons c cs2) parent =
            (parseChildren lay gen st cs2 parent) >>= (fun rest => Except.ok rest) := by
          rw [parseChildren, hinv st c parent hv]
          rfl
        rw [heq]
        cases hpc : parseChildren lay gen st cs2 parent with
        | ok r => rfl
        | error e => rfl
    | hcons c2 tl ih =>
        show parseChildren lay gen st (RawForest.cons c2 (tl.append (.cons c cs2)))
            parent = parseChildren lay gen st (RawForest.cons c2 (tl.append cs2)) parent
        rw [parseChildren, parseChildren]
        congr 1
        funext r
        rw [ih r.2]
  · have main := raw_ind
      (fun n => ∀ st parent res s, parseNode lay gen st n parent = .ok res →
        res.1 = some s → ∀ x ∈ idsV s,
          ∃ m ∈ subnodesN n, m.visible = true ∧ m.id = x)
      (fun f => ∀ st parent res, parseChildren lay gen st f parent = .ok res →
        ∀ x ∈ idsArr res.1, ∃ m ∈ subnodesF f, m.visible = true ∧ m.id = x)
      ?_ ?_ ?_
    · exact main.1
    · intro i nm t vis sty fl stl strk ch sw sd isw op cr cs ihcs
      intro st parent res s hok hs x hx
      rw [parseNode] at hok
      by_cases hvb : vis = false
      · rw [if_pos hvb] at hok
        cases hok
        cases hs
      · rw [if_neg hvb] at hok
        try dsimp only at hok
        obtain ⟨a2, h2, hok⟩ := exceptBind_ok hok
        try dsimp only at hok
        obtain ⟨a4, h4, hok⟩ := exceptBind_ok hok
        try dsimp only at hok
        have hvt : vis = true := by
          cases vis with
          | false => exact absurd rfl hvb
          | true => rfl
        have hself : (RawNode.node i nm t vis sty fl stl strk ch sw sd isw op cr
            cs) ∈ subnodesN (.node i nm t vis sty fl stl strk ch sw sd isw op cr cs) := by
          rw [subnodesN]
          exact List.mem_cons_self _ _
        have hbase : ∀ y, y ∈ idsObj (JObj.cons "id" (.str i)
            (.cons "type" (.str t) .nil)) → y = i := by
          intro y hy
          rw [base_ids] at hy
          simpa using hy
        have hstep : ∀ (a12 : JObj × St) (rc : JArr),
            (∀ y ∈ idsArr rc, ∃ m ∈ subnodesF cs, m.visible = true ∧ m.id = y) →
            (∀ y, y ∈ idsObj a12.1 →
              y ∈ idsObj (stepCorner (.node i nm t vis sty fl stl strk ch sw sd isw
                op cr cs) (stepOpacity (.node i nm t vis sty fl stl strk ch sw sd isw
                op cr cs) (stepWeights gen (.node i nm t vis sty fl stl strk ch sw sd
                isw op cr cs) (stepStrokeDashes (.node i nm t vis sty fl stl strk ch
                sw sd isw op cr cs) (stepStrokeWeight (.node i nm t vis sty fl stl
                strk ch sw sd isw op cr cs) (stepText (.node i nm t vis sty fl stl
                strk ch sw sd isw op cr cs) (stepLayout lay gen (.node i nm t vis sty
                fl stl strk ch sw sd isw op cr cs) parent a4))))))).1 ∨
              y ∈ idsArr rc) →
            res = (some (removeEmptyKeys (.obj (stepVector gen (.node i nm t vis sty
              fl stl strk ch sw sd isw op cr cs) parent a12).1)),
              (stepVector gen (.node i nm t vis sty fl stl strk ch sw sd isw op cr
                cs) parent a12).2) →
            ∃ m ∈ subnodesN (.node i nm t vis sty fl stl strk ch sw sd isw op cr cs),
              m.visible = true ∧ m.id = x := by
          intro a12 rc hrc hin hres
          have hsx : s = removeEmptyKeys (.obj (stepVector gen (.node i nm t vis sty
              fl stl strk ch sw sd isw op cr cs) parent a12).1) := by
            rw [hres] at hs
            simpa using hs.symm
          have hx2 : x ∈ idsObj (stepVector gen (.node i nm t vis sty fl stl strk ch
              sw sd isw op cr cs) parent a12).1 := by
            have := ids_prune.1 _ x (by rw [← hsx]; exact hx)
            simpa [idsV] using this
          rw [stepVector_obj] at hx2
          cases hin x hx2 with
          | inl hy =>
              have hy2 := stepCorner_ids _ _ x hy
              have hy3 := stepOpacity_ids _ _ x hy2
              have hy4 := stepWeights_ids gen _ _ x hy3
              have hy5 := stepStrokeDashes_ids _ _ x hy4
              have hy6 := stepStrokeWeight_ids _ _ x hy5
              have hy7 := stepText_ids _ _ x hy6
              have hy8 := stepLayout_ids lay gen _ parent _ x hy7
              have hy9 := stepStrokes_ids gen _ _ a4 h4 x hy8
              have hy10 := stepStyles_ids gen _ _ x hy9
              have hy11 := stepFills_ids gen _ _ a2 h2 x hy10
              have hy12 := stepStyle_ids gen _ _ x hy11
              have hxi := hbase x hy12
              exact ⟨_, hself, hvt, hxi.symm ▸ rfl⟩
          | inr hy =>
              obtain ⟨m, hm, hmv, hmi⟩ := hrc x hy
              refine ⟨m, ?_, hmv, hmi⟩
              rw [subnodesN]
              exact List.mem_cons_of_mem _ hm
        by_cases hcs : cs = RawForest.nil
        · rw [if_pos hcs] at hok
          obtain ⟨y, hy, hok⟩ := exceptBind_ok hok
          have hy' : (Except.ok _ : Except String (JObj × St)) = .ok y := hy
          cases hy'
          try dsimp only at hok
          have hok' : (Except.ok _ : Except String (Option JVal × St)) = .ok res := hok
          cases hok'
          refine hstep _ JArr.nil ?_ ?_ rfl
          · intro y hy2
            cases hy2
          · intro y hy2
            exact Or.inl hy2
        · rw [if_neg hcs] at hok
          obtain ⟨rr, hrr, hok⟩ := exceptBind_ok hok
          try dsimp only at hok
          have hrc := ihcs _ _ rr hrr
          by_cases hne : rr.1 ≠ JArr.nil
          · rw [if_pos hne] at hok
            obtain ⟨y, hy, hok⟩ := exceptBind_ok hok
            have hy' : (Except.ok _ : Except String (JObj × St)) = .ok y := hy
            cases hy'
            try dsimp only at hok
            have hok' : (Except.ok _ : Except String (Option JVal × St)) = .ok res := hok
            cases hok'
            refine hstep _ rr.1 hrc ?_ rfl
            intro y hy2
            cases idsObj_set (by decide) (.arr rr.1) _ y hy2 with
            | inl h => right; simpa [idsV] using h
            | inr h => left; exact h
          · rw [if_neg hne] at hok
            obtain ⟨y, hy, hok⟩ := exceptBind_ok hok
            have hy' : (Except.ok _ : Except String (JObj × St)) = .ok y := hy
            cases hy'
            try dsimp only at hok
            have hok' : (Except.ok _ : Except String (Option JVal × St)) = .ok res := hok
            cases hok'
            refine hstep _ rr.1 hrc ?_ rfl
            intro y hy2
            exact Or.inl hy2
    · intro st parent res hok x hx
      rw [parseChildren] at hok
      cases hok
      cases hx
    · intro c tl ihc ihtl
      intro st parent res hok x hx
      rw [parseChildren] at hok
      obtain ⟨rc, hc, hok⟩ := exceptBind_ok hok
      try dsimp only at hok
      obtain ⟨rt, ht, hok⟩ := exceptBind_ok hok
      try dsimp only at hok
      cases hrc : rc.1 with
      | some s' =>
          rw [hrc] at hok
          have hok' : (Except.ok _ : Except String (JArr × St)) = .ok res := hok
          cases hok'
          have hx' : x ∈ idsV s' ∨ x ∈ idsArr rt.1 := by
            simpa [idsArr] using hx
          cases hx' with
          | inl h =>
              obtain ⟨m, hm, hmv, hmi⟩ := ihc _ _ rc s' hc hrc x h
              refine ⟨m, ?_, hmv, hmi⟩
              rw [subnodesF]
              exact List.mem_append_left _ hm
          | inr h =>
              obtain ⟨m, hm, hmv, hmi⟩ := ihtl _ _ rt ht x h
              refine ⟨m, ?_, hmv, hmi⟩
              rw [subnodesF]
              exact List.mem_append_right _ hm
      | none =>
          rw [hrc] at hok
          have hok' : (Except.ok _ : Except String (JArr × St)) = .ok res := hok
          cases hok'
          obtain ⟨m, hm, hmv, hmi⟩ := ihtl _ _ _ ht x hx
          refine ⟨m, ?_, hmv, hmi⟩
          rw [subnodesF]
          exact List.mem_append_right _ hm

/-- Invisible leaf used by the C2 witness. -/
def invisNode : RawNode :=
  .node "H" "H" "FRAME" false none none none none none none none none none none .nil

/-- Closed instance of C2: the invisible leaf parses to null without
state change and drops out of a children list. -/
theorem spec_C2_witness :
    invisNode.visible = false ∧
    parseNode wlay wgen initSt invisNode none = .ok (none, initSt) ∧
    parseChildren wlay wgen initSt (RawForest.append .nil (.cons invisNode .nil))
        none =
      parseChildren wlay wgen initSt (RawForest.append .nil .nil) none :=
  ⟨by decide,
    (spec_C2_invisible_nodes_pruned wlay wgen).1 initSt invisNode none (by decide),
    (spec_C2_invisible_nodes_pruned wlay wgen).2.1 initSt none .nil .nil invisNode
      (by decide)⟩

/-- Top-level nodes of a raw forest. -/
def RawForest.toList : RawForest → List RawNode
  | .nil => []
  | .cons c tl => c :: toList tl

/-- Strict descendants of a node object, following every `children` key
exactly as the search traversal does. -/
def belowNodes : JVal → List JVal
  | .obj fs => allFields fs
  | _ => []

/-- Identifiers of the strict descendants of a node object. -/
def belowIds (x : JVal) : List String := (belowNodes x).filterMap nodeId

/-- The id `q` names a proper ancestor of a node with id `p` somewhere in
the forest. -/
def IsAncestor (q p : String) (ns : JArr) : Prop :=
  ∃ x ∈ allA ns, nodeId x = some q ∧ p ∈ belowIds x


theorem rew_flag (pid : String) :
    (∀ v : JVal, (∀ r, findV pid v = some r → (rewV pid v).2 = true) ∧
      (∀ xs, v = .arr xs → ∀ r, findA pid xs = some r → (rewA pid xs).2 = true)) ∧
    (∀ xs : JArr, ∀ r, findA pid xs = some r → (rewA pid xs).2 = true) ∧
    (∀ fs : JObj, ∀ r, findFields pid fs = some r → (rewFields pid fs).2 = true) := by
  refine jval_ind
    (fun v => (∀ r, findV pid v = some r → (rewV pid v).2 = true) ∧
      (∀ xs, v = .arr xs → ∀ r, findA pid xs = some r → (rewA pid xs).2 = true))
    (fun xs => ∀ r, findA pid xs = some r → (rewA pid xs).2 = true)
    (fun fs => ∀ r, findFields pid fs = some r → (rewFields pid fs).2 = true)
    ⟨fun r h => by simp [findV] at h, fun _ h => nomatch h⟩
    ⟨fun r h => by simp [findV] at h, fun _ h => nomatch h⟩
    (fun b => ⟨fun r h => by simp [findV] at h, fun _ h => nomatch h⟩)
    (fun q => ⟨fun r h => by simp [findV] at h, fun _ h => nomatch h⟩)
    (fun s => ⟨fun r h => by simp [findV] at h, fun _ h => nomatch h⟩)
    (fun xs qxs => ⟨fun r h => by simp [findV] at h,
      fun ys hys => by cases hys; exact qxs⟩)
    (fun fs rfs => ⟨?_, fun _ h => nomatch h⟩)
    (fun r h => by simp [findA] at h)
    (fun v tl ihv ihtl => ?_)
    (fun r h => by simp [findFields] at h)
    (fun k v tl ihv ihtl => ?_)
  · intro r h
    rw [findV] at h
    rw [rewV]
    split at h
    · next hid => rw [if_pos hid]
    · next hid => rw [if_neg hid]; exact rfs r h
  · intro r h
    rw [findA] at h
    rw [rewA]
    cases hfv : findV pid v with
    | some r2 =>
        have hf := ihv.1 r2 hfv
        simp [hf]
    | none =>
        rw [hfv] at h
        rw [(rew_of_find_none pid).1 v hfv]
        simp
        exact ihtl r h
  · intro r h
    by_cases hk : k = "children"
    · cases v with
      | arr xs =>
          cases hfa : findA pid xs with
          | some r2 =>
              have hf := ihv.2 xs rfl r2 hfa
              rw [rewFields, if_pos hk]
              simp [hf]
          | none =>
              have he : findFields pid (.cons k (.arr xs) tl) = findFields pid tl := by
                simp [findFields, hk, hfa]
              rw [he] at h
              rw [rewFields, if_pos hk]
              rw [(rew_of_find_none pid).2.1 xs hfa]
              simp
              exact ihtl r h
      | undef =>
          have he : findFields pid (.cons k (JVal.undef) tl) = findFields pid tl := by
            simp [findFields, hk]
          have he2 : (rewFields pid (.cons k (JVal.undef) tl)).2 = (rewFields pid tl).2 := by
            simp [rewFields, hk]
          rw [he] at h
          rw [he2]
          exact ihtl r h
      | jnull =>
          have he : findFields pid (.cons k (JVal.jnull) tl) = findFields pid tl := by
            simp [findFields, hk]
          have he2 : (rewFields pid (.cons k (JVal.jnull) tl)).2 = (rewFields pid tl).2 := by
            simp [rewFields, hk]
          rw [he] at h
          rw [he2]
          exact ihtl r h
      | bool b =>
          have he : findFields pid (.cons k (JVal.bool b) tl) = findFields pid tl := by
            simp [findFields, hk]
          have he2 : (rewFields pid (.cons k (JVal.bool b) tl)).2 = (rewFields pid tl).2 := by
            simp [rewFields, hk]
          rw [he] at h
          rw [he2]
          exact ihtl r h
      | num q =>
          have he : findFields pid (.cons k (JVal.num q) tl) = findFields pid tl := by
            simp [findFields, hk]
          have he2 : (rewFields pid (.cons k (JVal.num q) tl)).2 = (rewFields pid tl).2 := by
            simp [rewFields, hk]
          rw [he] at h
          rw [he2]
          exact ihtl r h
      | str s =>
          have he : findFields pid (.cons k (JVal.str s) tl) = findFields pid tl := by
            simp [findFields, hk]
          have he2 : (rewFields pid (.cons k (JVal.str s) tl)).2 = (rewFields pid tl).2 := by
            simp [rewFields, hk]
          rw [he] at h
          rw [he2]
          exact ihtl r h
      | obj gs =>
          have he : findFields pid (.cons k (JVal.obj gs) tl) = findFields pid tl := by
            simp [findFields, hk]
          have he2 : (rewFields pid (.cons k (JVal.obj gs) tl)).2 = (rewFields pid tl).2 := by
            simp [rewFields, hk]
          rw [he] at h
          rw [he2]
          exact ihtl r h
    · have he : findFields pid (.cons k v tl) = findFields pid tl := by
        cases v <;> simp [findFields, hk]
      have he2 : (rewFields pid (.cons k v tl)).2 = (rewFields pid tl).2 := by
        cases v <;> simp [rewFields, hk]
      rw [he] at h
      rw [he2]
      exact ihtl r h

theorem find_mem (pid : String) :
    (∀ v : JVal, (∀ r, findV pid v = some r → r ∈ allV v ∧ nodeId r = some pid) ∧
      (∀ xs, v = .arr xs → ∀ r, findA pid xs = some r → r ∈ allA xs ∧ nodeId r = some pid)) ∧
    (∀ xs : JArr, ∀ r, findA pid xs = some r → r ∈ allA xs ∧ nodeId r = some pid) ∧
    (∀ fs : JObj, ∀ r, findFields pid fs = some r → r ∈ allFields fs ∧ nodeId r = some pid) := by
  refine jval_ind
    (fun v => (∀ r, findV pid v = some r → r ∈ allV v ∧ nodeId r = some pid) ∧
      (∀ xs, v = .arr xs → ∀ r, findA pid xs = some r → r ∈ allA xs ∧ nodeId r = some pid))
    (fun xs => ∀ r, findA pid xs = some r → r ∈ allA xs ∧ nodeId r = some pid)
    (fun fs => ∀ r, findFields pid fs = some r → r ∈ allFields fs ∧ nodeId r = some pid)
    ⟨fun r h => by simp [findV] at h, fun _ h => nomatch h⟩
    ⟨fun r h => by simp [findV] at h, fun _ h => nomatch h⟩
    (fun b => ⟨fun r h => by simp [findV] at h, fun _ h => nomatch h⟩)
    (fun q => ⟨fun r h => by simp [findV] at h, fun _ h => nomatch h⟩)
    (fun s => ⟨fun r h => by simp [findV] at h, fun _ h => nomatch h⟩)
    (fun xs qxs => ⟨fun r h => by simp [findV] at h,
      fun ys hys => by cases hys; exact qxs⟩)
    (fun fs rfs => ⟨?_, fun _ h => nomatch h⟩)
    (fun r h => by simp [findA] at h)
    (fun v tl ihv ihtl => ?_)
    (fun r h => by simp [findFields] at h)
    (fun k v tl ihv ihtl => ?_)
  · intro r h
    rw [findV] at h
    split at h
    · next hid =>
        cases h
        refine ⟨by simp [allV], ?_⟩
        simp [nodeId, hid]
    · next hid =>
        have := rfs r h
        exact ⟨by simp [allV]; exact Or.inr this.1, this.2⟩
  · intro r h
    rw [findA] at h
    cases hfv : findV pid v with
    | some r2 =>
        rw [hfv] at h
        cases h
        have := ihv.1 r hfv
        exact ⟨by simp [allA]; exact Or.inl this.1, this.2⟩
    | none =>
        rw [hfv] at h
        have := ihtl r h
        exact ⟨by simp [allA]; exact Or.inr this.1, this.2⟩
  · intro r h
    by_cases hk : k = "children"
    · cases v with
      | arr xs =>
          cases hfa : findA pid xs with
          | some r2 =>
              have he : findFields pid (.cons k (.arr xs) tl) = some r2 := by
                simp [findFields, hk, hfa]
              rw [he] at h
              cases h
              have := ihv.2 xs rfl r hfa
              refine ⟨?_, this.2⟩
              simp [allFields, hk]
              exact Or.inl this.1
          | none =>
              have he : findFields pid (.cons k (.arr xs) tl) = findFields pid tl := by
                simp [findFields, hk, hfa]
              rw [he] at h
              have := ihtl r h
              refine ⟨?_, this.2⟩
              simp [allFields, hk]
              exact Or.inr this.1
      | undef =>
          have he : findFields pid (.cons k JVal.undef tl) = findFields pid tl := by
            simp [findFields, hk]
          rw [he] at h
          have := ihtl r h
          exact ⟨by simp [allFields, hk]; exact this.1, this.2⟩
      | jnull =>
          have he : findFields pid (.cons k JVal.jnull tl) = findFields pid tl := by
            simp [findFields, hk]
          rw [he] at h
          have := ihtl r h
          exact ⟨by simp [allFields, hk]; exact this.1, this.2⟩
      | bool b =>
          have he : findFields pid (.cons k (JVal.bool b) tl) = findFields pid tl := by
            simp [findFields, hk]
          rw [he] at h
          have := ihtl r h
          exact ⟨by simp [allFields, hk]; exact this.1, this.2⟩
      | num q =>
          have he : findFields pid (.cons k (JVal.num q) tl) = findFields pid tl := by
            simp [findFields, hk]
          rw [he] at h
          have := ihtl r h
          exact ⟨by simp [allFields, hk]; exact this.1, this.2⟩
      | str s =>
          have he : findFields pid (.cons k (JVal.str s) tl) = findFields pid tl := by
            simp [findFields, hk]
          rw [he] at h
          have := ihtl r h
          exact ⟨by simp [allFields, hk]; exact this.1, this.2⟩
      | obj gs =>
          have he : findFields pid (.cons k (JVal.obj gs) tl) = findFields pid tl := by
            simp [findFields, hk]
          rw [he] at h
          have := ihtl r h
          exact ⟨by simp [allFields, hk]; exact this.1, this.2⟩
    · have he : findFields pid (.cons k v tl) = findFields pid tl := by
        cases v <;> simp [findFields, hk]
      rw [he] at h
      have := ihtl r h
      refine ⟨?_, this.2⟩
      have ha : allFields (JObj.cons k v tl) = allFields tl := by
        cases v <;> simp [allFields, hk]
      rw [ha]
      exact this.1

theorem nodeId_obj_iff (fs : JObj) (p : String) :
    nodeId (.obj fs) = some p ↔ fs.get "id" = some (.str p) := by
  rw [nodeId]
  cases hg : fs.get "id" with
  | none => simp
  | some v => cases v <;> simp

theorem imageStub_nodeId (p : String) : nodeId (imageStub p) = some p := by
  rw [imageStub, nodeId]
  simp [JObj.get]

theorem imageStub_allV (p : String) : allV (imageStub p) = [imageStub p] := by
  have h1 : ("id" : String) ≠ "children" := by decide
  have h2 : ("type" : String) ≠ "children" := by decide
  rw [imageStub]
  simp [allV, allFields, h1, h2]

theorem imageStub_belowIds (p : String) : belowIds (imageStub p) = [] := by
  have h1 : ("id" : String) ≠ "children" := by decide
  have h2 : ("type" : String) ≠ "children" := by decide
  rw [imageStub]
  simp [belowIds, belowNodes, allFields, h1, h2]

theorem imageStub_findV (p q : String) :
    findV p (imageStub q) = if q = p then some (imageStub q) else none := by
  have h1 : ("id" : String) ≠ "children" := by decide
  have h2 : ("type" : String) ≠ "children" := by decide
  rw [imageStub, findV]
  by_cases hq : q = p
  · subst hq
    simp [JObj.get]
  · have hg : (JObj.cons "id" (JVal.str q) (JObj.cons "type" (JVal.str "IMAGE") JObj.nil)).get "id"
        = some (JVal.str q) := by simp [JObj.get]
    rw [hg]
    have hne : some (JVal.str q) ≠ some (JVal.str p) := by
      intro hc
      exact hq (JVal.str.inj (Option.some.inj hc))
    rw [if_neg hne, if_neg hq]
    simp [findFields, h1, h2]

theorem rewFields_get_other (pid : String) (fs : JObj) :
    ∀ k, k ≠ "children" → ((rewFields pid fs).1).get k = fs.get k := by
  refine jobj_ind (fun fs => ∀ k, k ≠ "children" → ((rewFields pid fs).1).get k = fs.get k)
    (fun k hk => by simp [rewFields]) (fun k0 v tl ih => ?_) fs
  intro k hk
  by_cases hk0 : k0 = "children"
  · have hne : k0 ≠ k := fun h => hk (h ▸ hk0)
    cases v with
    | arr xs =>
        cases hfl : (rewA pid xs).2 with
        | true =>
            have he : (rewFields pid (.cons k0 (.arr xs) tl)).1
                = .cons k0 (.arr (rewA pid xs).1) tl := by
              simp [rewFields, hk0, hfl]
            rw [he, JObj.get, if_neg hne, JObj.get, if_neg hne]
        | false =>
            have he : (rewFields pid (.cons k0 (.arr xs) tl)).1
                = .cons k0 (.arr (rewA pid xs).1) (rewFields pid tl).1 := by
              simp [rewFields, hk0, hfl]
            rw [he, JObj.get, if_neg hne, JObj.get, if_neg hne]
            exact ih k hk
    | undef =>
        have he : (rewFields pid (.cons k0 JVal.undef tl)).1
            = .cons k0 JVal.undef (rewFields pid tl).1 := by simp [rewFields, hk0]
        rw [he, JObj.get, if_neg hne, JObj.get, if_neg hne]
        exact ih k hk
    | jnull =>
        have he : (rewFields pid (.cons k0 JVal.jnull tl)).1
            = .cons k0 JVal.jnull (rewFields pid tl).1 := by simp [rewFields, hk0]
        rw [he, JObj.get, if_neg hne, JObj.get, if_neg hne]
        exact ih k hk
    | bool b =>
        have he : (rewFields pid (.cons k0 (JVal.bool b) tl)).1
            = .cons k0 (JVal.bool b) (rewFields pid tl).1 := by simp [rewFields, hk0]
        rw [he, JObj.get, if_neg hne, JObj.get, if_neg hne]
        exact ih k hk
    | num q =>
        have he : (rewFields pid (.cons k0 (JVal.num q) tl)).1
            = .cons k0 (JVal.num q) (rewFields pid tl).1 := by simp [rewFields, hk0]
        rw [he, JObj.get, if_neg hne, JObj.get, if_neg hne]
        exact ih k hk
    | str s =>
        have he : (rewFields pid (.cons k0 (JVal.str s) tl)).1
            = .cons k0 (JVal.str s) (rewFields pid tl).1 := by simp [rewFields, hk0]
        rw [he, JObj.get, if_neg hne, JObj.get, if_neg hne]
        exact ih k hk
    | obj gs =>
        have he : (rewFields pid (.cons k0 (JVal.obj gs) tl)).1
            = .cons k0 (JVal.obj gs) (rewFields pid tl).1 := by simp [rewFields, hk0]
        rw [he, JObj.get, if_neg hne, JObj.get, if_neg hne]
        exact ih k hk
  · have he : (rewFields pid (.cons k0 v tl)).1 = .cons k0 v (rewFields pid tl).1 := by
      cases v <;> simp [rewFields, hk0]
    rw [he, JObj.get, JObj.get]
    by_cases hke : k0 = k
    · rw [if_pos hke, if_pos hke]
    · rw [if_neg hke, if_neg hke]
      exact ih k hk

theorem find_none_iff (pid : String) :
    (∀ v : JVal, (findV pid v = none ↔ ∀ x ∈ allV v, nodeId x ≠ some pid) ∧
      (∀ xs, v = .arr xs → (findA pid xs = none ↔ ∀ x ∈ allA xs, nodeId x ≠ some pid))) ∧
    (∀ xs : JArr, findA pid xs = none ↔ ∀ x ∈ allA xs, nodeId x ≠ some pid) ∧
    (∀ fs : JObj, findFields pid fs = none ↔ ∀ x ∈ allFields fs, nodeId x ≠ some pid) := by
  refine jval_ind
    (fun v => (findV pid v = none ↔ ∀ x ∈ allV v, nodeId x ≠ some pid) ∧
      (∀ xs, v = .arr xs → (findA pid xs = none ↔ ∀ x ∈ allA xs, nodeId x ≠ some pid)))
    (fun xs => findA pid xs = none ↔ ∀ x ∈ allA xs, nodeId x ≠ some pid)
    (fun fs => findFields pid fs = none ↔ ∀ x ∈ allFields fs, nodeId x ≠ some pid)
    ⟨by simp [findV, allV], fun _ h => nomatch h⟩
    ⟨by simp [findV, allV], fun _ h => nomatch h⟩
    (fun b => ⟨by simp [findV, allV], fun _ h => nomatch h⟩)
    (fun q => ⟨by simp [findV, allV], fun _ h => nomatch h⟩)
    (fun s => ⟨by simp [findV, allV], fun _ h => nomatch h⟩)
    (fun xs qxs => ⟨by simp [findV, allV], fun ys hys => by cases hys; exact qxs⟩)
    (fun fs rfs => ⟨?_, fun _ h => nomatch h⟩)
    (by simp [findA, allA])
    (fun v tl ihv ihtl => ?_)
    (by simp [findFields, allFields])
    (fun k v tl ihv ihtl => ?_)
  · have rfs' : findFields pid fs = none ↔ ∀ x ∈ allFields fs, nodeId x ≠ some pid := rfs
    rw [findV]
    by_cases hid : fs.get "id" = some (JVal.str pid)
    · rw [if_pos hid]
      refine iff_of_false (by simp) ?_
      intro hall
      exact hall (.obj fs) (by simp [allV]) ((nodeId_obj_iff fs pid).2 hid)
    · rw [if_neg hid]
      rw [rfs']
      constructor
      · intro h x hx
        have hx' : x = JVal.obj fs ∨ x ∈ allFields fs := by simpa [allV] using hx
        rcases hx' with rfl | hmem
        · intro hc
          exact hid ((nodeId_obj_iff fs pid).1 hc)
        · exact h x hmem
      · intro h x hx
        exact h x (by simp [allV]; exact Or.inr hx)
  · show findA pid (JArr.cons v tl) = none ↔ ∀ x ∈ allA (JArr.cons v tl), nodeId x ≠ some pid
    have ihtl' : findA pid tl = none ↔ ∀ x ∈ allA tl, nodeId x ≠ some pid := ihtl
    cases hfv : findV pid v with
    | some r =>
        have he : findA pid (JArr.cons v tl) = some r := by simp [findA, hfv]
        rw [he]
        refine iff_of_false (by simp) ?_
        intro hall
        have hm := ((find_mem pid).1 v).1 r hfv
        exact hall r (by simp [allA]; exact Or.inl hm.1) hm.2
    | none =>
        have he : findA pid (JArr.cons v tl) = findA pid tl := by simp [findA, hfv]
        rw [he, ihtl']
        have hv := ihv.1.1 hfv
        constructor
        · intro h x hx
          have hx' : x ∈ allV v ∨ x ∈ allA tl := by simpa [allA] using hx
          rcases hx' with hmem | hmem
          · exact hv x hmem
          · exact h x hmem
        · intro h x hx
          exact h x (by simp [allA]; exact Or.inr hx)
  · show findFields pid (JObj.cons k v tl) = none ↔
      ∀ x ∈ allFields (JObj.cons k v tl), nodeId x ≠ some pid
    have ihtl' : findFields pid tl = none ↔ ∀ x ∈ allFields tl, nodeId x ≠ some pid := ihtl
    by_cases hk : k = "children"
    · cases v with
      | arr xs =>
          cases hfa : findA pid xs with
          | some r =>
              have he : findFields pid (.cons k (.arr xs) tl) = some r := by
                simp [findFields, hk, hfa]
              rw [he]
              refine iff_of_false (by simp) ?_
              intro hall
              have hm := (find_mem pid).2.1 xs r hfa
              exact hall r (by simp [allFields, hk]; exact Or.inl hm.1) hm.2
          | none =>
              have he : findFields pid (.cons k (.arr xs) tl) = findFields pid tl := by
                simp [findFields, hk, hfa]
              rw [he, ihtl']
              have hxs := (ihv.2 xs rfl).1 hfa
              constructor
              · intro h x hx
                have hx' : x ∈ allA xs ∨ x ∈ allFields tl := by
                  simpa [allFields, hk] using hx
                rcases hx' with hmem | hmem
                · exact hxs x hmem
                · exact h x hmem
              · intro h x hx
                exact h x (by simp [allFields, hk]; exact Or.inr hx)
      | undef =>
          have he : findFields pid (.cons k JVal.undef tl) = findFields pid tl := by
            simp [findFields, hk]
          have ha : allFields (JObj.cons k JVal.undef tl) = allFields tl := by
            simp [allFields, hk]
          rw [he, ha]
          exact ihtl'
      | jnull =>
          have he : findFields pid (.cons k JVal.jnull tl) = findFields pid tl := by
            simp [findFields, hk]
          have ha : allFields (JObj.cons k JVal.jnull tl) = allFields tl := by
            simp [allFields, hk]
          rw [he, ha]
          exact ihtl'
      | bool b =>
          have he : findFields pid (.cons k (JVal.bool b) tl) = findFields pid tl := by
            simp [findFields, hk]
          have ha : allFields (JObj.cons k (JVal.bool b) tl) = allFields tl := by
            simp [allFields, hk]
          rw [he, ha]
          exact ihtl'
      | num q =>
          have he : findFields pid (.cons k (JVal.num q) tl) = findFields pid tl := by
            simp [findFields, hk]
          have ha : allFields (JObj.cons k (JVal.num q) tl) = allFields tl := by
            simp [allFields, hk]
          rw [he, ha]
          exact ihtl'
      | str s =>
          have he : findFields pid (.cons k (JVal.str s) tl) = findFields pid tl := by
            simp [findFields, hk]
          have ha : allFields (JObj.cons k (JVal.str s) tl) = allFields tl := by
            simp [allFields, hk]
          rw [he, ha]
          exact ihtl'
      | obj gs =>
          have he : findFields pid (.cons k (JVal.obj gs) tl) = findFields pid tl := by
            simp [findFields, hk]
          have ha : allFields (JObj.cons k (JVal.obj gs) tl) = allFields tl := by
            simp [allFields, hk]
          rw [he, ha]
          exact ihtl'
    · have he : findFields pid (.cons k v tl) = findFields pid tl := by
        cases v <;> simp [findFields, hk]
      have ha : allFields (JObj.cons k v tl) = allFields tl := by
        cases v <;> simp [allFields, hk]
      rw [he, ha]
      exact ihtl'

theorem nodeIds_sub {L' L : List JVal}
    (h : ∀ x' ∈ L', ∃ x ∈ L, nodeId x' = nodeId x) :
    ∀ i ∈ L'.filterMap nodeId, i ∈ L.filterMap nodeId := by
  intro i hi
  rcases List.mem_filterMap.1 hi with ⟨x', hx', hid⟩
  rcases h x' hx' with ⟨x, hx, he⟩
  exact List.mem_filterMap.2 ⟨x, hx, he ▸ hid⟩

theorem nodeId_rewFields (pid : String) (fs : JObj) :
    nodeId (.obj (rewFields pid fs).1) = nodeId (.obj fs) := by
  rw [nodeId, nodeId, rewFields_get_other pid fs "id" (by decide)]

theorem rew_sim (pid : String) :
    (∀ v : JVal, (∀ x' ∈ allV (rewV pid v).1,
        ∃ x ∈ allV v, nodeId x' = nodeId x ∧ belowIds x' ⊆ belowIds x) ∧
      (∀ xs, v = .arr xs → ∀ x' ∈ allA (rewA pid xs).1,
        ∃ x ∈ allA xs, nodeId x' = nodeId x ∧ belowIds x' ⊆ belowIds x)) ∧
    (∀ xs : JArr, ∀ x' ∈ allA (rewA pid xs).1,
      ∃ x ∈ allA xs, nodeId x' = nodeId x ∧ belowIds x' ⊆ belowIds x) ∧
    (∀ fs : JObj, ∀ x' ∈ allFields (rewFields pid fs).1,
      ∃ x ∈ allFields fs, nodeId x' = nodeId x ∧ belowIds x' ⊆ belowIds x) := by
  refine jval_ind
    (fun v => (∀ x' ∈ allV (rewV pid v).1,
        ∃ x ∈ allV v, nodeId x' = nodeId x ∧ belowIds x' ⊆ belowIds x) ∧
      (∀ xs, v = .arr xs → ∀ x' ∈ allA (rewA pid xs).1,
        ∃ x ∈ allA xs, nodeId x' = nodeId x ∧ belowIds x' ⊆ belowIds x))
    (fun xs => ∀ x' ∈ allA (rewA pid xs).1,
      ∃ x ∈ allA xs, nodeId x' = nodeId x ∧ belowIds x' ⊆ belowIds x)
    (fun fs => ∀ x' ∈ allFields (rewFields pid fs).1,
      ∃ x ∈ allFields fs, nodeId x' = nodeId x ∧ belowIds x' ⊆ belowIds x)
    ⟨fun x' hx' => by simp [rewV, allV] at hx', fun _ h => nomatch h⟩
    ⟨fun x' hx' => by simp [rewV, allV] at hx', fun _ h => nomatch h⟩
    (fun b => ⟨fun x' hx' => by simp [rewV, allV] at hx', fun _ h => nomatch h⟩)
    (fun q => ⟨fun x' hx' => by simp [rewV, allV] at hx', fun _ h => nomatch h⟩)
    (fun s => ⟨fun x' hx' => by simp [rewV, allV] at hx', fun _ h => nomatch h⟩)
    (fun xs qxs => ⟨fun x' hx' => by simp [rewV, allV] at hx',
      fun ys hys => by cases hys; exact qxs⟩)
    (fun fs rfs => ⟨?_, fun _ h => nomatch h⟩)
    (fun x' hx' => by simp [rewA, allA] at hx')
    (fun v tl ihv ihtl => ?_)
    (fun x' hx' => by simp [rewFields, allFields] at hx')
    (fun k v tl ihv ihtl => ?_)
  · intro x' hx'
    have rfs' : ∀ x' ∈ allFields (rewFields pid fs).1,
        ∃ x ∈ allFields fs, nodeId x' = nodeId x ∧ belowIds x' ⊆ belowIds x := rfs
    by_cases hid : fs.get "id" = some (JVal.str pid)
    · have he : (rewV pid (.obj fs)).1 = imageStub pid := by rw [rewV, if_pos hid]
      rw [he, imageStub_allV] at hx'
      have hx'' : x' = imageStub pid := by simpa using hx'
      subst hx''
      refine ⟨.obj fs, by simp [allV], ?_, ?_⟩
      · rw [imageStub_nodeId, (nodeId_obj_iff fs pid).2 hid]
      · rw [imageStub_belowIds]
        intro i hi
        exact absurd hi (by simp)
    · have he : (rewV pid (.obj fs)).1 = .obj (rewFields pid fs).1 := by
        rw [rewV, if_neg hid]
      rw [he] at hx'
      have hx'' : x' = JVal.obj (rewFields pid fs).1 ∨ x' ∈ allFields (rewFields pid fs).1 := by
        simpa [allV] using hx'
      rcases hx'' with rfl | hmem
      · refine ⟨.obj fs, by simp [allV], nodeId_rewFields pid fs, ?_⟩
        have hb : belowIds (JVal.obj (rewFields pid fs).1)
            = (allFields (rewFields pid fs).1).filterMap nodeId := by
          rw [belowIds, belowNodes]
        have hb2 : belowIds (JVal.obj fs) = (allFields fs).filterMap nodeId := by
          rw [belowIds, belowNodes]
        rw [hb, hb2]
        exact nodeIds_sub (fun y hy => (rfs' y hy).imp fun x hx => ⟨hx.1, hx.2.1⟩)
      · rcases rfs' x' hmem with ⟨x, hx, hni, hbi⟩
        exact ⟨x, by simp [allV]; exact Or.inr hx, hni, hbi⟩
  · intro x' hx'
    have ihtl' : ∀ x' ∈ allA (rewA pid tl).1,
        ∃ x ∈ allA tl, nodeId x' = nodeId x ∧ belowIds x' ⊆ belowIds x := ihtl
    by_cases hfl : (rewV pid v).2 = true
    · have he : (rewA pid (.cons v tl)).1 = .cons (rewV pid v).1 tl := by
        simp [rewA, hfl]
      rw [he] at hx'
      have hx'' : x' ∈ allV (rewV pid v).1 ∨ x' ∈ allA tl := by simpa [allA] using hx'
      rcases hx'' with hmem | hmem
      · rcases ihv.1 x' hmem with ⟨x, hx, hni, hbi⟩
        exact ⟨x, by simp [allA]; exact Or.inl hx, hni, hbi⟩
      · exact ⟨x', by simp [allA]; exact Or.inr hmem, rfl, fun i hi => hi⟩
    · have he : (rewA pid (.cons v tl)).1 = .cons (rewV pid v).1 (rewA pid tl).1 := by
        simp [rewA, hfl]
      rw [he] at hx'
      have hx'' : x' ∈ allV (rewV pid v).1 ∨ x' ∈ allA (rewA pid tl).1 := by
        simpa [allA] using hx'
      rcases hx'' with hmem | hmem
      · rcases ihv.1 x' hmem with ⟨x, hx, hni, hbi⟩
        exact ⟨x, by simp [allA]; exact Or.inl hx, hni, hbi⟩
      · rcases ihtl' x' hmem with ⟨x, hx, hni, hbi⟩
        exact ⟨x, by simp [allA]; exact Or.inr hx, hni, hbi⟩
  · intro x' hx'
    have ihtl' : ∀ x' ∈ allFields (rewFields pid tl).1,
        ∃ x ∈ allFields tl, nodeId x' = nodeId x ∧ belowIds x' ⊆ belowIds x := ihtl
    by_cases hk : k = "children"
    · cases v with
      | arr xs =>
          by_cases hfl : (rewA pid xs).2 = true
          · have he : (rewFields pid (.cons k (.arr xs) tl)).1
                = .cons k (.arr (rewA pid xs).1) tl := by simp [rewFields, hk, hfl]
            rw [he] at hx'
            have hx'' : x' ∈ allA (rewA pid xs).1 ∨ x' ∈ allFields tl := by
              simpa [allFields, hk] using hx'
            rcases hx'' with hmem | hmem
            · rcases ihv.2 xs rfl x' hmem with ⟨x, hx, hni, hbi⟩
              exact ⟨x, by simp [allFields, hk]; exact Or.inl hx, hni, hbi⟩
            · exact ⟨x', by simp [allFields, hk]; exact Or.inr hmem, rfl, fun i hi => hi⟩
          · have he : (rewFields pid (.cons k (.arr xs) tl)).1
                = .cons k (.arr (rewA pid xs).1) (rewFields pid tl).1 := by
              simp [rewFields, hk, hfl]
            rw [he] at hx'
            have hx'' : x' ∈ allA (rewA pid xs).1 ∨ x' ∈ allFields (rewFields pid tl).1 := by
              simpa [allFields, hk] using hx'
            rcases hx'' with hmem | hmem
            · rcases ihv.2 xs rfl x' hmem with ⟨x, hx, hni, hbi⟩
              exact ⟨x, by simp [allFields, hk]; exact Or.inl hx, hni, hbi⟩
            · rcases ihtl' x' hmem with ⟨x, hx, hni, hbi⟩
              exact ⟨x, by simp [allFields, hk]; exact Or.inr hx, hni, hbi⟩
      | undef =>
          have he : (rewFields pid (.cons k JVal.undef tl)).1
              = .cons k JVal.undef (rewFields pid tl).1 := by simp [rewFields, hk]
          rw [he] at hx'
          have hmem : x' ∈ allFields (rewFields pid tl).1 := by
            simpa [allFields, hk] using hx'
          rcases ihtl' x' hmem with ⟨x, hx, hni, hbi⟩
          exact ⟨x, by simp [allFields, hk]; exact hx, hni, hbi⟩
      | jnull =>
          have he : (rewFields pid (.cons k JVal.jnull tl)).1
              = .cons k JVal.jnull (rewFields pid tl).1 := by simp [rewFields, hk]
          rw [he] at hx'
          have hmem : x' ∈ allFields (rewFields pid tl).1 := by
            simpa [allFields, hk] using hx'
          rcases ihtl' x' hmem with ⟨x, hx, hni, hbi⟩
          exact ⟨x, by simp [allFields, hk]; exact hx, hni, hbi⟩
      | bool b =>
          have he : (rewFields pid (.cons k (JVal.bool b) tl)).1
              = .cons k (JVal.bool b) (rewFields pid tl).1 := by simp [rewFields, hk]
          rw [he] at hx'
          have hmem : x' ∈ allFields (rewFields pid tl).1 := by
            simpa [allFields, hk] using hx'
          rcases ihtl' x' hmem with ⟨x, hx, hni, hbi⟩
          exact ⟨x, by simp [allFields, hk]; exact hx, hni, hbi⟩
      | num q =>
          have he : (rewFields pid (.cons k (JVal.num q) tl)).1
              = .cons k (JVal.num q) (rewFields pid tl).1 := by simp [rewFields, hk]
          rw [he] at hx'
          have hmem : x' ∈ allFields (rewFields pid tl).1 := by
            simpa [allFields, hk] using hx'
          rcases ihtl' x' hmem with ⟨x, hx, hni, hbi⟩
          exact ⟨x, by simp [allFields, hk]; exact hx, hni, hbi⟩
      | str s =>
          have he : (rewFields pid (.cons k (JVal.str s) tl)).1
              = .cons k (JVal.str s) (rewFields pid tl).1 := by simp [rewFields, hk]
          rw [he] at hx'
          have hmem : x' ∈ allFields (rewFields pid tl).1 := by
            simpa [allFields, hk] using hx'
          rcases ihtl' x' hmem with ⟨x, hx, hni, hbi⟩
          exact ⟨x, by simp [allFields, hk]; exact hx, hni, hbi⟩
      | obj gs =>
          have he : (rewFields pid (.cons k (JVal.obj gs) tl)).1
              = .cons k (JVal.obj gs) (rewFields pid tl).1 := by simp [rewFields, hk]
          rw [he] at hx'
          have hmem : x' ∈ allFields (rewFields pid tl).1 := by
            simpa [allFields, hk] using hx'
          rcases ihtl' x' hmem with ⟨x, hx, hni, hbi⟩
          exact ⟨x, by simp [allFields, hk]; exact hx, hni, hbi⟩
    · have he : (rewFields pid (.cons k v tl)).1 = .cons k v (rewFields pid tl).1 := by
        cases v <;> simp [rewFields, hk]
      rw [he] at hx'
      have ha2 : allFields (JObj.cons k v (rewFields pid tl).1)
          = allFields (rewFields pid tl).1 := by
        cases v <;> simp [allFields, hk]
      rw [ha2] at hx'
      rcases ihtl' x' hx' with ⟨x, hx, hni, hbi⟩
      refine ⟨x, ?_, hni, hbi⟩
      have ha : allFields (JObj.cons k v tl) = allFields tl := by
        cases v <;> simp [allFields, hk]
      rw [ha]
      exact hx

theorem rew_fsim (pid : String) :
    (∀ v : JVal, (∀ x ∈ allV v, (∃ x' ∈ allV (rewV pid v).1, nodeId x' = nodeId x) ∨
        (∃ y ∈ allV v, nodeId y = some pid ∧ x ∈ belowNodes y)) ∧
      (∀ xs, v = .arr xs → ∀ x ∈ allA xs,
        (∃ x' ∈ allA (rewA pid xs).1, nodeId x' = nodeId x) ∨
        (∃ y ∈ allA xs, nodeId y = some pid ∧ x ∈ belowNodes y))) ∧
    (∀ xs : JArr, ∀ x ∈ allA xs,
      (∃ x' ∈ allA (rewA pid xs).1, nodeId x' = nodeId x) ∨
      (∃ y ∈ allA xs, nodeId y = some pid ∧ x ∈ belowNodes y)) ∧
    (∀ fs : JObj, ∀ x ∈ allFields fs,
      (∃ x' ∈ allFields (rewFields pid fs).1, nodeId x' = nodeId x) ∨
      (∃ y ∈ allFields fs, nodeId y = some pid ∧ x ∈ belowNodes y)) := by
  refine jval_ind
    (fun v => (∀ x ∈ allV v, (∃ x' ∈ allV (rewV pid v).1, nodeId x' = nodeId x) ∨
        (∃ y ∈ allV v, nodeId y = some pid ∧ x ∈ belowNodes y)) ∧
      (∀ xs, v = .arr xs → ∀ x ∈ allA xs,
        (∃ x' ∈ allA (rewA pid xs).1, nodeId x' = nodeId x) ∨
        (∃ y ∈ allA xs, nodeId y = some pid ∧ x ∈ belowNodes y)))
    (fun xs => ∀ x ∈ allA xs,
      (∃ x' ∈ allA (rewA pid xs).1, nodeId x' = nodeId x) ∨
      (∃ y ∈ allA xs, nodeId y = some pid ∧ x ∈ belowNodes y))
    (fun fs => ∀ x ∈ allFields fs,
      (∃ x' ∈ allFields (rewFields pid fs).1, nodeId x' = nodeId x) ∨
      (∃ y ∈ allFields fs, nodeId y = some pid ∧ x ∈ belowNodes y))
    ⟨fun x hx => by simp [allV] at hx, fun _ h => nomatch h⟩
    ⟨fun x hx => by simp [allV] at hx, fun _ h => nomatch h⟩
    (fun b => ⟨fun x hx => by simp [allV] at hx, fun _ h => nomatch h⟩)
    (fun q => ⟨fun x hx => by simp [allV] at hx, fun _ h => nomatch h⟩)
    (fun s => ⟨fun x hx => by simp [allV] at hx, fun _ h => nomatch h⟩)
    (fun xs qxs => ⟨fun x hx => by simp [allV] at hx,
      fun ys hys => by cases hys; exact qxs⟩)
    (fun fs rfs => ⟨?_, fun _ h => nomatch h⟩)
    (fun x hx => by simp [allA] at hx)
    (fun v tl ihv ihtl => ?_)
    (fun x hx => by simp [allFields] at hx)
    (fun k v tl ihv ihtl => ?_)
  · intro x hx
    have rfs' : ∀ x ∈ allFields fs,
        (∃ x' ∈ allFields (rewFields pid fs).1, nodeId x' = nodeId x) ∨
        (∃ y ∈ allFields fs, nodeId y = some pid ∧ x ∈ belowNodes y) := rfs
    have hx' : x = JVal.obj fs ∨ x ∈ allFields fs := by simpa [allV] using hx
    by_cases hid : fs.get "id" = some (JVal.str pid)
    · have he : (rewV pid (.obj fs)).1 = imageStub pid := by rw [rewV, if_pos hid]
      rcases hx' with rfl | hmem
      · refine Or.inl ⟨imageStub pid, ?_, ?_⟩
        · rw [he, imageStub_allV]
          simp
        · rw [imageStub_nodeId, (nodeId_obj_iff fs pid).2 hid]
      · refine Or.inr ⟨.obj fs, by simp [allV], (nodeId_obj_iff fs pid).2 hid, ?_⟩
        rw [belowNodes]
        exact hmem
    · have he : (rewV pid (.obj fs)).1 = .obj (rewFields pid fs).1 := by
        rw [rewV, if_neg hid]
      rcases hx' with rfl | hmem
      · refine Or.inl ⟨.obj (rewFields pid fs).1, ?_, nodeId_rewFields pid fs⟩
        rw [he]
        simp [allV]
      · rcases rfs' x hmem with ⟨x', hx'', hni⟩ | ⟨y, hy, hni, hby⟩
        · refine Or.inl ⟨x', ?_, hni⟩
          rw [he]
          simp [allV]
          exact Or.inr hx''
        · exact Or.inr ⟨y, by simp [allV]; exact Or.inr hy, hni, hby⟩
  · intro x hx
    have ihtl' : ∀ x ∈ allA tl,
        (∃ x' ∈ allA (rewA pid tl).1, nodeId x' = nodeId x) ∨
        (∃ y ∈ allA tl, nodeId y = some pid ∧ x ∈ belowNodes y) := ihtl
    have hx' : x ∈ allV v ∨ x ∈ allA tl := by simpa [allA] using hx
    by_cases hfl : (rewV pid v).2 = true
    · have he : (rewA pid (.cons v tl)).1 = .cons (rewV pid v).1 tl := by
        simp [rewA, hfl]
      rcases hx' with hmem | hmem
      · rcases ihv.1 x hmem with ⟨x', hx'', hni⟩ | ⟨y, hy, hni, hby⟩
        · exact Or.inl ⟨x', by rw [he]; simp [allA]; exact Or.inl hx'', hni⟩
        · exact Or.inr ⟨y, by simp [allA]; exact Or.inl hy, hni, hby⟩
      · exact Or.inl ⟨x, by rw [he]; simp [allA]; exact Or.inr hmem, rfl⟩
    · have he : (rewA pid (.cons v tl)).1 = .cons (rewV pid v).1 (rewA pid tl).1 := by
        simp [rewA, hfl]
      rcases hx' with hmem | hmem
      · rcases ihv.1 x hmem with ⟨x', hx'', hni⟩ | ⟨y, hy, hni, hby⟩
        · exact Or.inl ⟨x', by rw [he]; simp [allA]; exact Or.inl hx'', hni⟩
        · exact Or.inr ⟨y, by simp [allA]; exact Or.inl hy, hni, hby⟩
      · rcases ihtl' x hmem with ⟨x', hx'', hni⟩ | ⟨y, hy, hni, hby⟩
        · exact Or.inl ⟨x', by rw [he]; simp [allA]; exact Or.inr hx'', hni⟩
        · exact Or.inr ⟨y, by simp [allA]; exact Or.inr hy, hni, hby⟩
  · intro x hx
    have ihtl' : ∀ x ∈ allFields tl,
        (∃ x' ∈ allFields (rewFields pid tl).1, nodeId x' = nodeId x) ∨
        (∃ y ∈ allFields tl, nodeId y = some pid ∧ x ∈ belowNodes y) := ihtl
    by_cases hk : k = "children"
    · cases v with
      | arr xs =>
          have hx' : x ∈ allA xs ∨ x ∈ allFields tl := by simpa [allFields, hk] using hx
          by_cases hfl : (rewA pid xs).2 = true
          · have he : (rewFields pid (.cons k (.arr xs) tl)).1
                = .cons k (.arr (rewA pid xs).1) tl := by simp [rewFields, hk, hfl]
            rcases hx' with hmem | hmem
            · rcases ihv.2 xs rfl x hmem with ⟨x', hx'', hni⟩ | ⟨y, hy, hni, hby⟩
              · exact Or.inl ⟨x', by rw [he]; simp [allFields, hk]; exact Or.inl hx'', hni⟩
              · exact Or.inr ⟨y, by simp [allFields, hk]; exact Or.inl hy, hni, hby⟩
            · exact Or.inl ⟨x, by rw [he]; simp [allFields, hk]; exact Or.inr hmem, rfl⟩
          · have he : (rewFields pid (.cons k (.arr xs) tl)).1
                = .cons k (.arr (rewA pid xs).1) (rewFields pid tl).1 := by
              simp [rewFields, hk, hfl]
            rcases hx' with hmem | hmem
            · rcases ihv.2 xs rfl x hmem with ⟨x', hx'', hni⟩ | ⟨y, hy, hni, hby⟩
              · exact Or.inl ⟨x', by rw [he]; simp [allFields, hk]; exact Or.inl hx'', hni⟩
              · exact Or.inr ⟨y, by simp [allFields, hk]; exact Or.inl hy, hni, hby⟩
            · rcases ihtl' x hmem with ⟨x', hx'', hni⟩ | ⟨y, hy, hni, hby⟩
              · exact Or.inl ⟨x', by rw [he]; simp [allFields, hk]; exact Or.inr hx'', hni⟩
              · exact Or.inr ⟨y, by simp [allFields, hk]; exact Or.inr hy, hni, hby⟩
      | undef =>
          have he : (rewFields pid (.cons k JVal.undef tl)).1
              = .cons k JVal.undef (rewFields pid tl).1 := by simp [rewFields, hk]
          have hmem : x ∈ allFields tl := by simpa [allFields, hk] using hx
          rcases ihtl' x hmem with ⟨x', hx'', hni⟩ | ⟨y, hy, hni, hby⟩
          · refine Or.inl ⟨x', ?_, hni⟩
            rw [he]
            simpa [allFields, hk] using hx''
          · exact Or.inr ⟨y, by simp [allFields, hk]; exact hy, hni, hby⟩
      | jnull =>
          have he : (rewFields pid (.cons k JVal.jnull tl)).1
              = .cons k JVal.jnull (rewFields pid tl).1 := by simp [rewFields, hk]
          have hmem : x ∈ allFields tl := by simpa [allFields, hk] using hx
          rcases ihtl' x hmem with ⟨x', hx'', hni⟩ | ⟨y, hy, hni, hby⟩
          · refine Or.inl ⟨x', ?_, hni⟩
            rw [he]
            simpa [allFields, hk] using hx''
          · exact Or.inr ⟨y, by simp [allFields, hk]; exact hy, hni, hby⟩
      | bool b =>
          have he : (rewFields pid (.cons k (JVal.bool b) tl)).1
              = .cons k (JVal.bool b) (rewFields pid tl).1 := by simp [rewFields, hk]
          have hmem : x ∈ allFields tl := by simpa [allFields, hk] using hx
          rcases ihtl' x hmem with ⟨x', hx'', hni⟩ | ⟨y, hy, hni, hby⟩
          · refine Or.inl ⟨x', ?_, hni⟩
            rw [he]
            simpa [allFields, hk] using hx''
          · exact Or.inr ⟨y, by simp [allFields, hk]; exact hy, hni, hby⟩
      | num q =>
          have he : (rewFields pid (.cons k (JVal.num q) tl)).1
              = .cons k (JVal.num q) (rewFields pid tl).1 := by simp [rewFields, hk]
          have hmem : x ∈ allFields tl := by simpa [allFields, hk] using hx
          rcases ihtl' x hmem with ⟨x', hx'', hni⟩ | ⟨y, hy, hni, hby⟩
          · refine Or.inl ⟨x', ?_, hni⟩
            rw [he]
            simpa [allFields, hk] using hx''
          · exact Or.inr ⟨y, by simp [allFields, hk]; exact hy, hni, hby⟩
      | str s =>
          have he : (rewFields pid (.cons k (JVal.str s) tl)).1
              = .cons k (JVal.str s) (rewFields pid tl).1 := by simp [rewFields, hk]
          have hmem : x ∈ allFields tl := by simpa [allFields, hk] using hx
          rcases ihtl' x hmem with ⟨x', hx'', hni⟩ | ⟨y, hy, hni, hby⟩
          · refine Or.inl ⟨x', ?_, hni⟩
            rw [he]
            simpa [allFields, hk] using hx''
          · exact Or.inr ⟨y, by simp [allFields, hk]; exact hy, hni, hby⟩
      | obj gs =>
          have he : (rewFields pid (.cons k (JVal.obj gs) tl)).1
              = .cons k (JVal.obj gs) (rewFields pid tl).1 := by simp [rewFields, hk]
          have hmem : x ∈ allFields tl := by simpa [allFields, hk] using hx
          rcases ihtl' x hmem with ⟨x', hx'', hni⟩ | ⟨y, hy, hni, hby⟩
          · refine Or.inl ⟨x', ?_, hni⟩
            rw [he]
            simpa [allFields, hk] using hx''
          · exact Or.inr ⟨y, by simp [allFields, hk]; exact hy, hni, hby⟩
    · have he : (rewFields pid (.cons k v tl)).1 = .cons k v (rewFields pid tl).1 := by
        cases v <;> simp [rewFields, hk]
      have ha : allFields (JObj.cons k v tl) = allFields tl := by
        cases v <;> simp [allFields, hk]
      have ha2 : allFields (JObj.cons k v (rewFields pid tl).1)
          = allFields (rewFields pid tl).1 := by
        cases v <;> simp [allFields, hk]
      have hmem : x ∈ allFields tl := by rw [ha] at hx; exact hx
      rcases ihtl' x hmem with ⟨x', hx'', hni⟩ | ⟨y, hy, hni, hby⟩
      · refine Or.inl ⟨x', ?_, hni⟩
        rw [he, ha2]
        exact hx''
      · refine Or.inr ⟨y, ?_, hni, hby⟩
        rw [ha]
        exact hy

theorem findV_rew_none (p q : String) (v : JVal) (h : findV p v = none) :
    findV p (rewV q v).1 = none := by
  rw [((find_none_iff p).1 ((rewV q v).1)).1.2]
  intro x' hx'
  rcases (rew_sim q).1 v |>.1 x' hx' with ⟨x, hx, hni, _⟩
  rw [hni]
  exact ((find_none_iff p).1 v).1.1 h x hx

theorem findA_rew_none (p q : String) (xs : JArr) (h : findA p xs = none) :
    findA p (rewA q xs).1 = none := by
  refine ((find_none_iff p).2.1 ((rewA q xs).1)).2 ?_
  intro x' hx'
  rcases (rew_sim q).2.1 xs x' hx' with ⟨x, hx, hni, _⟩
  rw [hni]
  exact ((find_none_iff p).2.1 xs).1 h x hx

theorem findA_rew_present (p q : String) (xs : JArr)
    (h : findA p xs ≠ none) (hanc : ¬ IsAncestor q p xs) :
    findA p (rewA q xs).1 ≠ none := by
  have hex : ∃ x ∈ allA xs, nodeId x = some p := by
    by_contra hno
    push_neg at hno
    exact h (((find_none_iff p).2.1 xs).2 hno)
  rcases hex with ⟨x, hx, hid⟩
  rcases (rew_fsim q).2.1 xs x hx with ⟨x', hx', hni⟩ | ⟨y, hy, hqy, hby⟩
  · intro hc
    exact ((find_none_iff p).2.1 ((rewA q xs).1)).1 hc x' hx' (hni.trans hid)
  · exact absurd ⟨y, hy, hqy, List.mem_filterMap.2 ⟨x, hby, hid⟩⟩ hanc

theorem isAncestor_rew (q' p q : String) (xs : JArr)
    (h : IsAncestor q' p (rewA q xs).1) : IsAncestor q' p xs := by
  rcases h with ⟨x', hx', hni, hp⟩
  rcases (rew_sim q).2.1 xs x' hx' with ⟨x, hx, hne, hsub⟩
  exact ⟨x, hx, hne ▸ hni, hsub hp⟩

theorem rew_makes_stub (p : String) :
    (∀ v : JVal, (findV p v ≠ none → findV p (rewV p v).1 = some (imageStub p)) ∧
      (∀ xs, v = .arr xs → findA p xs ≠ none → findA p (rewA p xs).1 = some (imageStub p))) ∧
    (∀ xs : JArr, findA p xs ≠ none → findA p (rewA p xs).1 = some (imageStub p)) ∧
    (∀ fs : JObj, findFields p fs ≠ none →
      findFields p (rewFields p fs).1 = some (imageStub p)) := by
  refine jval_ind
    (fun v => (findV p v ≠ none → findV p (rewV p v).1 = some (imageStub p)) ∧
      (∀ xs, v = .arr xs → findA p xs ≠ none → findA p (rewA p xs).1 = some (imageStub p)))
    (fun xs => findA p xs ≠ none → findA p (rewA p xs).1 = some (imageStub p))
    (fun fs => findFields p fs ≠ none → findFields p (rewFields p fs).1 = some (imageStub p))
    ⟨fun h => absurd (by simp [findV]) h, fun _ h => nomatch h⟩
    ⟨fun h => absurd (by simp [findV]) h, fun _ h => nomatch h⟩
    (fun b => ⟨fun h => absurd (by simp [findV]) h, fun _ h => nomatch h⟩)
    (fun q => ⟨fun h => absurd (by simp [findV]) h, fun _ h => nomatch h⟩)
    (fun s => ⟨fun h => absurd (by simp [findV]) h, fun _ h => nomatch h⟩)
    (fun xs qxs => ⟨fun h => absurd (by simp [findV]) h,
      fun ys hys => by cases hys; exact qxs⟩)
    (fun fs rfs => ⟨?_, fun _ h => nomatch h⟩)
    (fun h => absurd (by simp [findA]) h)
    (fun v tl ihv ihtl => ?_)
    (fun h => absurd (by simp [findFields]) h)
    (fun k v tl ihv ihtl => ?_)
  · intro h
    have rfs' : findFields p fs ≠ none →
        findFields p (rewFields p fs).1 = some (imageStub p) := rfs
    by_cases hid : fs.get "id" = some (JVal.str p)
    · have he : (rewV p (.obj fs)).1 = imageStub p := by rw [rewV, if_pos hid]
      rw [he, imageStub_findV, if_pos rfl]
    · have he : (rewV p (.obj fs)).1 = .obj (rewFields p fs).1 := by
        rw [rewV, if_neg hid]
      have hff : findFields p fs ≠ none := by
        intro hc
        apply h
        rw [findV, if_neg hid]
        exact hc
      rw [he, findV]
      have hid' : (rewFields p fs).1.get "id" ≠ some (JVal.str p) := by
        rw [rewFields_get_other p fs "id" (by decide)]
        exact hid
      rw [if_neg hid']
      exact rfs' hff
  · intro h
    have ihtl' : findA p tl ≠ none → findA p (rewA p tl).1 = some (imageStub p) := ihtl
    cases hfv : findV p v with
    | some r =>
        have hv := ihv.1 (by rw [hfv]; exact fun hc => nomatch hc)
        have hfl : (rewV p v).2 = true := (rew_flag p).1 v |>.1 r hfv
        have he : (rewA p (.cons v tl)).1 = .cons (rewV p v).1 tl := by
          simp [rewA, hfl]
        rw [he]
        have : findA p (.cons (rewV p v).1 tl) = some (imageStub p) := by
          simp [findA, hv]
        exact this
    | none =>
        have hrv : rewV p v = (v, false) := (rew_of_find_none p).1 v hfv
        have he : (rewA p (.cons v tl)).1 = .cons v (rewA p tl).1 := by
          simp [rewA, hrv]
        have htl : findA p tl ≠ none := by
          intro hc
          apply h
          simp [findA, hfv, hc]
        rw [he]
        have : findA p (.cons v (rewA p tl).1) = findA p (rewA p tl).1 := by
          simp [findA, hfv]
        rw [this]
        exact ihtl' htl
  · intro h
    have ihtl' : findFields p tl ≠ none →
        findFields p (rewFields p tl).1 = some (imageStub p) := ihtl
    by_cases hk : k = "children"
    · cases v with
      | arr xs =>
          cases hfa : findA p xs with
          | some r =>
              have hxs := ihv.2 xs rfl (by rw [hfa]; exact fun hc => nomatch hc)
              have hfl : (rewA p xs).2 = true := (rew_flag p).2.1 xs r hfa
              have he : (rewFields p (.cons k (.arr xs) tl)).1
                  = .cons k (.arr (rewA p xs).1) tl := by simp [rewFields, hk, hfl]
              rw [he]
              have : findFields p (JObj.cons k (.arr (rewA p xs).1) tl)
                  = some (imageStub p) := by
                simp [findFields, hk, hxs]
              exact this
          | none =>
              have hra : rewA p xs = (xs, false) := (rew_of_find_none p).2.1 xs hfa
              have he : (rewFields p (.cons k (.arr xs) tl)).1
                  = .cons k (.arr xs) (rewFields p tl).1 := by simp [rewFields, hk, hra]
              have htl : findFields p tl ≠ none := by
                intro hc
                apply h
                simp [findFields, hk, hfa, hc]
              rw [he]
              have : findFields p (JObj.cons k (.arr xs) (rewFields p tl).1)
                  = findFields p (rewFields p tl).1 := by
                simp [findFields, hk, hfa]
              rw [this]
              exact ihtl' htl
      | undef =>
          have he : (rewFields p (.cons k JVal.undef tl)).1
              = .cons k JVal.undef (rewFields p tl).1 := by simp [rewFields, hk]
          have htl : findFields p tl ≠ none := by
            intro hc
            apply h
            simp [findFields, hk, hc]
          rw [he]
          have : findFields p (JObj.cons k JVal.undef (rewFields p tl).1)
              = findFields p (rewFields p tl).1 := by simp [findFields, hk]
          rw [this]
          exact ihtl' htl
      | jnull =>
          have he : (rewFields p (.cons k JVal.jnull tl)).1
              = .cons k JVal.jnull (rewFields p tl).1 := by simp [rewFields, hk]
          have htl : findFields p tl ≠ none := by
            intro hc
            apply h
            simp [findFields, hk, hc]
          rw [he]
          have : findFields p (JObj.cons k JVal.jnull (rewFields p tl).1)
              = findFields p (rewFields p tl).1 := by simp [findFields, hk]
          rw [this]
          exact ihtl' htl
      | bool b =>
          have he : (rewFields p (.cons k (JVal.bool b) tl)).1
              = .cons k (JVal.bool b) (rewFields p tl).1 := by simp [rewFields, hk]
          have htl : findFields p tl ≠ none := by
            intro hc
            apply h
            simp [findFields, hk, hc]
          rw [he]
          have : findFields p (JObj.cons k (JVal.bool b) (rewFields p tl).1)
              = findFields p (rewFields p tl).1 := by simp [findFields, hk]
          rw [this]
          exact ihtl' htl
      | num q =>
          have he : (rewFields p (.cons k (JVal.num q) tl)).1
              = .cons k (JVal.num q) (rewFields p tl).1 := by simp [rewFields, hk]
          have htl : findFields p tl ≠ none := by
            intro hc
            apply h
            simp [findFields, hk, hc]
          rw [he]
          have : findFields p (JObj.cons k (JVal.num q) (rewFields p tl).1)
              = findFields p (rewFields p tl).1 := by simp [findFields, hk]
          rw [this]
          exact ihtl' htl
      | str s =>
          have he : (rewFields p (.cons k (JVal.str s) tl)).1
              = .cons k (JVal.str s) (rewFields p tl).1 := by simp [rewFields, hk]
          have htl : findFields p tl ≠ none := by
            intro hc
            apply h
            simp [findFields, hk, hc]
          rw [he]
          have : findFields p (JObj.cons k (JVal.str s) (rewFields p tl).1)
              = findFields p (rewFields p tl).1 := by simp [findFields, hk]
          rw [this]
          exact ihtl' htl
      | obj gs =>
          have he : (rewFields p (.cons k (JVal.obj gs) tl)).1
              = .cons k (JVal.obj gs) (rewFields p tl).1 := by simp [rewFields, hk]
          have htl : findFields p tl ≠ none := by
            intro hc
            apply h
            simp [findFields, hk, hc]
          rw [he]
          have : findFields p (JObj.cons k (JVal.obj gs) (rewFields p tl).1)
              = findFields p (rewFields p tl).1 := by simp [findFields, hk]
          rw [this]
          exact ihtl' htl
    · have he : (rewFields p (.cons k v tl)).1 = .cons k v (rewFields p tl).1 := by
        cases v <;> simp [rewFields, hk]
      have htl : findFields p tl ≠ none := by
        intro hc
        apply h
        cases v <;> simp [findFields, hk, hc]
      rw [he]
      have : findFields p (JObj.cons k v (rewFields p tl).1)
          = findFields p (rewFields p tl).1 := by
        cases v <;> simp [findFields, hk]
      rw [this]
      exact ihtl' htl

theorem rewFields_stub_fields (q p : String) :
    rewFields q (JObj.cons "id" (JVal.str p) (JObj.cons "type" (JVal.str "IMAGE") JObj.nil))
      = (JObj.cons "id" (JVal.str p) (JObj.cons "type" (JVal.str "IMAGE") JObj.nil), false) := by
  have h1 : ("id" : String) ≠ "children" := by decide
  have h2 : ("type" : String) ≠ "children" := by decide
  simp [rewFields, h1, h2]

theorem rew_keeps_stub (p q : String) (hqp : q ≠ p) :
    (∀ v : JVal, (¬ (∃ y ∈ allV v, nodeId y = some q ∧ p ∈ belowIds y) →
        findV p v = some (imageStub p) → findV p (rewV q v).1 = some (imageStub p)) ∧
      (∀ xs, v = .arr xs → ¬ (∃ y ∈ allA xs, nodeId y = some q ∧ p ∈ belowIds y) →
        findA p xs = some (imageStub p) → findA p (rewA q xs).1 = some (imageStub p))) ∧
    (∀ xs : JArr, ¬ (∃ y ∈ allA xs, nodeId y = some q ∧ p ∈ belowIds y) →
      findA p xs = some (imageStub p) → findA p (rewA q xs).1 = some (imageStub p)) ∧
    (∀ fs : JObj, ¬ (∃ y ∈ allFields fs, nodeId y = some q ∧ p ∈ belowIds y) →
      findFields p fs = some (imageStub p) →
      findFields p (rewFields q fs).1 = some (imageStub p)) := by
  refine jval_ind
    (fun v => (¬ (∃ y ∈ allV v, nodeId y = some q ∧ p ∈ belowIds y) →
        findV p v = some (imageStub p) → findV p (rewV q v).1 = some (imageStub p)) ∧
      (∀ xs, v = .arr xs → ¬ (∃ y ∈ allA xs, nodeId y = some q ∧ p ∈ belowIds y) →
        findA p xs = some (imageStub p) → findA p (rewA q xs).1 = some (imageStub p)))
    (fun xs => ¬ (∃ y ∈ allA xs, nodeId y = some q ∧ p ∈ belowIds y) →
      findA p xs = some (imageStub p) → findA p (rewA q xs).1 = some (imageStub p))
    (fun fs => ¬ (∃ y ∈ allFields fs, nodeId y = some q ∧ p ∈ belowIds y) →
      findFields p fs = some (imageStub p) →
      findFields p (rewFields q fs).1 = some (imageStub p))
    ⟨fun _ h => by simp [findV] at h, fun _ h => nomatch h⟩
    ⟨fun _ h => by simp [findV] at h, fun _ h => nomatch h⟩
    (fun b => ⟨fun _ h => by simp [findV] at h, fun _ h => nomatch h⟩)
    (fun q' => ⟨fun _ h => by simp [findV] at h, fun _ h => nomatch h⟩)
    (fun s => ⟨fun _ h => by simp [findV] at h, fun _ h => nomatch h⟩)
    (fun xs qxs => ⟨fun _ h => by simp [findV] at h,
      fun ys hys => by cases hys; exact qxs⟩)
    (fun fs rfs => ⟨?_, fun _ h => nomatch h⟩)
    (fun _ h => by simp [findA] at h)
    (fun v tl ihv ihtl => ?_)
    (fun _ h => by simp [findFields] at h)
    (fun k v tl ihv ihtl => ?_)
  · intro hno hfind
    have rfs' : ¬ (∃ y ∈ allFields fs, nodeId y = some q ∧ p ∈ belowIds y) →
        findFields p fs = some (imageStub p) →
        findFields p (rewFields q fs).1 = some (imageStub p) := rfs
    rw [findV] at hfind
    by_cases hidp : fs.get "id" = some (JVal.str p)
    · rw [if_pos hidp] at hfind
      have hfs : JVal.obj fs = imageStub p := Option.some.inj hfind
      have hfs' : fs = JObj.cons "id" (JVal.str p)
          (JObj.cons "type" (JVal.str "IMAGE") JObj.nil) := by
        rw [imageStub] at hfs
        exact JVal.obj.inj hfs
      subst hfs'
      have hidq : (JObj.cons "id" (JVal.str p)
          (JObj.cons "type" (JVal.str "IMAGE") JObj.nil)).get "id" ≠ some (JVal.str q) := by
        simp [JObj.get]
        intro hc
        exact hqp hc.symm
      have he : (rewV q (.obj (JObj.cons "id" (JVal.str p)
          (JObj.cons "type" (JVal.str "IMAGE") JObj.nil)))).1
          = .obj (rewFields q (JObj.cons "id" (JVal.str p)
              (JObj.cons "type" (JVal.str "IMAGE") JObj.nil))).1 := by
        rw [rewV, if_neg hidq]
      rw [he, rewFields_stub_fields]
      rw [findV, if_pos hidp]
      rw [← imageStub]
    · rw [if_neg hidp] at hfind
      by_cases hidq : fs.get "id" = some (JVal.str q)
      · exfalso
        apply hno
        have hm := ((find_mem p).2.2 fs) (imageStub p) hfind
        refine ⟨.obj fs, by simp [allV], (nodeId_obj_iff fs q).2 hidq, ?_⟩
        rw [belowIds, belowNodes]
        refine List.mem_filterMap.2 ⟨imageStub p, hm.1, hm.2⟩
      · have he : (rewV q (.obj fs)).1 = .obj (rewFields q fs).1 := by
          rw [rewV, if_neg hidq]
        rw [he, findV]
        have hidp' : (rewFields q fs).1.get "id" ≠ some (JVal.str p) := by
          rw [rewFields_get_other q fs "id" (by decide)]
          exact hidp
        rw [if_neg hidp']
        refine rfs' ?_ hfind
        intro ⟨y, hy, hqy, hpy⟩
        exact hno ⟨y, by simp [allV]; exact Or.inr hy, hqy, hpy⟩
  · intro hno hfind
    have ihtl' : ¬ (∃ y ∈ allA tl, nodeId y = some q ∧ p ∈ belowIds y) →
        findA p tl = some (imageStub p) → findA p (rewA q tl).1 = some (imageStub p) := ihtl
    have hnov : ¬ (∃ y ∈ allV v, nodeId y = some q ∧ p ∈ belowIds y) := by
      intro ⟨y, hy, hqy, hpy⟩
      exact hno ⟨y, by simp [allA]; exact Or.inl hy, hqy, hpy⟩
    have hnot : ¬ (∃ y ∈ allA tl, nodeId y = some q ∧ p ∈ belowIds y) := by
      intro ⟨y, hy, hqy, hpy⟩
      exact hno ⟨y, by simp [allA]; exact Or.inr hy, hqy, hpy⟩
    cases hfv : findV p v with
    | some r =>
        have hr : r = imageStub p := by
          have : findA p (.cons v tl) = some r := by simp [findA, hfv]
          rw [this] at hfind
          exact Option.some.inj hfind
        subst hr
        by_cases hfl : (rewV q v).2 = true
        · have he : (rewA q (.cons v tl)).1 = .cons (rewV q v).1 tl := by
            simp [rewA, hfl]
          rw [he]
          have hv := ihv.1 hnov hfv
          simp [findA, hv]
        · have hfq : findV q v = none := by
            cases hq : findV q v with
            | none => rfl
            | some r2 => exact absurd ((rew_flag q).1 v |>.1 r2 hq) hfl
          have hrv : rewV q v = (v, false) := (rew_of_find_none q).1 v hfq
          have he : (rewA q (.cons v tl)).1 = .cons v (rewA q tl).1 := by
            simp [rewA, hrv]
          rw [he]
          simp [findA, hfv]
    | none =>
        have htl : findA p tl = some (imageStub p) := by
          have : findA p (.cons v tl) = findA p tl := by simp [findA, hfv]
          rw [this] at hfind
          exact hfind
        by_cases hfl : (rewV q v).2 = true
        · have he : (rewA q (.cons v tl)).1 = .cons (rewV q v).1 tl := by
            simp [rewA, hfl]
          rw [he]
          have hvnone := findV_rew_none p q v hfv
          simp [findA, hvnone]
          exact htl
        · have hfq : findV q v = none := by
            cases hq : findV q v with
            | none => rfl
            | some r2 => exact absurd ((rew_flag q).1 v |>.1 r2 hq) hfl
          have hrv : rewV q v = (v, false) := (rew_of_find_none q).1 v hfq
          have he : (rewA q (.cons v tl)).1 = .cons v (rewA q tl).1 := by
            simp [rewA, hrv]
          rw [he]
          have : findA p (.cons v (rewA q tl).1) = findA p (rewA q tl).1 := by
            simp [findA, hfv]
          rw [this]
          exact ihtl' hnot htl
  · intro hno hfind
    have ihtl' : ¬ (∃ y ∈ allFields tl, nodeId y = some q ∧ p ∈ belowIds y) →
        findFields p tl = some (imageStub p) →
        findFields p (rewFields q tl).1 = some (imageStub p) := ihtl
    by_cases hk : k = "children"
    · cases v with
      | arr xs =>
          have hnox : ¬ (∃ y ∈ allA xs, nodeId y = some q ∧ p ∈ belowIds y) := by
            intro ⟨y, hy, hqy, hpy⟩
            exact hno ⟨y, by simp [allFields, hk]; exact Or.inl hy, hqy, hpy⟩
          have hnot : ¬ (∃ y ∈ allFields tl, nodeId y = some q ∧ p ∈ belowIds y) := by
            intro ⟨y, hy, hqy, hpy⟩
            exact hno ⟨y, by simp [allFields, hk]; exact Or.inr hy, hqy, hpy⟩
          cases hfa : findA p xs with
          | some r =>
              have hr : r = imageStub p := by
                have : findFields p (.cons k (.arr xs) tl) = some r := by
                  simp [findFields, hk, hfa]
                rw [this] at hfind
                exact Option.some.inj hfind
              subst hr
              by_cases hfl : (rewA q xs).2 = true
              · have he : (rewFields q (.cons k (.arr xs) tl)).1
                    = .cons k (.arr (rewA q xs).1) tl := by simp [rewFields, hk, hfl]
                rw [he]
                have hxs := ihv.2 xs rfl hnox hfa
                simp [findFields, hk, hxs]
              · have hfq : findA q xs = none := by
                  cases hq : findA q xs with
                  | none => rfl
                  | some r2 => exact absurd ((rew_flag q).2.1 xs r2 hq) hfl
                have hra : rewA q xs = (xs, false) := (rew_of_find_none q).2.1 xs hfq
                have he : (rewFields q (.cons k (.arr xs) tl)).1
                    = .cons k (.arr xs) (rewFields q tl).1 := by simp [rewFields, hk, hra]
                rw [he]
                simp [findFields, hk, hfa]
          | none =>
              have htl : findFields p tl = some (imageStub p) := by
                have : findFields p (.cons k (.arr xs) tl) = findFields p tl := by
                  simp [findFields, hk, hfa]
                rw [this] at hfind
                exact hfind
              by_cases hfl : (rewA q xs).2 = true
              · have he : (rewFields q (.cons k (.arr xs) tl)).1
                    = .cons k (.arr (rewA q xs).1) tl := by simp [rewFields, hk, hfl]
                rw [he]
                have hxnone := findA_rew_none p q xs hfa
                simp [findFields, hk, hxnone]
                exact htl
              · have hfq : findA q xs = none := by
                  cases hq : findA q xs with
                  | none => rfl
                  | some r2 => exact absurd ((rew_flag q).2.1 xs r2 hq) hfl
                have hra : rewA q xs = (xs, false) := (rew_of_find_none q).2.1 xs hfq
                have he : (rewFields q (.cons k (.arr xs) tl)).1
                    = .cons k (.arr xs) (rewFields q tl).1 := by simp [rewFields, hk, hra]
                rw [he]
                have : findFields p (JObj.cons k (.arr xs) (rewFields q tl).1)
                    = findFields p (rewFields q tl).1 := by simp [findFields, hk, hfa]
                rw [this]
                exact ihtl' hnot htl
      | undef =>
          have hnot : ¬ (∃ y ∈ allFields tl, nodeId y = some q ∧ p ∈ belowIds y) := by
            intro ⟨y, hy, hqy, hpy⟩
            refine hno ⟨y, ?_, hqy, hpy⟩
            simp [allFields, hk]
            exact hy
          have htl : findFields p tl = some (imageStub p) := by
            have : findFields p (.cons k JVal.undef tl) = findFields p tl := by
              simp [findFields, hk]
            rw [this] at hfind
            exact hfind
          have he : (rewFields q (.cons k JVal.undef tl)).1
              = .cons k JVal.undef (rewFields q tl).1 := by simp [rewFields, hk]
          rw [he]
          have : findFields p (JObj.cons k JVal.undef (rewFields q tl).1)
              = findFields p (rewFields q tl).1 := by simp [findFields, hk]
          rw [this]
          exact ihtl' hnot htl
      | jnull =>
          have hnot : ¬ (∃ y ∈ allFields tl, nodeId y = some q ∧ p ∈ belowIds y) := by
            intro ⟨y, hy, hqy, hpy⟩
            refine hno ⟨y, ?_, hqy, hpy⟩
            simp [allFields, hk]
            exact hy
          have htl : findFields p tl = some (imageStub p) := by
            have : findFields p (.cons k JVal.jnull tl) = findFields p tl := by
              simp [findFields, hk]
            rw [this] at hfind
            exact hfind
          have he : (rewFields q (.cons k JVal.jnull tl)).1
              = .cons k JVal.jnull (rewFields q tl).1 := by simp [rewFields, hk]
          rw [he]
          have : findFields p (JObj.cons k JVal.jnull (rewFields q tl).1)
              = findFields p (rewFields q tl).1 := by simp [findFields, hk]
          rw [this]
          exact ihtl' hnot htl
      | bool b =>
          have hnot : ¬ (∃ y ∈ allFields tl, nodeId y = some q ∧ p ∈ belowIds y) := by
            intro ⟨y, hy, hqy, hpy⟩
            refine hno ⟨y, ?_, hqy, hpy⟩
            simp [allFields, hk]
            exact hy
          have htl : findFields p tl = some (imageStub p) := by
            have : findFields p (.cons k (JVal.bool b) tl) = findFields p tl := by
              simp [findFields, hk]
            rw [this] at hfind
            exact hfind
          have he : (rewFields q (.cons k (JVal.bool b) tl)).1
              = .cons k (JVal.bool b) (rewFields q tl).1 := by simp [rewFields, hk]
          rw [he]
          have : findFields p (JObj.cons k (JVal.bool b) (rewFields q tl).1)
              = findFields p (rewFields q tl).1 := by simp [findFields, hk]
          rw [this]
          exact ihtl' hnot htl
      | num qn =>
          have hnot : ¬ (∃ y ∈ allFields tl, nodeId y = some q ∧ p ∈ belowIds y) := by
            intro ⟨y, hy, hqy, hpy⟩
            refine hno ⟨y, ?_, hqy, hpy⟩
            simp [allFields, hk]
            exact hy
          have htl : findFields p tl = some (imageStub p) := by
            have : findFields p (.cons k (JVal.num qn) tl) = findFields p tl := by
              simp [findFields, hk]
            rw [this] at hfind
            exact hfind
          have he : (rewFields q (.cons k (JVal.num qn) tl)).1
              = .cons k (JVal.num qn) (rewFields q tl).1 := by simp [rewFields, hk]
          rw [he]
          have : findFields p (JObj.cons k (JVal.num qn) (rewFields q tl).1)
              = findFields p (rewFields q tl).1 := by simp [findFields, hk]
          rw [this]
          exact ihtl' hnot htl
      | str s =>
          have hnot : ¬ (∃ y ∈ allFields tl, nodeId y = some q ∧ p ∈ belowIds y) := by
            intro ⟨y, hy, hqy, hpy⟩
            refine hno ⟨y, ?_, hqy, hpy⟩
            simp [allFields, hk]
            exact hy
          have htl : findFields p tl = some (imageStub p) := by
            have : findFields p (.cons k (JVal.str s) tl) = findFields p tl := by
              simp [findFields, hk]
            rw [this] at hfind
            exact hfind
          have he : (rewFields q (.cons k (JVal.str s) tl)).1
              = .cons k (JVal.str s) (rewFields q tl).1 := by simp [rewFields, hk]
          rw [he]
          have : findFields p (JObj.cons k (JVal.str s) (rewFields q tl).1)
              = findFields p (rewFields q tl).1 := by simp [findFields, hk]
          rw [this]
          exact ihtl' hnot htl
      | obj gs =>
          have hnot : ¬ (∃ y ∈ allFields tl, nodeId y = some q ∧ p ∈ belowIds y) := by
            intro ⟨y, hy, hqy, hpy⟩
            refine hno ⟨y, ?_, hqy, hpy⟩
            simp [allFields, hk]
            exact hy
          have htl : findFields p tl = some (imageStub p) := by
            have : findFields p (.cons k (JVal.obj gs) tl) = findFields p tl := by
              simp [findFields, hk]
            rw [this] at hfind
            exact hfind
          have he : (rewFields q (.cons k (JVal.obj gs) tl)).1
              = .cons k (JVal.obj gs) (rewFields q tl).1 := by simp [rewFields, hk]
          rw [he]
          have : findFields p (JObj.cons k (JVal.obj gs) (rewFields q tl).1)
              = findFields p (rewFields q tl).1 := by simp [findFields, hk]
          rw [this]
          exact ihtl' hnot htl
    · have hnot : ¬ (∃ y ∈ allFields tl, nodeId y = some q ∧ p ∈ belowIds y) := by
        intro ⟨y, hy, hqy, hpy⟩
        refine hno ⟨y, ?_, hqy, hpy⟩
        have ha : allFields (JObj.cons k v tl) = allFields tl := by
          cases v <;> simp [allFields, hk]
        rw [ha]
        exact hy
      have htl : findFields p tl = some (imageStub p) := by
        have : findFields p (.cons k v tl) = findFields p tl := by
          cases v <;> simp [findFields, hk]
        rw [this] at hfind
        exact hfind
      have he : (rewFields q (.cons k v tl)).1 = .cons k v (rewFields q tl).1 := by
        cases v <;> simp [rewFields, hk]
      rw [he]
      have : findFields p (JObj.cons k v (rewFields q tl).1)
          = findFields p (rewFields q tl).1 := by
        cases v <;> simp [findFields, hk]
      rw [this]
      exact ihtl' hnot htl

/-- All parent ids listed across the groups, in rewrite order. -/
def groupPids (ctp : List (String × List String)) : List String :=
  (ctp.map Prod.snd).flatten

theorem rewriteGroups_flat : ∀ (ctp : List (String × List String)) (ns : JArr),
    rewriteGroups ctp ns = rewriteGroup (groupPids ctp) ns := by
  intro ctp
  induction ctp with
  | nil => intro ns; rfl
  | cons e tl ih =>
      intro ns
      have h1 : rewriteGroups (e :: tl) ns = rewriteGroups tl (rewriteGroup e.2 ns) := rfl
      rw [h1, ih]
      have h2 : groupPids (e :: tl) = e.2 ++ groupPids tl := by
        simp [groupPids]
      rw [h2, rewriteGroup, rewriteGroup, rewriteGroup, List.foldl_append]

theorem rewriteGroup_keeps_stub (p : String) (L : List String) :
    ∀ ns : JArr, (∀ q ∈ L, ¬ IsAncestor q p ns) →
    findA p ns = some (imageStub p) →
    findA p (rewriteGroup L ns) = some (imageStub p) := by
  induction L with
  | nil => exact fun ns _ hstub => hstub
  | cons q L' ih =>
      intro ns hanc hstub
      have h1 : rewriteGroup (q :: L') ns = rewriteGroup L' (rewA q ns).1 := rfl
      rw [h1]
      have hstep : findA p (rewA q ns).1 = some (imageStub p) := by
        by_cases hqp : q = p
        · subst hqp
          exact (rew_makes_stub q).2.1 ns (by rw [hstub]; exact fun hc => nomatch hc)
        · exact (rew_keeps_stub p q hqp).2.1 ns (hanc q (by simp)) hstub
      refine ih ((rewA q ns).1) ?_ hstep
      intro q' hq' hanc'
      exact hanc q' (by simp [hq']) (isAncestor_rew q' p q ns hanc')

theorem rewriteGroup_stubs (p : String) (L1 : List String) (L2 : List String) :
    ∀ ns : JArr, (∀ q ∈ L1 ++ p :: L2, ¬ IsAncestor q p ns) →
    findA p ns ≠ none →
    findA p (rewriteGroup (L1 ++ p :: L2) ns) = some (imageStub p) := by
  induction L1 with
  | nil =>
      intro ns hanc hpres
      have h1 : rewriteGroup ([] ++ p :: L2) ns = rewriteGroup L2 (rewA p ns).1 := rfl
      rw [h1]
      have hstub : findA p (rewA p ns).1 = some (imageStub p) :=
        (rew_makes_stub p).2.1 ns hpres
      refine rewriteGroup_keeps_stub p L2 ((rewA p ns).1) ?_ hstub
      intro q hq hanc'
      exact hanc q (by simp [hq]) (isAncestor_rew q p p ns hanc')
  | cons q L1' ih =>
      intro ns hanc hpres
      have h1 : rewriteGroup ((q :: L1') ++ p :: L2) ns
          = rewriteGroup (L1' ++ p :: L2) (rewA q ns).1 := rfl
      rw [h1]
      have hpres' : findA p (rewA q ns).1 ≠ none := by
        by_cases hqp : q = p
        · subst hqp
          rw [(rew_makes_stub q).2.1 ns hpres]
          exact fun hc => nomatch hc
        · exact findA_rew_present p q ns hpres (hanc q (by simp))
      refine ih ((rewA q ns).1) ?_ hpres'
      intro q' hq' hanc'
      have hm : q' ∈ (q :: L1') ++ p :: L2 := by
        rcases List.mem_append.1 hq' with h | h
        · exact List.mem_append.2 (Or.inl (List.mem_cons_of_mem q h))
        · exact List.mem_append.2 (Or.inr h)
      exact hanc q' hm (isAncestor_rew q' p q ns hanc')

theorem groupPids_eq (ctp : List (String × List String)) :
    groupPids ctp = ctp.flatMap Prod.snd := by
  induction ctp with
  | nil => rfl
  | cons e tl ih => simp [groupPids] at ih ⊢; exact ih

theorem mem_toList_of_get : ∀ (fs : JObj) (q : String) (rec : JVal),
    fs.get q = some rec → (q, rec) ∈ fs.toList := by
  intro fs
  induction fs using jobj_ind with
  | hnil => intro q rec h; simp [JObj.get] at h
  | hcons k v tl ih =>
      intro q rec h
      rw [JObj.get] at h
      by_cases hk : k = q
      · rw [if_pos hk] at h
        cases h
        subst hk
        simp [JObj.toList]
      · rw [if_neg hk] at h
        simp [JObj.toList]
        exact Or.inr (ih q rec h)

theorem mem_keys_of_mem_toList : ∀ (fs : JObj) (q : String) (rec : JVal),
    (q, rec) ∈ fs.toList → q ∈ fs.keys := by
  intro fs
  induction fs using jobj_ind with
  | hnil => intro q rec h; simp [JObj.toList] at h
  | hcons k v tl ih =>
      intro q rec h
      have h' : (q, rec) = (k, v) ∨ (q, rec) ∈ tl.toList := by
        simpa [JObj.toList] using h
      rcases h' with he | hm
      · cases he
        simp [JObj.keys]
      · simp [JObj.keys]
        exact Or.inr (ih q rec hm)

theorem get_of_mem_toList_nodup : ∀ (fs : JObj) (q : String) (rec : JVal),
    fs.keys.Nodup → (q, rec) ∈ fs.toList → fs.get q = some rec := by
  intro fs
  induction fs using jobj_ind with
  | hnil => intro q rec _ h; simp [JObj.toList] at h
  | hcons k v tl ih =>
      intro q rec hnd hmem
      have hnd' : k ∉ tl.keys ∧ tl.keys.Nodup := by
        simpa [JObj.keys] using hnd
      have hmem' : (q, rec) = (k, v) ∨ (q, rec) ∈ tl.toList := by
        simpa [JObj.toList] using hmem
      rw [JObj.get]
      rcases hmem' with he | hm
      · cases he
        rw [if_pos rfl]
      · by_cases hk : k = q
        · exfalso
          subst hk
          exact hnd'.1 (mem_keys_of_mem_toList tl k rec hm)
        · rw [if_neg hk]
          exact ih q rec hnd'.2 hm

theorem get_some_mem_keys : ∀ (fs : JObj) (q : String) (rec : JVal),
    fs.get q = some rec → q ∈ fs.keys := by
  intro fs
  induction fs using jobj_ind with
  | hnil => intro q rec h; simp [JObj.get] at h
  | hcons k v tl ih =>
      intro q rec h
      rw [JObj.get] at h
      by_cases hk : k = q
      · simp [JObj.keys, hk]
      · rw [if_neg hk] at h
        simp [JObj.keys]
        exact Or.inr (ih q rec h)

theorem groupParents_mem_mono :
    ∀ (b : JObj) (ctp : List (String × List String)) (gv : Store) (c : String) (q : String),
      (∃ l, (c, l) ∈ ctp ∧ q ∈ l) →
      ∃ l', (c, l') ∈ (groupParents b ctp gv).1 ∧ q ∈ l' := by
  intro b
  induction b using jobj_ind with
  | hnil => intro ctp gv c q h; simpa [groupParents] using h
  | hcons pid rec tl ih =>
      intro ctp gv c q h
      rw [groupParents]
      by_cases hf : (ctp.find? (fun e => e.1 == recCid rec)).isSome
      · rw [if_pos hf]
        apply ih
        rcases h with ⟨l, hl, hq⟩
        by_cases hc : c = recCid rec
        · refine ⟨l ++ [pid], ?_, by simp [hq]⟩
          have : (fun e : String × List String =>
              if e.1 = recCid rec then (e.1, e.2 ++ [pid]) else e) (c, l)
              = (c, l ++ [pid]) := by simp [hc]
          rw [← this]
          exact List.mem_map_of_mem _ hl
        · refine ⟨l, ?_, hq⟩
          have : (fun e : String × List String =>
              if e.1 = recCid rec then (e.1, e.2 ++ [pid]) else e) (c, l) = (c, l) := by
            simp [hc]
          rw [← this]
          exact List.mem_map_of_mem _ hl
      · rw [if_neg hf]
        apply ih
        rcases h with ⟨l, hl, hq⟩
        exact ⟨l, List.mem_append.2 (Or.inl hl), hq⟩

theorem groupParents_complete :
    ∀ (b : JObj) (ctp : List (String × List String)) (gv : Store) (q : String) (rec : JVal),
      (q, rec) ∈ b.toList →
      ∃ l, (recCid rec, l) ∈ (groupParents b ctp gv).1 ∧ q ∈ l := by
  intro b
  induction b using jobj_ind with
  | hnil => intro ctp gv q rec h; simp [JObj.toList] at h
  | hcons pid rec0 tl ih =>
      intro ctp gv q rec hmem
      have hmem' : (q, rec) = (pid, rec0) ∨ (q, rec) ∈ tl.toList := by
        simpa [JObj.toList] using hmem
      rw [groupParents]
      by_cases hf : (ctp.find? (fun e => e.1 == recCid rec0)).isSome
      · rw [if_pos hf]
        rcases hmem' with he | hm
        · cases he
          apply groupParents_mem_mono
          rcases Option.isSome_iff_exists.1 hf with ⟨e, hfe⟩
          have hee := List.find?_some hfe
          have hmeme := List.mem_of_find?_eq_some hfe
          have he1 : e.1 = recCid rec0 := by simpa using hee
          refine ⟨e.2 ++ [pid], ?_, by simp⟩
          have hmap : (fun e : String × List String =>
              if e.1 = recCid rec0 then (e.1, e.2 ++ [pid]) else e) e
              = (recCid rec0, e.2 ++ [pid]) := by simp [he1]
          rw [← hmap]
          exact List.mem_map_of_mem _ hmeme
        · exact ih _ _ q rec hm
      · rw [if_neg hf]
        rcases hmem' with he | hm
        · cases he
          apply groupParents_mem_mono
          exact ⟨[pid], by simp, by simp⟩
        · exact ih _ _ q rec hm

theorem groupParents_sound :
    ∀ (b : JObj) (ctp : List (String × List String)) (gv : Store) (c : String)
      (l : List String) (q : String),
      (c, l) ∈ (groupParents b ctp gv).1 → q ∈ l →
      (∃ l0, (c, l0) ∈ ctp ∧ q ∈ l0) ∨ (∃ rec, (q, rec) ∈ b.toList ∧ recCid rec = c) := by
  intro b
  induction b using jobj_ind with
  | hnil =>
      intro ctp gv c l q hmem hq
      rw [groupParents] at hmem
      exact Or.inl ⟨l, hmem, hq⟩
  | hcons pid rec0 tl ih =>
      intro ctp gv c l q hmem hq
      rw [groupParents] at hmem
      by_cases hf : (ctp.find? (fun e => e.1 == recCid rec0)).isSome
      · rw [if_pos hf] at hmem
        rcases ih _ _ c l q hmem hq with ⟨l0, hl0, hq0⟩ | ⟨rec, hrec, hcid⟩
        · rcases List.mem_map.1 hl0 with ⟨e, he, hfe⟩
          by_cases hc : e.1 = recCid rec0
          · have : (c, l0) = (e.1, e.2 ++ [pid]) := by rw [← hfe]; simp [hc]
            have hc' : c = e.1 := congrArg Prod.fst this
            have hl' : l0 = e.2 ++ [pid] := congrArg Prod.snd this
            subst hl'
            rcases List.mem_append.1 hq0 with hq1 | hq2
            · refine Or.inl ⟨e.2, ?_, hq1⟩
              rw [hc']
              exact he
            · have hqpid : q = pid := by simpa using hq2
              subst hqpid
              refine Or.inr ⟨rec0, by simp [JObj.toList], ?_⟩
              exact (hc'.trans hc).symm
          · have : (c, l0) = e := by rw [← hfe]; simp [hc]
            refine Or.inl ⟨l0, ?_, hq0⟩
            rw [this]
            exact he
        · exact Or.inr ⟨rec, by simp [JObj.toList]; exact Or.inr hrec, hcid⟩
      · rw [if_neg hf] at hmem
        rcases ih _ _ c l q hmem hq with ⟨l0, hl0, hq0⟩ | ⟨rec, hrec, hcid⟩
        · rcases List.mem_append.1 hl0 with hm | hm
          · exact Or.inl ⟨l0, hm, hq0⟩
          · have : (c, l0) = (recCid rec0, [pid]) := by simpa using hm
            have hc' : c = recCid rec0 := congrArg Prod.fst this
            have hl' : l0 = [pid] := congrArg Prod.snd this
            subst hl'
            have hqpid : q = pid := by simpa using hq0
            subst hqpid
            exact Or.inr ⟨rec0, by simp [JObj.toList], hc'.symm⟩
        · exact Or.inr ⟨rec, by simp [JObj.toList]; exact Or.inr hrec, hcid⟩

theorem stepVector_bucket (gen : Nat → String) (n : RawNode)
    (parent : Option RawNode) (a : JObj × St) (b : JObj) (kk : String)
    (hb : storeGet a.2.gv "vectorParents" = some (.obj b))
    (hcase : n.ntype = "VECTOR" → ∀ q, parent = some q → q.id ≠ kk) :
    ∃ b', storeGet (stepVector gen n parent a).2.gv "vectorParents" = some (.obj b') ∧
      b'.get kk = b.get kk := by
  rw [stepVector]
  by_cases ht : n.ntype = "VECTOR"
  · simp only [if_pos ht]
    have h1 := findOrCreateVar_preserves gen a.2 (.obj (a.1.del "id")) hb
    cases parent with
    | none => exact ⟨b, h1, rfl⟩
    | some p =>
        simp only []
        have hbk : bucketOf (findOrCreateVar gen a.2 (.obj (a.1.del "id"))).2.gv = b := by
          rw [bucketOf, h1]
        refine ⟨(bucketOf (findOrCreateVar gen a.2 (.obj (a.1.del "id"))).2.gv).set p.id
          (mkVPRecord p (findOrCreateVar gen a.2 (.obj (a.1.del "id"))).1), ?_, ?_⟩
        · exact storeGet_set_self _ _ _
        · rw [hbk]
          exact JObj.get_set_other b _ (fun hc => hcase ht p rfl hc.symm)
  · simp [ht]
    exact ⟨b, hb, rfl⟩

theorem walk_bucket_stable (lay : RawNode → Option RawNode → JObj)
    (gen : Nat → String) (kk : String) :
    (∀ n : RawNode, ∀ st parent res b, parseNode lay gen st n parent = .ok res →
      storeGet st.gv "vectorParents" = some (.obj b) →
      (∀ q, parent = some q → q.id = kk →
        ¬(n.ntype = "VECTOR" ∧ n.visible = true)) →
      (∀ m ∈ subnodesN n, m.id ≠ kk) →
      ∃ b', storeGet res.2.gv "vectorParents" = some (.obj b') ∧
        b'.get kk = b.get kk) ∧
    (∀ f : RawForest, ∀ st parent res b, parseChildren lay gen st f parent = .ok res →
      storeGet st.gv "vectorParents" = some (.obj b) →
      (∀ q, parent = some q → q.id = kk →
        ∀ c ∈ RawForest.toList f, ¬(c.ntype = "VECTOR" ∧ c.visible = true)) →
      (∀ m ∈ subnodesF f, m.id ≠ kk) →
      ∃ b', storeGet res.2.gv "vectorParents" = some (.obj b') ∧
        b'.get kk = b.get kk) := by
  have main := raw_ind
    (fun n => ∀ st parent res b, parseNode lay gen st n parent = .ok res →
      storeGet st.gv "vectorParents" = some (.obj b) →
      (∀ q, parent = some q → q.id = kk →
        ¬(n.ntype = "VECTOR" ∧ n.visible = true)) →
      (∀ m ∈ subnodesN n, m.id ≠ kk) →
      ∃ b', storeGet res.2.gv "vectorParents" = some (.obj b') ∧
        b'.get kk = b.get kk)
    (fun f => ∀ st parent res b, parseChildren lay gen st f parent = .ok res →
      storeGet st.gv "vectorParents" = some (.obj b) →
      (∀ q, parent = some q → q.id = kk →
        ∀ c ∈ RawForest.toList f, ¬(c.ntype = "VECTOR" ∧ c.visible = true)) →
      (∀ m ∈ subnodesF f, m.id ≠ kk) →
      ∃ b', storeGet res.2.gv "vectorParents" = some (.obj b') ∧
        b'.get kk = b.get kk)
    ?_ ?_ ?_
  · exact main
  · intro i nm t vis sty fl stl strk ch sw sd isw op cr cs ihcs
    intro st parent res b hok hb hpar hsub
    rw [parseNode] at hok
    by_cases hv : vis = false
    · rw [if_pos hv] at hok
      cases hok
      exact ⟨b, hb, rfl⟩
    · rw [if_neg hv] at hok
      try dsimp only at hok
      obtain ⟨a2, h2, hok⟩ := exceptBind_ok hok
      try dsimp only at hok
      obtain ⟨a4, h4, hok⟩ := exceptBind_ok hok
      try dsimp only at hok
      have hvt : vis = true := by
        cases vis
        · exact absurd rfl hv
        · rfl
      have hvis : (RawNode.node i nm t vis sty fl stl strk ch sw sd isw op cr cs).visible
          = true := by
        rw [RawNode.visible]
        exact hvt
      have hcase : (RawNode.node i nm t vis sty fl stl strk ch sw sd isw op cr cs).ntype
            = "VECTOR" →
          ∀ q, parent = some q → q.id ≠ kk := by
        intro ht q hq hqk
        exact hpar q hq hqk ⟨ht, hvis⟩
      have p1 := stepStyle_preserves gen (RawNode.node i nm t vis sty fl stl strk ch sw sd isw op cr cs)
        (JObj.cons "id" (.str i) (.cons "type" (.str t) .nil), st) hb
      have p2 := stepFills_preserves gen (RawNode.node i nm t vis sty fl stl strk ch sw sd isw op cr cs) _ a2 h2 p1
      have p3 := stepStyles_preserves gen (RawNode.node i nm t vis sty fl stl strk ch sw sd isw op cr cs) _ p2
      have p4 := stepStrokes_preserves gen (RawNode.node i nm t vis sty fl stl strk ch sw sd isw op cr cs) _ a4 h4 p3
      have p5 := stepLayout_preserves lay gen (RawNode.node i nm t vis sty fl stl strk ch sw sd isw op cr cs) parent _ p4
      have p6 := stepText_preserves (RawNode.node i nm t vis sty fl stl strk ch sw sd isw op cr cs) _ p5
      have p7 := stepStrokeWeight_preserves (RawNode.node i nm t vis sty fl stl strk ch sw sd isw op cr cs) _ p6
      have p8 := stepStrokeDashes_preserves (RawNode.node i nm t vis sty fl stl strk ch sw sd isw op cr cs) _ p7
      have p9 := stepWeights_preserves gen (RawNode.node i nm t vis sty fl stl strk ch sw sd isw op cr cs) _ p8
      have p10 := stepOpacity_preserves (RawNode.node i nm t vis sty fl stl strk ch sw sd isw op cr cs) _ p9
      have p11 := stepCorner_preserves (RawNode.node i nm t vis sty fl stl strk ch sw sd isw op cr cs) _ p10
      by_cases hcs : cs = RawForest.nil
      · rw [if_pos hcs] at hok
        obtain ⟨y, hy, hok⟩ := exceptBind_ok hok
        have hy' : (Except.ok _ : Except String (JObj × St)) = .ok y := hy
        cases hy'
        try dsimp only at hok
        have hok' : (Except.ok _ : Except String (Option JVal × St)) = .ok res := hok
        cases hok'
        exact stepVector_bucket gen (RawNode.node i nm t vis sty fl stl strk ch sw sd isw op cr cs) parent _ b kk p11 hcase
      · rw [if_neg hcs] at hok
        obtain ⟨rr, hrr, hok⟩ := exceptBind_ok hok
        try dsimp only at hok
        have hid_ne : (RawNode.node i nm t vis sty fl stl strk ch sw sd isw op cr cs).id
            ≠ kk := by
          apply hsub
          rw [subnodesN]
          simp
        have hchild := ihcs _ _ rr b hrr p11 ?hcpar ?hcsub
        case hcpar =>
          intro q hq hqk c hc
          cases hq
          exact absurd hqk hid_ne
        case hcsub =>
          intro m hm
          apply hsub
          rw [subnodesN]
          simp
          exact Or.inr hm
        obtain ⟨b1, hb1, hbk1⟩ := hchild
        by_cases hne : rr.1 ≠ JArr.nil
        · rw [if_pos hne] at hok
          obtain ⟨y, hy, hok⟩ := exceptBind_ok hok
          have hy' : (Except.ok _ : Except String (JObj × St)) = .ok y := hy
          cases hy'
          try dsimp only at hok
          have hok' : (Except.ok _ : Except String (Option JVal × St)) = .ok res := hok
          cases hok'
          exact Exists.elim (stepVector_bucket gen (RawNode.node i nm t vis sty fl stl strk ch sw sd isw op cr cs) parent _ b1 kk hb1 hcase)
            (fun b2 hp => ⟨b2, hp.1, hp.2.trans hbk1⟩)
        · rw [if_neg hne] at hok
          obtain ⟨y, hy, hok⟩ := exceptBind_ok hok
          have hy' : (Except.ok _ : Except String (JObj × St)) = .ok y := hy
          cases hy'
          try dsimp only at hok
          have hok' : (Except.ok _ : Except String (Option JVal × St)) = .ok res := hok
          cases hok'
          exact Exists.elim (stepVector_bucket gen (RawNode.node i nm t vis sty fl stl strk ch sw sd isw op cr cs) parent _ b1 kk hb1 hcase)
            (fun b2 hp => ⟨b2, hp.1, hp.2.trans hbk1⟩)
  · intro st parent res b hok hb _ _
    rw [parseChildren] at hok
    cases hok
    exact ⟨b, hb, rfl⟩
  · intro c tl ihc ihtl
    intro st parent res b hok hb hpar hsub
    rw [parseChildren] at hok
    obtain ⟨rc, hc, hok⟩ := exceptBind_ok hok
    try dsimp only at hok
    obtain ⟨rt, ht, hok⟩ := exceptBind_ok hok
    try dsimp only at hok
    have hparc : ∀ q, parent = some q → q.id = kk →
        ¬(c.ntype = "VECTOR" ∧ c.visible = true) := by
      intro q hq hqk
      exact hpar q hq hqk c (by rw [RawForest.toList]; simp)
    have hsubc : ∀ m ∈ subnodesN c, m.id ≠ kk := by
      intro m hm
      apply hsub
      rw [subnodesF]
      simp
      exact Or.inl hm
    obtain ⟨b1, hb1, hbk1⟩ := ihc _ _ rc b hc hb hparc hsubc
    have hpart : ∀ q, parent = some q → q.id = kk →
        ∀ d ∈ RawForest.toList tl, ¬(d.ntype = "VECTOR" ∧ d.visible = true) := by
      intro q hq hqk d hd
      exact hpar q hq hqk d (by rw [RawForest.toList]; simp; exact Or.inr hd)
    have hsubt : ∀ m ∈ subnodesF tl, m.id ≠ kk := by
      intro m hm
      apply hsub
      rw [subnodesF]
      simp
      exact Or.inr hm
    obtain ⟨b2, hb2, hbk2⟩ := ihtl _ _ rt b1 ht hb1 hpart hsubt
    cases hrc : rc.1 with
    | some s =>
        rw [hrc] at hok
        have hok' : (Except.ok _ : Except String (JArr × St)) = .ok res := hok
        cases hok'
        exact ⟨b2, hb2, hbk2.trans hbk1⟩
    | none =>
        rw [hrc] at hok
        have hok' : (Except.ok _ : Except String (JArr × St)) = .ok res := hok
        cases hok'
        exact ⟨b2, hb2, hbk2.trans hbk1⟩

theorem recCid_mkVPRecord (parent : RawNode) (cid : String) :
    recCid (mkVPRecord parent cid) = cid := by
  rw [mkVPRecord, recCid]
  simp [JObj.get]

theorem stepVector_writes (gen : Nat → String) (n : RawNode) (p : RawNode)
    (a : JObj × St) (ht : n.ntype = "VECTOR") :
    storeGet (stepVector gen n (some p) a).2.gv "vectorParents"
      = some (.obj ((bucketOf (findOrCreateVar gen a.2 (.obj (a.1.del "id"))).2.gv).set
          p.id (mkVPRecord p (findOrCreateVar gen a.2 (.obj (a.1.del "id"))).1))) := by
  rw [stepVector]
  simp only [if_pos ht]
  exact storeGet_set_self _ _ _

theorem stepVector_writes2 (gen : Nat → String) (n : RawNode) (p : RawNode)
    (a : JObj × St) (ht : n.ntype = "VECTOR") :
    ∃ cid b, storeGet (stepVector gen n (some p) a).2.gv "vectorParents"
        = some (.obj b) ∧ b.get p.id = some (mkVPRecord p cid) :=
  ⟨(findOrCreateVar gen a.2 (.obj (a.1.del "id"))).1,
   (bucketOf (findOrCreateVar gen a.2 (.obj (a.1.del "id"))).2.gv).set p.id
     (mkVPRecord p (findOrCreateVar gen a.2 (.obj (a.1.del "id"))).1),
   stepVector_writes gen n p a ht, JObj.get_set_self _ _ _⟩

theorem parseNode_vector_writes (lay : RawNode → Option RawNode → JObj)
    (gen : Nat → String) (v p : RawNode) (st : St) (res : Option JVal × St)
    (ht : v.ntype = "VECTOR") (hvis : v.visible = true)
    (hok : parseNode lay gen st v (some p) = .ok res) :
    ∃ cid b, storeGet res.2.gv "vectorParents" = some (.obj b) ∧
      b.get p.id = some (mkVPRecord p cid) := by
  cases v with
  | node i nm t vis sty fl stl strk ch sw sd isw op cr cs =>
      rw [parseNode] at hok
      have hv : ¬ (vis = false) := by
        rw [RawNode.visible] at hvis
        rw [hvis]
        exact fun hc => nomatch hc
      rw [if_neg hv] at hok
      try dsimp only at hok
      obtain ⟨a2, h2, hok⟩ := exceptBind_ok hok
      try dsimp only at hok
      obtain ⟨a4, h4, hok⟩ := exceptBind_ok hok
      try dsimp only at hok
      by_cases hcs : cs = RawForest.nil
      · rw [if_pos hcs] at hok
        obtain ⟨y, hy, hok⟩ := exceptBind_ok hok
        have hy' : (Except.ok _ : Except String (JObj × St)) = .ok y := hy
        cases hy'
        try dsimp only at hok
        have hok' : (Except.ok _ : Except String (Option JVal × St)) = .ok res := hok
        cases hok'
        exact stepVector_writes2 gen (RawNode.node i nm t vis sty fl stl strk ch sw sd isw op cr cs) p _ ht
      · rw [if_neg hcs] at hok
        obtain ⟨rr, hrr, hok⟩ := exceptBind_ok hok
        try dsimp only at hok
        by_cases hne : rr.1 ≠ JArr.nil
        · rw [if_pos hne] at hok
          obtain ⟨y, hy, hok⟩ := exceptBind_ok hok
          have hy' : (Except.ok _ : Except String (JObj × St)) = .ok y := hy
          cases hy'
          try dsimp only at hok
          have hok' : (Except.ok _ : Except String (Option JVal × St)) = .ok res := hok
          cases hok'
          exact stepVector_writes2 gen (RawNode.node i nm t vis sty fl stl strk ch sw sd isw op cr cs) p _ ht
        · rw [if_neg hne] at hok
          obtain ⟨y, hy, hok⟩ := exceptBind_ok hok
          have hy' : (Except.ok _ : Except String (JObj × St)) = .ok y := hy
          cases hy'
          try dsimp only at hok
          have hok' : (Except.ok _ : Except String (Option JVal × St)) = .ok res := hok
          cases hok'
          exact stepVector_writes2 gen (RawNode.node i nm t vis sty fl stl strk ch sw sd isw op cr cs) p _ ht

theorem nodup_fst_eq {β : Type} :
    ∀ (L : List (String × β)) (c : String) (a b : β),
      (L.map Prod.fst).Nodup → (c, a) ∈ L → (c, b) ∈ L → a = b := by
  intro L
  induction L with
  | nil => intro c a b _ ha; simp at ha
  | cons e tl ih =>
      intro c a b hnd ha hb
      have hnd' : e.1 ∉ tl.map Prod.fst ∧ (tl.map Prod.fst).Nodup := by
        simpa using hnd
      rcases List.mem_cons.1 ha with hea | hta
      · rcases List.mem_cons.1 hb with heb | htb
        · have hab : (c, a) = (c, b) := hea.trans heb.symm
          exact (Prod.ext_iff.1 hab).2
        · exfalso
          apply hnd'.1
          have : c = e.1 := by rw [← hea]
          rw [← this]
          exact List.mem_map.2 ⟨(c, b), htb, rfl⟩
      · rcases List.mem_cons.1 hb with heb | htb
        · exfalso
          apply hnd'.1
          have : c = e.1 := by rw [← heb]
          rw [← this]
          exact List.mem_map.2 ⟨(c, a), hta, rfl⟩
        · exact ih c a b hnd'.2 hta htb

/-- C10: vector-parent bookkeeping is keyed by the parent's raw id and
overwritten on each visible VECTOR child, so after the last visible VECTOR
child `v` of parent `p` is parsed (and the remaining siblings, none of
them top-level visible VECTORs and none of their subtrees reusing `p`'s
id, are walked), the `vectorParents` bucket maps `p.id` to exactly one
`VectorParentRecord` — the one whose `childrenId` is the content address
registered by that last child — and in the grouping pass the parent id
lands in exactly one `childrenToParents` group, the one keyed by that
address; all groups of earlier children's addresses omit it. -/
theorem spec_C10_last_vector_child_wins
    (lay : RawNode → Option RawNode → JObj) (gen : Nat → String)
    (v p : RawNode) (l2 : RawForest) (stA : St)
    (resv : Option JVal × St) (resl : JArr × St)
    (ht : v.ntype = "VECTOR") (hvis : v.visible = true)
    (hA : parseNode lay gen stA v (some p) = .ok resv)
    (hB : parseChildren lay gen resv.2 l2 (some p) = .ok resl)
    (hnovec : ∀ c ∈ RawForest.toList l2, ¬(c.ntype = "VECTOR" ∧ c.visible = true))
    (hsub : ∀ m ∈ subnodesF l2, m.id ≠ p.id)
    (hnd : (bucketOf resl.2.gv).keys.Nodup) :
    ∃ cid,
      (bucketOf resl.2.gv).get p.id = some (mkVPRecord p cid) ∧
      (∃ l, (cid, l) ∈ (groupParents (bucketOf resl.2.gv) [] resl.2.gv).1 ∧ p.id ∈ l) ∧
      (∀ c l, (c, l) ∈ (groupParents (bucketOf resl.2.gv) [] resl.2.gv).1 →
        p.id ∈ l → c = cid) ∧
      ((groupParents (bucketOf resl.2.gv) [] resl.2.gv).1.flatMap Prod.snd).count p.id
        = 1 := by
  obtain ⟨cid, b, hvp, hbp⟩ := parseNode_vector_writes lay gen v p stA resv ht hvis hA
  have hpar : ∀ q, some p = some q → q.id = p.id →
      ∀ c ∈ RawForest.toList l2, ¬(c.ntype = "VECTOR" ∧ c.visible = true) := by
    intro q hq _
    cases hq
    exact hnovec
  obtain ⟨b', hvp', hbk⟩ := (walk_bucket_stable lay gen p.id).2 l2 resv.2 (some p) resl b
    hB hvp hpar hsub
  have hbucket : bucketOf resl.2.gv = b' := by rw [bucketOf, hvp']
  have h1 : (bucketOf resl.2.gv).get p.id = some (mkVPRecord p cid) := by
    rw [hbucket, hbk]
    exact hbp
  refine ⟨cid, h1, ?_, ?_, ?_⟩
  · have hm : (p.id, mkVPRecord p cid) ∈ (bucketOf resl.2.gv).toList :=
      mem_toList_of_get _ _ _ h1
    have hg := groupParents_complete (bucketOf resl.2.gv) [] resl.2.gv p.id
      (mkVPRecord p cid) hm
    rw [recCid_mkVPRecord] at hg
    exact hg
  · intro c l hcl hpl
    rcases groupParents_sound _ [] _ c l p.id hcl hpl with ⟨l0, hl0, _⟩ | ⟨rec, hrec, hcid⟩
    · exact absurd hl0 (by simp)
    · have hget := get_of_mem_toList_nodup _ _ _ hnd hrec
      rw [h1] at hget
      have hre : rec = mkVPRecord p cid := (Option.some.inj hget).symm
      rw [hre, recCid_mkVPRecord] at hcid
      exact hcid.symm
  · have hc := (groupParents_keys_count p.id (bucketOf resl.2.gv) [] resl.2.gv (by simp)).1
    rw [hc]
    have hz : (([] : List (String × List String)).flatMap Prod.snd).count p.id = 0 := by
      simp
    rw [hz, Nat.zero_add]
    exact List.count_eq_one_of_mem hnd (get_some_mem_keys _ _ _ h1)

/-- Visible bare VECTOR leaf carrying a `characters` string. -/
def vchr (i s : String) : RawNode :=
  .node i i "VECTOR" true none none none none (some s) none none none none none .nil

/-- Frame with two visible VECTOR children whose text payloads differ. -/
def c10parent : RawNode :=
  rawFrame "P" (.cons (vchr "V1" "a") (.cons (vchr "V2" "b") .nil))

/-- Engine state after the first vector child of `c10parent` was walked:
payload `w` registered, bucket keyed `P` pointing at `w`. -/
def c10stA : St :=
  ⟨[("vectorParents", .obj (.cons "P" (mkVPRecord c10parent "w") .nil)),
    ("w", .obj (.cons "type" (.str "VECTOR") (.cons "text" (.str "a") .nil)))], 1⟩

/-- Engine state after the second vector child: a second payload `ww` is
registered and the bucket entry for `P` has been overwritten to it. -/
def c10stB : St :=
  ⟨[("vectorParents", .obj (.cons "P" (mkVPRecord c10parent "ww") .nil)),
    ("w", .obj (.cons "type" (.str "VECTOR") (.cons "text" (.str "a") .nil))),
    ("ww", .obj (.cons "type" (.str "VECTOR") (.cons "text" (.str "b") .nil)))], 2⟩

/-- Closed instance of C10: parse the second (last) vector child of
`c10parent` from the post-first-child state and the empty remaining
sibling list; the bucket holds a single overwritten record and the parent
appears in exactly one group. -/
theorem spec_C10_witness :
    (vchr "V2" "b").ntype = "VECTOR" ∧
    parseNode wlay wgen c10stA (vchr "V2" "b") (some c10parent) =
      .ok (some (.obj (.cons "id" (.str "V2") (.cons "type" (.str "VECTOR")
        (.cons "text" (.str "b") .nil)))), c10stB) ∧
    (bucketOf c10stB.gv).get "P" = some (mkVPRecord c10parent "ww") ∧
    recCid (mkVPRecord c10parent "ww") ≠ "w" ∧
    (∃ cid,
      (bucketOf c10stB.gv).get (c10parent.id) = some (mkVPRecord c10parent cid) ∧
      (∃ l, (cid, l) ∈ (groupParents (bucketOf c10stB.gv) [] c10stB.gv).1 ∧
        c10parent.id ∈ l) ∧
      (∀ c l, (c, l) ∈ (groupParents (bucketOf c10stB.gv) [] c10stB.gv).1 →
        c10parent.id ∈ l → c = cid) ∧
      ((groupParents (bucketOf c10stB.gv) [] c10stB.gv).1.flatMap Prod.snd).count
        c10parent.id = 1) := by
  refine ⟨by decide, by decide, by decide, by decide, ?_⟩
  exact spec_C10_last_vector_child_wins wlay wgen (vchr "V2" "b") c10parent
    RawForest.nil c10stA
    (some (.obj (.cons "id" (.str "V2") (.cons "type" (.str "VECTOR")
      (.cons "text" (.str "b") .nil)))), c10stB)
    (JArr.nil, c10stB)
    (by decide) (by decide) (by decide) (by decide)
    (by intro c hc; cases hc) (by intro m hm; cases hm) (by decide)

instance instDecIsAncestor (q p : String) (ns : JArr) : Decidable (IsAncestor q p ns) :=
  decidable_of_iff (∃ x ∈ allA ns, nodeId x = some q ∧ p ∈ belowIds x) (by rw [IsAncestor])

/-- Nested grouping scenario: frame `P1` holds a bare vector `A` and a
frame `P2`, which holds a bare vector `B`; both vectors strip to the same
payload so both parents land in one group, but `P2` sits inside `P1`. -/
def nestedRoots : RawForest :=
  .cons (rawFrame "P1" (.cons (rawVec "A")
    (.cons (rawFrame "P2" (.cons (rawVec "B") .nil)) .nil))) .nil

/-- Counterexample to C3 as frozen: the run groups `P1` and `P2` into the
single `childrenToParents` entry `w`, but rewriting `P1` first replaces its
whole subtree, so `P2` no longer exists in the output — it is not rewritten
to an image stub, it is destroyed. -/
theorem spec_C3_counterexample :
    ("P1" : String) ≠ "P2" ∧
    simplifyRun wlay wgen nestedRoots = .ok
      (JArr.cons (imageStub "P1") JArr.nil,
       [("childrenToParents",
         .obj (.cons "w" (.arr (.cons (.str "P1") (.cons (.str "P2") .nil))) .nil))]) ∧
    findA "P2" (JArr.cons (imageStub "P1") JArr.nil) = none :=
  ⟨by decide, by decide, by decide⟩

/-- C3 (amended): when the `vectorParents` bucket records two distinct
parents `p1 ≠ p2` under one content id `cid`, the bucket keys are unique,
no recorded parent is a proper ancestor of `p1` or of `p2` in the output
forest, both parents are locatable, and the forest is non-empty, then the
grouping pass puts both parent ids into the single group keyed `cid` (any
group containing either is that group, and group keys are unique), and the
rewrite pass of `parseGlobalVars` leaves both parents as exactly the
minimal `{id, type: IMAGE}` stub.  The ancestor condition is necessary: the
frozen claim fails on nested parents. -/
theorem spec_C3_grouped_parents_stubbed
    (gv : Store) (ns : JArr) (p1 p2 : String) (rec1 rec2 : JVal) (cid : String)
    (hne : p1 ≠ p2)
    (hb1 : (bucketOf gv).get p1 = some rec1) (hc1 : recCid rec1 = cid)
    (hb2 : (bucketOf gv).get p2 = some rec2) (hc2 : recCid rec2 = cid)
    (hnd : (bucketOf gv).keys.Nodup)
    (hanc : ∀ q, q ∈ (bucketOf gv).keys → ¬ IsAncestor q p1 ns ∧ ¬ IsAncestor q p2 ns)
    (hf1 : findA p1 ns ≠ none) (hf2 : findA p2 ns ≠ none)
    (hnn : ns ≠ JArr.nil) :
    (∃ l, (cid, l) ∈ (groupParents (bucketOf gv) [] gv).1 ∧ p1 ∈ l ∧ p2 ∈ l) ∧
    (∀ c l, (c, l) ∈ (groupParents (bucketOf gv) [] gv).1 → (p1 ∈ l ∨ p2 ∈ l) →
      c = cid) ∧
    ((groupParents (bucketOf gv) [] gv).1.map Prod.fst).Nodup ∧
    findA p1 (parseGlobalVars gv ns).2 = some (imageStub p1) ∧
    findA p2 (parseGlobalVars gv ns).2 = some (imageStub p2) := by
  have hGnodup := (groupParents_keys_count p1 (bucketOf gv) [] gv (by simp)).2
  have hm1 : (p1, rec1) ∈ (bucketOf gv).toList := mem_toList_of_get _ _ _ hb1
  have hm2 : (p2, rec2) ∈ (bucketOf gv).toList := mem_toList_of_get _ _ _ hb2
  obtain ⟨l1, hl1, hp1l⟩ := groupParents_complete (bucketOf gv) [] gv p1 rec1 hm1
  obtain ⟨l2, hl2, hp2l⟩ := groupParents_complete (bucketOf gv) [] gv p2 rec2 hm2
  rw [hc1] at hl1
  rw [hc2] at hl2
  have hll : l1 = l2 := nodup_fst_eq _ cid l1 l2 hGnodup hl1 hl2
  have hsound : ∀ c l, (c, l) ∈ (groupParents (bucketOf gv) [] gv).1 →
      (p1 ∈ l ∨ p2 ∈ l) → c = cid := by
    intro c l hcl hor
    rcases hor with hp | hp
    · rcases groupParents_sound _ [] _ c l p1 hcl hp with ⟨l0, hl0, _⟩ | ⟨rec, hrec, hcid⟩
      · exact absurd hl0 (by simp)
      · have hget := get_of_mem_toList_nodup _ _ _ hnd hrec
        rw [hb1] at hget
        have hre : rec = rec1 := (Option.some.inj hget).symm
        rw [hre, hc1] at hcid
        exact hcid.symm
    · rcases groupParents_sound _ [] _ c l p2 hcl hp with ⟨l0, hl0, _⟩ | ⟨rec, hrec, hcid⟩
      · exact absurd hl0 (by simp)
      · have hget := get_of_mem_toList_nodup _ _ _ hnd hrec
        rw [hb2] at hget
        have hre : rec = rec2 := (Option.some.inj hget).symm
        rw [hre, hc2] at hcid
        exact hcid.symm
  have hgd : (parseGlobalVars gv ns).2
      = rewriteGroup (groupPids (groupParents (bucketOf gv) [] gv).1) ns := by
    rw [parseGlobalVars]
    simp only []
    rw [if_pos hnn]
    exact rewriteGroups_flat _ ns
  have hkeys : ∀ q, q ∈ groupPids (groupParents (bucketOf gv) [] gv).1 →
      q ∈ (bucketOf gv).keys := by
    intro q hq
    rw [groupPids_eq] at hq
    rcases List.mem_flatMap.1 hq with ⟨e, he, hqe⟩
    rcases groupParents_sound (bucketOf gv) [] gv e.1 e.2 q he hqe with
      ⟨l0, hl0, _⟩ | ⟨rec, hrec, _⟩
    · exact absurd hl0 (by simp)
    · exact mem_keys_of_mem_toList _ _ _ hrec
  have hp1pids : p1 ∈ groupPids (groupParents (bucketOf gv) [] gv).1 := by
    rw [groupPids_eq]
    exact List.mem_flatMap.2 ⟨(cid, l1), hl1, hp1l⟩
  have hp2pids : p2 ∈ groupPids (groupParents (bucketOf gv) [] gv).1 := by
    rw [groupPids_eq]
    exact List.mem_flatMap.2 ⟨(cid, l2), hl2, hp2l⟩
  obtain ⟨L1, L2, hsplit1⟩ := List.append_of_mem hp1pids
  obtain ⟨M1, M2, hsplit2⟩ := List.append_of_mem hp2pids
  refine ⟨⟨l1, hl1, hp1l, hll ▸ hp2l⟩, hsound, hGnodup, ?_, ?_⟩
  · rw [hgd, hsplit1]
    refine rewriteGroup_stubs p1 L1 L2 ns ?_ hf1
    intro q hq
    have hqpids : q ∈ groupPids (groupParents (bucketOf gv) [] gv).1 := by
      rw [hsplit1]
      exact hq
    exact (hanc q (hkeys q hqpids)).1
  · rw [hgd, hsplit2]
    refine rewriteGroup_stubs p2 M1 M2 ns ?_ hf2
    intro q hq
    have hqpids : q ∈ groupPids (groupParents (bucketOf gv) [] gv).1 := by
      rw [hsplit2]
      exact hq
    exact (hanc q (hkeys q hqpids)).2

/-- Flat two-parent store for the amended C3 instance: two recorded
parents `Q1`, `Q2` sharing the content id `w`. -/
def c3gv : Store :=
  [("vectorParents", .obj (.cons "Q1" (.obj (.cons "childrenId" (.str "w") .nil))
    (.cons "Q2" (.obj (.cons "childrenId" (.str "w") .nil)) .nil)))]

/-- Flat output forest holding exactly the two parent nodes. -/
def c3ns : JArr :=
  .cons (.obj (.cons "id" (.str "Q1") (.cons "type" (.str "FRAME") .nil)))
    (.cons (.obj (.cons "id" (.str "Q2") (.cons "type" (.str "FRAME") .nil))) .nil)

/-- Closed instance of the amended C3: two sibling (non-nested) parents
sharing one content id end up in one group and both become image stubs. -/
theorem spec_C3_witness :
    (("Q1" : String) ≠ "Q2") ∧
    (bucketOf c3gv).get "Q1" = some (.obj (.cons "childrenId" (.str "w") .nil)) ∧
    (bucketOf c3gv).get "Q2" = some (.obj (.cons "childrenId" (.str "w") .nil)) ∧
    ((∃ l, ("w", l) ∈ (groupParents (bucketOf c3gv) [] c3gv).1 ∧ "Q1" ∈ l ∧ "Q2" ∈ l) ∧
     (∀ c l, (c, l) ∈ (groupParents (bucketOf c3gv) [] c3gv).1 →
       ("Q1" ∈ l ∨ "Q2" ∈ l) → c = "w") ∧
     ((groupParents (bucketOf c3gv) [] c3gv).1.map Prod.fst).Nodup ∧
     findA "Q1" (parseGlobalVars c3gv c3ns).2 = some (imageStub "Q1") ∧
     findA "Q2" (parseGlobalVars c3gv c3ns).2 = some (imageStub "Q2")) := by
  refine ⟨by decide, by decide, by decide, ?_⟩
  exact spec_C3_grouped_parents_stubbed c3gv c3ns "Q1" "Q2"
    (.obj (.cons "childrenId" (.str "w") .nil))
    (.obj (.cons "childrenId" (.str "w") .nil)) "w"
    (by decide) (by decide) (by decide) (by decide) (by decide) (by decide)
    (by decide) (by decide) (by decide) (by decide)
